import Mathlib

/-!
# Verification of the bcoin consensus core

Shallow embedding of the consensus-critical parts of the bcoin library:
the script interpreter (`lib/script/script.js`), the non-contextual block
validator (`lib/primitives/block.js`) and the coins codec
(`lib/chain/coins.js`).  Byte strings are `List Nat` with every element
below 256; JavaScript 32-bit coercions (`| 0`, `>>>`) are modelled
explicitly.
-/

set_option maxHeartbeats 1000000
set_option maxRecDepth 8192

namespace Bcoin

/-- A byte string: every element is a byte value. -/
def Bytes (l : List Nat) : Prop := ∀ b ∈ l, b < 256

instance (l : List Nat) : Decidable (Bytes l) := by
  unfold Bytes; infer_instance

/-! ## JavaScript 32-bit integer coercions -/

/-- JavaScript `ToUint32` of an integer. -/
def toUint32 (i : Int) : Nat := (i % 4294967296).toNat

/-- JavaScript `ToInt32` of an integer (wraps into `[-2^31, 2^31)`). -/
def toInt32 (i : Int) : Int :=
  let m := i % 4294967296
  if m < 2147483648 then m else m - 4294967296

/-- JavaScript `a >>> b` on numbers: both operands are converted with
`ToUint32`, and the shift count is taken modulo 32. -/
def jsUshr (a b : Int) : Nat :=
  toUint32 a >>> (toUint32 b % 32)

/-! ## Block subsidy (`Block.reward`, lib/primitives/block.js:538) -/

namespace Block

/-- `Block.reward(height, network)` from lib/primitives/block.js.
`halvings = height / network.halvingInterval | 0` uses JavaScript's
int32 truncation; `2500000000 >>> (halvings - 1)` uses the `>>>`
semantics above.  The halving interval is taken as a parameter
(`Network.get(network).halvingInterval`; the network module is not part
of the sources). -/
def reward (height halvingInterval : Nat) : Nat :=
  let halvings : Int := toInt32 ((height / halvingInterval : Nat) : Int)
  if 33 ≤ halvings then 0
  else if halvings = 0 then 5000000000
  else jsUshr 2500000000 (halvings - 1)

end Block

/-! ## Script serialization (lib/script/script.js:3751, 3818) -/

/-- A script opcode as produced by `Script.decode`: `value` is the opcode
byte (`-1` is the parse-error sentinel), `data` the push payload. -/
structure Opcode where
  value : Int
  data : Option (List Nat)
deriving DecidableEq, Repr

namespace Script

/-- Little-endian 16-bit serialization (`BufferWriter#writeU16`). -/
def u16le (n : Nat) : List Nat := [n % 256, n / 256 % 256]

/-- Little-endian 32-bit serialization (`BufferWriter#writeU32`). -/
def u32le (n : Nat) : List Nat :=
  [n % 256, n / 256 % 256, n / 65536 % 256, n / 16777216 % 256]

/-- Body of `Script.decode` (lib/script/script.js:3751), structurally
recursive on a fuel bound so that it evaluates in the kernel.  One unit
of fuel is spent per parsed opcode; since every opcode consumes at least
one byte, fuel equal to the byte length is always sufficient. -/
def decodeGo : Nat → List Nat → List Opcode
  | _, [] => []
  | 0, _ :: _ => []
  | fuel + 1, op :: rest =>
    if 1 ≤ op ∧ op ≤ 0x4b then
      if rest.length < op then [⟨-1, none⟩]
      else ⟨op, some (rest.take op)⟩ :: decodeGo fuel (rest.drop op)
    else if op = 0x4c then
      if rest.length < 1 then [⟨-1, none⟩]
      else if (rest.drop 1).length < rest.getD 0 0 then [⟨-1, none⟩]
      else ⟨0x4c, some ((rest.drop 1).take (rest.getD 0 0))⟩ ::
        decodeGo fuel ((rest.drop 1).drop (rest.getD 0 0))
    else if op = 0x4d then
      if rest.length < 2 then [⟨-1, none⟩]
      else if (rest.drop 2).length < rest.getD 0 0 + 256 * rest.getD 1 0 then
        [⟨-1, none⟩]
      else
        ⟨0x4d, some ((rest.drop 2).take (rest.getD 0 0 + 256 * rest.getD 1 0))⟩ ::
          decodeGo fuel ((rest.drop 2).drop (rest.getD 0 0 + 256 * rest.getD 1 0))
    else if op = 0x4e then
      if rest.length < 4 then [⟨-1, none⟩]
      else if (rest.drop 4).length < rest.getD 0 0 + 256 * rest.getD 1 0
          + 65536 * rest.getD 2 0 + 16777216 * rest.getD 3 0 then
        [⟨-1, none⟩]
      else
        ⟨0x4e, some ((rest.drop 4).take (rest.getD 0 0 + 256 * rest.getD 1 0
            + 65536 * rest.getD 2 0 + 16777216 * rest.getD 3 0))⟩ ::
          decodeGo fuel ((rest.drop 4).drop (rest.getD 0 0 + 256 * rest.getD 1 0
            + 65536 * rest.getD 2 0 + 16777216 * rest.getD 3 0))
    else ⟨op, none⟩ :: decodeGo fuel rest

/-- `Script.decode` from lib/script/script.js:3751.  Direct pushes use
opcode bytes 0x01–0x4b; 0x4c/0x4d/0x4e are PUSHDATA1/2/4 with an 8-, 16-
or 32-bit little-endian length.  A push that asserts more bytes than
remain emits the `-1` parse-error opcode and stops. -/
def decode (raw : List Nat) : List Opcode := decodeGo raw.length raw

/-- Serialization of a single opcode, per the loop body of
`Script.encode` (lib/script/script.js:3818).  `none` models the thrown
exception (a parse-error opcode, or a data payload attached to a
non-push opcode value); a data push with value ≤ 0x4b writes the data
length byte, PUSHDATA1/2/4 write their explicit length prefixes. -/
def encodeOp (o : Opcode) : Option (List Nat) :=
  if o.value = -1 then none
  else
    match o.data with
    | some d =>
      if o.value ≤ 0x4b then some (d.length % 256 :: d)
      else if o.value = 0x4c then some (0x4c :: d.length % 256 :: d)
      else if o.value = 0x4d then some (0x4d :: (u16le d.length ++ d))
      else if o.value = 0x4e then some (0x4e :: (u32le d.length ++ d))
      else none
    | none => some [o.value.toNat % 256]

/-- `Script.encode` from lib/script/script.js:3818: concatenation of the
per-opcode serializations, failing if any opcode is unserializable. -/
def encode : List Opcode → Option (List Nat)
  | [] => some []
  | o :: rest =>
    match encodeOp o, encode rest with
    | some h, some t => some (h ++ t)
    | _, _ => none

/-- A code list contains the parse-error sentinel. -/
def hasParseError (code : List Opcode) : Bool :=
  code.any fun o => o.value == -1

end Script

/-! ## Verification flags and script errors -/

/-- The script verification flags (`constants.flags.VERIFY_*`), one
Boolean per mask bit. -/
structure Flags where
  p2sh : Bool
  strictenc : Bool
  dersig : Bool
  lows : Bool
  nulldummy : Bool
  sigpushonly : Bool
  minimaldata : Bool
  discourageNops : Bool
  cleanstack : Bool
  cltv : Bool
  csv : Bool
  witness : Bool
  discourageWitness : Bool
  minimalif : Bool
  nullfail : Bool
  witnessPubkeytype : Bool
  mast : Bool
deriving DecidableEq, Repr

/-- No verification flags (`VERIFY_NONE`). -/
def noFlags : Flags :=
  ⟨false, false, false, false, false, false, false, false, false,
   false, false, false, false, false, false, false, false⟩

/-- The closed set of script error identifiers thrown as
`ScriptError(...)` by the interpreter and verify driver. -/
inductive ScriptErr where
  | SCRIPT_SIZE | PUSH_SIZE | OP_COUNT | STACK_SIZE | SIG_COUNT
  | PUBKEY_COUNT | INVALID_STACK_OPERATION | INVALID_ALTSTACK_OPERATION
  | VERIFY | EQUALVERIFY | NUMEQUALVERIFY | CHECKSIGVERIFY
  | CHECKMULTISIGVERIFY | BAD_OPCODE | DISABLED_OPCODE | OP_RETURN
  | UNBALANCED_CONDITIONAL | NEGATIVE_LOCKTIME | UNSATISFIED_LOCKTIME
  | DISCOURAGE_UPGRADABLE_NOPS | MINIMALDATA | MINIMALIF | SIG_DER
  | SIG_HIGH_S | SIG_HASHTYPE | SIG_NULLDUMMY | NULLFAIL | PUBKEYTYPE
  | WITNESS_PUBKEYTYPE | EVAL_FALSE | CLEANSTACK | WITNESS_MALLEATED
  | WITNESS_MALLEATED_P2SH | WITNESS_UNEXPECTED
  | WITNESS_PROGRAM_WITNESS_EMPTY | WITNESS_PROGRAM_MISMATCH
  | WITNESS_PROGRAM_WRONG_LENGTH | DISCOURAGE_UPGRADABLE_WITNESS_PROGRAM
  | INVALID_MAST_STACK | SIG_PUSHONLY | UNKNOWN_ERROR
deriving DecidableEq, Repr

/-! ## Script numbers (lib/script/script.js:1334, 1395) -/

/-- Little-endian base-256 digits of a natural number, least significant
first, no trailing zero digit (`BN#toArray('le')` of the magnitude). -/
def natToLE (n : Nat) : List Nat :=
  if n = 0 then [] else n % 256 :: natToLE (n / 256)
  decreasing_by exact Nat.div_lt_self (Nat.pos_of_ne_zero (by assumption)) (by norm_num)

/-- Value of a little-endian byte string (`new BN(value, 'le')`). -/
def leToNat : List Nat → Nat
  | [] => 0
  | b :: rest => b + 256 * leToNat rest

/-- Clear bit `k` of `n` (`BN#setn(k, 0)`). -/
def clearBit (n k : Nat) : Nat := if n.testBit k then n - 2 ^ k else n

namespace Script

/-- `Script.num` from lib/script/script.js:1334: bounded little-endian
signed decoding with the sign bit in the top byte, and the
minimal-encoding check under `VERIFY_MINIMALDATA`.  Thrown
`ScriptError('UNKNOWN_ERROR', ...)` exceptions are modelled as
`.error .UNKNOWN_ERROR`. -/
def num (value : List Nat) (flags : Flags) (size : Nat) :
    Except ScriptErr Int :=
  if value.length > size then .error .UNKNOWN_ERROR
  else if flags.minimaldata = true ∧ 0 < value.length
      ∧ value.getD (value.length - 1) 0 &&& 0x7f = 0
      ∧ (value.length = 1 ∨ value.getD (value.length - 2) 0 &&& 0x80 = 0) then
    .error .UNKNOWN_ERROR
  else if value.length = 0 then .ok 0
  else if value.getD (value.length - 1) 0 &&& 0x80 ≠ 0 then
    .ok (-(clearBit (leToNat value) (8 * value.length - 1) : Int))
  else .ok (leToNat value)

/-- `Script.array` from lib/script/script.js:1395: minimal little-endian
signed encoding.  The magnitude's digits are extended by a sign byte
when the top digit has the high bit set, otherwise a negative value sets
the high bit on the top digit (`result[result.length - 1] |= 0x80`). -/
def array (v : Int) : List Nat :=
  if v = 0 then []
  else
    let result := natToLE v.natAbs
    if result.getD (result.length - 1) 0 &&& 0x80 ≠ 0 then
      result ++ [if v < 0 then 0x80 else 0x00]
    else if v < 0 then
      result.dropLast ++ [result.getD (result.length - 1) 0 ||| 0x80]
    else result

end Script

/-! ## Opcode values (`constants.opcodes`) -/

namespace opcodes

def OP_0 : Int := 0x00
def OP_PUSHDATA1 : Int := 0x4c
def OP_PUSHDATA2 : Int := 0x4d
def OP_PUSHDATA4 : Int := 0x4e
def OP_1NEGATE : Int := 0x4f
def OP_RESERVED : Int := 0x50
def OP_1 : Int := 0x51
def OP_16 : Int := 0x60
def OP_NOP : Int := 0x61
def OP_VER : Int := 0x62
def OP_IF : Int := 0x63
def OP_NOTIF : Int := 0x64
def OP_VERIF : Int := 0x65
def OP_VERNOTIF : Int := 0x66
def OP_ELSE : Int := 0x67
def OP_ENDIF : Int := 0x68
def OP_VERIFY : Int := 0x69
def OP_RETURN : Int := 0x6a
def OP_TOALTSTACK : Int := 0x6b
def OP_FROMALTSTACK : Int := 0x6c
def OP_2DROP : Int := 0x6d
def OP_2DUP : Int := 0x6e
def OP_3DUP : Int := 0x6f
def OP_2OVER : Int := 0x70
def OP_2ROT : Int := 0x71
def OP_2SWAP : Int := 0x72
def OP_IFDUP : Int := 0x73
def OP_DEPTH : Int := 0x74
def OP_DROP : Int := 0x75
def OP_DUP : Int := 0x76
def OP_NIP : Int := 0x77
def OP_OVER : Int := 0x78
def OP_PICK : Int := 0x79
def OP_ROLL : Int := 0x7a
def OP_ROT : Int := 0x7b
def OP_SWAP : Int := 0x7c
def OP_TUCK : Int := 0x7d
def OP_CAT : Int := 0x7e
def OP_SUBSTR : Int := 0x7f
def OP_LEFT : Int := 0x80
def OP_RIGHT : Int := 0x81
def OP_SIZE : Int := 0x82
def OP_INVERT : Int := 0x83
def OP_AND : Int := 0x84
def OP_OR : Int := 0x85
def OP_XOR : Int := 0x86
def OP_EQUAL : Int := 0x87
def OP_EQUALVERIFY : Int := 0x88
def OP_1ADD : Int := 0x8b
def OP_1SUB : Int := 0x8c
def OP_2MUL : Int := 0x8d
def OP_2DIV : Int := 0x8e
def OP_NEGATE : Int := 0x8f
def OP_ABS : Int := 0x90
def OP_NOT : Int := 0x91
def OP_0NOTEQUAL : Int := 0x92
def OP_ADD : Int := 0x93
def OP_SUB : Int := 0x94
def OP_MUL : Int := 0x95
def OP_DIV : Int := 0x96
def OP_MOD : Int := 0x97
def OP_LSHIFT : Int := 0x98
def OP_RSHIFT : Int := 0x99
def OP_BOOLAND : Int := 0x9a
def OP_BOOLOR : Int := 0x9b
def OP_NUMEQUAL : Int := 0x9c
def OP_NUMEQUALVERIFY : Int := 0x9d
def OP_NUMNOTEQUAL : Int := 0x9e
def OP_LESSTHAN : Int := 0x9f
def OP_GREATERTHAN : Int := 0xa0
def OP_LESSTHANOREQUAL : Int := 0xa1
def OP_GREATERTHANOREQUAL : Int := 0xa2
def OP_MIN : Int := 0xa3
def OP_MAX : Int := 0xa4
def OP_WITHIN : Int := 0xa5
def OP_RIPEMD160 : Int := 0xa6
def OP_SHA1 : Int := 0xa7
def OP_SHA256 : Int := 0xa8
def OP_HASH160 : Int := 0xa9
def OP_HASH256 : Int := 0xaa
def OP_CODESEPARATOR : Int := 0xab
def OP_CHECKSIG : Int := 0xac
def OP_CHECKSIGVERIFY : Int := 0xad
def OP_CHECKMULTISIG : Int := 0xae
def OP_CHECKMULTISIGVERIFY : Int := 0xaf
def OP_NOP1 : Int := 0xb0
def OP_CHECKLOCKTIMEVERIFY : Int := 0xb1
def OP_CHECKSEQUENCEVERIFY : Int := 0xb2
def OP_NOP4 : Int := 0xb3
def OP_NOP10 : Int := 0xb9

end opcodes

/-! ## Script, transaction and crypto interfaces -/

/-- A `Script` object: the preserved serialization plus the parsed
opcode list. -/
structure ScriptData where
  raw : List Nat
  code : List Opcode
deriving DecidableEq, Repr

/-- `new Script(code)` on an opcode array: re-encode for `raw`.
(`Script.encode` throws only on parse-error opcodes; none of the
internal callers pass one.) -/
def fromCode (code : List Opcode) : ScriptData :=
  ⟨(Script.encode code).getD [], code⟩

/-- `Script.fromRaw`: preserve the bytes, decode the code. -/
def scriptFromRaw (raw : List Nat) : ScriptData :=
  ⟨raw, Script.decode raw⟩

/-- A transaction input as consumed by the interpreter: only the
sequence number is read. -/
structure TxIn where
  sequence : Nat
deriving DecidableEq, Repr

/-- The transaction context consumed by the interpreter (§6 of the
spec): read-only fields plus the external `signatureHash` contract. -/
structure Tx where
  version : Nat
  locktime : Nat
  inputs : List TxIn
  signatureHash : Nat → ScriptData → Nat → Nat → List Nat

/-- External cryptographic collaborators (§6 of the spec): fixed-width
digests, the ECDSA verifier behind `SigCache.verify`, the low-S test,
and the Merkle-branch checker used by MAST. -/
structure Crypto where
  ripemd160 : List Nat → List Nat
  sha1 : List Nat → List Nat
  sha256 : List Nat → List Nat
  hash160 : List Nat → List Nat
  hash256 : List Nat → List Nat
  ecVerify : List Nat → List Nat → List Nat → Bool → Bool → Bool
  isLowS : List Nat → Bool
  checkMerkleBranch : List Nat → List (List Nat) → Nat → List Nat

/-- A witness (`witness.items`). -/
structure Witness where
  items : List (List Nat)
deriving DecidableEq, Repr

/-! ## Stack operations

Modelled from the spec (§3): a sequence of byte vectors with
index-from-top access; `top n` here is the source's `top(-n)`,
`erase a b` is `erase(-a, -b)` (half-open), and similarly for `set`,
`swap`, `insert` and `remove`.  The stack grows at the end of the
list. -/

namespace Stack

def top (s : List (List Nat)) (n : Nat) : List Nat := s.getD (s.length - n) []

def push (s : List (List Nat)) (v : List Nat) : List (List Nat) := s ++ [v]

def pop (s : List (List Nat)) : List (List Nat) := s.dropLast

def setAt (s : List (List Nat)) (n : Nat) (v : List Nat) : List (List Nat) :=
  s.set (s.length - n) v

def swap (s : List (List Nat)) (a b : Nat) : List (List Nat) :=
  (s.set (s.length - a) (s.getD (s.length - b) [])).set (s.length - b)
    (s.getD (s.length - a) [])

def erase (s : List (List Nat)) (a b : Nat) : List (List Nat) :=
  s.take (s.length - a) ++ s.drop (s.length - b)

def insertAt (s : List (List Nat)) (n : Nat) (v : List Nat) : List (List Nat) :=
  s.take (s.length - n) ++ [v] ++ s.drop (s.length - n)

def remove (s : List (List Nat)) (n : Nat) : List (List Nat) :=
  s.take (s.length - n) ++ s.drop (s.length - n + 1)

end Stack

namespace Script

/-- `Script.bool` (CastToBool, lib/script/script.js:1308): true iff some
byte is nonzero, except that negative zero (`0x80` in the top byte
alone) is false. -/
def bool : List Nat → Bool
  | [] => false
  | [b] => decide (b ≠ 0 ∧ b ≠ 0x80)
  | b :: rest => if b ≠ 0 then true else Script.bool rest

/-- `Script.isMinimal` (lib/script/script.js:1521) under an explicit
flag set. -/
def isMinimal (data : List Nat) (opv : Int) (flags : Flags) : Bool :=
  if flags.minimaldata = false then true
  else if data.length = 0 then decide (opv = opcodes.OP_0)
  else if data.length = 1 ∧ 1 ≤ data.getD 0 0 ∧ data.getD 0 0 ≤ 16 then false
  else if data.length = 1 ∧ data.getD 0 0 = 0x81 then false
  else if data.length ≤ 75 then decide (opv = (data.length : Int))
  else if data.length ≤ 255 then decide (opv = opcodes.OP_PUSHDATA1)
  else if data.length ≤ 65535 then decide (opv = opcodes.OP_PUSHDATA2)
  else true

/-- `Script.isMinimal` with `flags == null`: the default
`STANDARD_VERIFY_FLAGS` include `VERIFY_MINIMALDATA` (the constants
module is not under src/; modelled from bcoin's standard flag set). -/
def isMinimalStd (data : List Nat) (opv : Int) : Bool :=
  isMinimal data opv { noFlags with minimaldata := true }

/-- `Script#getSubscript` (lib/script/script.js:243): clone when
`lastSep` is 0, else the code from `lastSep` up to a parse error. -/
def getSubscript (s : ScriptData) (lastSep : Nat) : ScriptData :=
  if lastSep = 0 then s
  else fromCode ((s.code.drop lastSep).takeWhile fun op => op.value ≠ -1)

/-- Forward scan of `Script#removeData` (lib/script/script.js:1448):
drop minimal pushes equal to `data`; at a parse-error opcode stop, and
drop the parse-error opcode itself iff a match was found before it.
Returns the new code and whether any match was found. -/
def removeDataGo (data : List Nat) : List Opcode → Bool → List Opcode × Bool
  | [], found => ([], found)
  | op :: rest, found =>
    if op.value = -1 then
      (if found then rest else op :: rest, found)
    else
      match op.data with
      | some d =>
        if isMinimalStd d op.value = true ∧ d = data then
          removeDataGo data rest true
        else
          let (r, f) := removeDataGo data rest found
          (op :: r, f)
      | none =>
        let (r, f) := removeDataGo data rest found
        (op :: r, f)

/-- `Script#removeData`: splice out matching data pushes and re-encode;
a script without matches is left untouched. -/
def removeData (s : ScriptData) (data : List Nat) : ScriptData :=
  let (code2, found) := removeDataGo data s.code false
  if found then fromCode code2 else s

/-- `Script.isKeyEncoding` (lib/script/script.js:2781). -/
def isKeyEncoding (key : List Nat) : Bool :=
  if key.length < 33 then false
  else if key.getD 0 0 = 0x04 then decide (key.length = 65)
  else if key.getD 0 0 = 0x02 ∨ key.getD 0 0 = 0x03 then
    decide (key.length = 33)
  else false

/-- `Script.isCompressedEncoding` (lib/script/script.js:2763). -/
def isCompressedEncoding (key : List Nat) : Bool :=
  decide (key.length = 33 ∧ (key.getD 0 0 = 0x02 ∨ key.getD 0 0 = 0x03))

/-- `Script.isSignatureEncoding` (BIP66, lib/script/script.js:2849). -/
def isSignatureEncoding (sig : List Nat) : Bool :=
  if sig.length < 9 then false
  else if sig.length > 73 then false
  else if sig.getD 0 0 ≠ 0x30 then false
  else if sig.getD 1 0 ≠ sig.length - 3 then false
  else if sig.length ≤ 5 + sig.getD 3 0 then false
  else if sig.getD 3 0 + sig.getD (5 + sig.getD 3 0) 0 + 7 ≠ sig.length then
    false
  else if sig.getD 2 0 ≠ 0x02 then false
  else if sig.getD 3 0 = 0 then false
  else if sig.getD 4 0 &&& 0x80 ≠ 0 then false
  else if 1 < sig.getD 3 0 ∧ sig.getD 4 0 = 0
      ∧ sig.getD 5 0 &&& 0x80 = 0 then false
  else if sig.getD (sig.getD 3 0 + 4) 0 ≠ 0x02 then false
  else if sig.getD (5 + sig.getD 3 0) 0 = 0 then false
  else if sig.getD (sig.getD 3 0 + 6) 0 &&& 0x80 ≠ 0 then false
  else if 1 < sig.getD (5 + sig.getD 3 0) 0
      ∧ sig.getD (sig.getD 3 0 + 6) 0 = 0
      ∧ sig.getD (sig.getD 3 0 + 7) 0 &&& 0x80 = 0 then false
  else true

/-- `Script.isHashType` (lib/script/script.js:2939): the sighash byte
with `ANYONECANPAY` masked off must be ALL, NONE or SINGLE. -/
def isHashType (sig : List Nat) : Bool :=
  if sig.length = 0 then false
  else
    decide (1 ≤ sig.getD (sig.length - 1) 0 &&& 0x7f
      ∧ sig.getD (sig.length - 1) 0 &&& 0x7f ≤ 3)

/-- `Script.isLowDER` (lib/script/script.js:2961). -/
def isLowDER (C : Crypto) (sig : List Nat) : Bool :=
  if isSignatureEncoding sig = false then false
  else C.isLowS sig.dropLast

/-- `Script.isDummy` (lib/script/script.js:2724). -/
def isDummy (data : List Nat) : Bool := decide (data.length = 0)

/-- `Script.validateSignature` (lib/script/script.js:2812). -/
def validateSignature (C : Crypto) (sig : List Nat) (flags : Flags) :
    Except ScriptErr Unit :=
  if sig.length = 0 then .ok ()
  else if (flags.dersig = true ∨ flags.lows = true ∨ flags.strictenc = true)
      ∧ isSignatureEncoding sig = false then .error .SIG_DER
  else if flags.lows = true ∧ isLowDER C sig = false then .error .SIG_HIGH_S
  else if flags.strictenc = true ∧ isHashType sig = false then
    .error .SIG_HASHTYPE
  else .ok ()

/-- `Script.validateKey` (lib/script/script.js:2736). -/
def validateKey (key : List Nat) (flags : Flags) (version : Nat) :
    Except ScriptErr Unit :=
  if flags.strictenc = true ∧ isKeyEncoding key = false then
    .error .PUBKEYTYPE
  else if version = 1 ∧ flags.witnessPubkeytype = true
      ∧ isCompressedEncoding key = false then .error .WITNESS_PUBKEYTYPE
  else .ok ()

/-- `Script.checksig` (lib/script/script.js:3668): historical mode when
none of DERSIG/LOW_S/STRICTENC is set, high-S allowed unless LOW_S. -/
def checksig (C : Crypto) (msg sig key : List Nat) (flags : Flags) : Bool :=
  C.ecVerify msg sig.dropLast key
    (!(flags.dersig || flags.lows || flags.strictenc))
    (!flags.lows)

/-- `Script.checkLocktime` (lib/script/script.js:1244). -/
def checkLocktime (locktime : Int) (tx : Tx) (i : Nat) : Bool :=
  if ¬(((tx.locktime : Int) < 500000000 ∧ locktime < 500000000)
      ∨ (500000000 ≤ (tx.locktime : Int) ∧ 500000000 ≤ locktime)) then false
  else if (tx.locktime : Int) < locktime then false
  else if (tx.inputs.getD i ⟨0⟩).sequence = 0xffffffff then false
  else true

/-- `Script.checkSequence` (lib/script/script.js:1271).  The constants
`DISABLE_FLAG = 1 <<< 31`, `TYPE_FLAG = 1 <<< 22` and `MASK = 0xffff`
come from `constants.sequence` (not under src/; the values are the
BIP 68 ones the spec references). -/
def checkSequence (sequence : Int) (tx : Tx) (i : Nat) : Bool :=
  let txSequence := (tx.inputs.getD i ⟨0⟩).sequence
  if tx.version < 2 then false
  else if txSequence &&& 0x80000000 ≠ 0 then false
  else
    let txSequenceMasked := txSequence &&& 0x40ffff
    let sequenceMasked := toUint32 sequence &&& 0x40ffff
    if ¬((txSequenceMasked < 0x400000 ∧ sequenceMasked < 0x400000)
        ∨ (0x400000 ≤ txSequenceMasked ∧ 0x400000 ≤ sequenceMasked)) then
      false
    else if txSequenceMasked < sequenceMasked then false
    else true

end Script

/-! ## The interpreter (`Script#execute`, lib/script/script.js:297) -/

/-- The mutable state of the execution loop: main stack, alt stack,
conditional state, negate depth, non-push opcode count, last code
separator, instruction pointer. -/
structure ExecState where
  stack : List (List Nat)
  alt : List (List Nat)
  state : List Bool
  negate : Nat
  opCount : Nat
  lastSep : Nat
  ip : Nat
deriving DecidableEq, Repr

namespace Script

/-- The IF/NOTIF/ELSE/ENDIF block of the execution loop
(lib/script/script.js:368).  OP_VERIF and OP_VERNOTIF always fail. -/
def condStep (flags : Flags) (version : Nat) (op : Int) (st : ExecState) :
    Except ScriptErr ExecState :=
  if op = opcodes.OP_IF ∨ op = opcodes.OP_NOTIF then
    if st.negate = 0 then
      if st.stack.length < 1 then .error .UNBALANCED_CONDITIONAL
      else
        let v := Stack.top st.stack 1
        if version = 1 ∧ flags.minimalif = true ∧ 1 < v.length then
          .error .MINIMALIF
        else if version = 1 ∧ flags.minimalif = true ∧ v.length = 1
            ∧ v.getD 0 0 ≠ 1 then .error .MINIMALIF
        else
          let val := Script.bool v
          let val := if op = opcodes.OP_NOTIF then !val else val
          .ok { st with stack := Stack.pop st.stack,
                        state := st.state ++ [val],
                        negate := if val then st.negate else st.negate + 1 }
    else
      .ok { st with state := st.state ++ [false], negate := st.negate + 1 }
  else if op = opcodes.OP_ELSE then
    if st.state.length = 0 then .error .UNBALANCED_CONDITIONAL
    else
      let toggled := !(st.state.getD (st.state.length - 1) false)
      .ok { st with state := st.state.set (st.state.length - 1) toggled,
                    negate := if toggled then st.negate - 1 else st.negate + 1 }
  else if op = opcodes.OP_ENDIF then
    if st.state.length = 0 then .error .UNBALANCED_CONDITIONAL
    else
      let popped := st.state.getD (st.state.length - 1) false
      .ok { st with state := st.state.dropLast,
                    negate := if popped then st.negate else st.negate - 1 }
  else .error .BAD_OPCODE

/-- The signature-matching loop of OP_CHECKMULTISIG
(lib/script/script.js:1055), fuelled by the key count (each pass
consumes one key, so `n + 2` units always suffice; exhaustion is
unreachable). -/
def msCheckLoop (C : Crypto) (flags : Flags) (t : Tx) (index version : Nat)
    (subscript : ScriptData) (stack : List (List Nat)) :
    Nat → Bool → Int → Int → Nat → Nat → Except ScriptErr Bool
  | 0, _, _, _, _, _ => .error .UNKNOWN_ERROR
  | fuel + 1, res, m, n, isig, ikey =>
    if res = true ∧ 0 < m then do
      let sig := Stack.top stack isig
      let key := Stack.top stack ikey
      let _ ← Script.validateSignature C sig flags
      let _ ← Script.validateKey key flags version
      let matched :=
        if 0 < sig.length then
          Script.checksig C
            (t.signatureHash index subscript (sig.getD (sig.length - 1) 0)
              version) sig key flags
        else false
      let isig' := if matched then isig + 1 else isig
      let m' := if matched then m - 1 else m
      let n' := n - 1
      let res' := if n' < m' then false else res
      msCheckLoop C flags t index version subscript stack fuel res' m' n'
        isig' (ikey + 1)
    else .ok res

/-- The pop loop of OP_CHECKMULTISIG (`while (i-- > 1)`,
lib/script/script.js:1079) with the NULLFAIL check. -/
def msPopLoop (flags : Flags) (res : Bool) :
    Nat → Nat → List (List Nat) → Except ScriptErr (List (List Nat))
  | 0, _, stack => .ok stack
  | 1, _, stack => .ok stack
  | i + 2, ikey2, stack =>
    if res = false ∧ flags.nullfail = true ∧ ikey2 = 0
        ∧ (Stack.top stack 1).length ≠ 0 then .error .NULLFAIL
    else
      msPopLoop flags res (i + 1) (if 0 < ikey2 then ikey2 - 1 else ikey2)
        (Stack.pop stack)

/-- The main opcode switch of the execution loop
(lib/script/script.js:439), reached only for non-push opcodes on an
executing branch.  The OP_CAT..OP_RSHIFT cases lower in the source
switch are unreachable (those opcodes throw `DISABLED_OPCODE` first)
and are omitted. -/
def execOp (C : Crypto) (flags : Flags) (tx : Option Tx)
    (index version : Nat) (s : ScriptData) (op : Int) (st : ExecState) :
    Except ScriptErr ExecState :=
  if op = opcodes.OP_0 then
    .ok { st with stack := Stack.push st.stack [] }
  else if op = opcodes.OP_1NEGATE then
    .ok { st with stack := Stack.push st.stack [0x81] }
  else if opcodes.OP_1 ≤ op ∧ op ≤ opcodes.OP_16 then
    .ok { st with stack := Stack.push st.stack [(op - 0x50).toNat] }
  else if op = opcodes.OP_NOP then .ok st
  else if op = opcodes.OP_CHECKLOCKTIMEVERIFY then
    if flags.cltv = false then
      if flags.discourageNops = true then .error .DISCOURAGE_UPGRADABLE_NOPS
      else .ok st
    else
      match tx with
      | none => .error .UNKNOWN_ERROR
      | some t =>
        if st.stack.length = 0 then .error .INVALID_STACK_OPERATION
        else do
          let locktime ← Script.num (Stack.top st.stack 1) flags 5
          if locktime < 0 then .error .NEGATIVE_LOCKTIME
          else if Script.checkLocktime locktime t index = false then
            .error .UNSATISFIED_LOCKTIME
          else .ok st
  else if op = opcodes.OP_CHECKSEQUENCEVERIFY then
    if flags.csv = false then
      if flags.discourageNops = true then .error .DISCOURAGE_UPGRADABLE_NOPS
      else .ok st
    else
      match tx with
      | none => .error .UNKNOWN_ERROR
      | some t =>
        if st.stack.length = 0 then .error .INVALID_STACK_OPERATION
        else do
          let locktime ← Script.num (Stack.top st.stack 1) flags 5
          if locktime < 0 then .error .NEGATIVE_LOCKTIME
          else if toUint32 locktime &&& 0x80000000 ≠ 0 then .ok st
          else if Script.checkSequence locktime t index = false then
            .error .UNSATISFIED_LOCKTIME
          else .ok st
  else if op = opcodes.OP_NOP1
      ∨ (opcodes.OP_NOP4 ≤ op ∧ op ≤ opcodes.OP_NOP10) then
    if flags.discourageNops = true then .error .DISCOURAGE_UPGRADABLE_NOPS
    else .ok st
  else if op = opcodes.OP_VERIFY then
    if st.stack.length = 0 then .error .INVALID_STACK_OPERATION
    else if Script.bool (Stack.top st.stack 1) = false then .error .VERIFY
    else .ok { st with stack := Stack.pop st.stack }
  else if op = opcodes.OP_RETURN then .error .OP_RETURN
  else if op = opcodes.OP_TOALTSTACK then
    if st.stack.length = 0 then .error .INVALID_STACK_OPERATION
    else .ok { st with stack := Stack.pop st.stack,
                       alt := Stack.push st.alt (Stack.top st.stack 1) }
  else if op = opcodes.OP_FROMALTSTACK then
    if st.alt.length = 0 then .error .INVALID_ALTSTACK_OPERATION
    else .ok { st with stack := Stack.push st.stack (Stack.top st.alt 1),
                       alt := Stack.pop st.alt }
  else if op = opcodes.OP_2DROP then
    if st.stack.length < 2 then .error .INVALID_STACK_OPERATION
    else .ok { st with stack := Stack.pop (Stack.pop st.stack) }
  else if op = opcodes.OP_2DUP then
    if st.stack.length < 2 then .error .INVALID_STACK_OPERATION
    else
      let v1 := Stack.top st.stack 2
      let v2 := Stack.top st.stack 1
      .ok { st with stack := Stack.push (Stack.push st.stack v1) v2 }
  else if op = opcodes.OP_3DUP then
    if st.stack.length < 3 then .error .INVALID_STACK_OPERATION
    else
      let v1 := Stack.top st.stack 3
      let v2 := Stack.top st.stack 2
      let v3 := Stack.top st.stack 1
      let stack := Stack.push (Stack.push (Stack.push st.stack v1) v2) v3
      .ok { st with stack := stack }
  else if op = opcodes.OP_2OVER then
    if st.stack.length < 4 then .error .INVALID_STACK_OPERATION
    else
      let v1 := Stack.top st.stack 4
      let v2 := Stack.top st.stack 3
      .ok { st with stack := Stack.push (Stack.push st.stack v1) v2 }
  else if op = opcodes.OP_2ROT then
    if st.stack.length < 6 then .error .INVALID_STACK_OPERATION
    else
      let v1 := Stack.top st.stack 6
      let v2 := Stack.top st.stack 5
      let stack := Stack.push (Stack.push (Stack.erase st.stack 6 4) v1) v2
      .ok { st with stack := stack }
  else if op = opcodes.OP_2SWAP then
    if st.stack.length < 4 then .error .INVALID_STACK_OPERATION
    else .ok { st with stack := Stack.swap (Stack.swap st.stack 4 2) 3 1 }
  else if op = opcodes.OP_IFDUP then
    if st.stack.length = 0 then .error .INVALID_STACK_OPERATION
    else
      let val := Stack.top st.stack 1
      if Script.bool val = true then
        .ok { st with stack := Stack.push st.stack val }
      else .ok st
  else if op = opcodes.OP_DEPTH then
    .ok { st with stack := Stack.push st.stack (Script.array st.stack.length) }
  else if op = opcodes.OP_DROP then
    if st.stack.length = 0 then .error .INVALID_STACK_OPERATION
    else .ok { st with stack := Stack.pop st.stack }
  else if op = opcodes.OP_DUP then
    if st.stack.length = 0 then .error .INVALID_STACK_OPERATION
    else .ok { st with stack := Stack.push st.stack (Stack.top st.stack 1) }
  else if op = opcodes.OP_NIP then
    if st.stack.length < 2 then .error .INVALID_STACK_OPERATION
    else .ok { st with stack := Stack.remove st.stack 2 }
  else if op = opcodes.OP_OVER then
    if st.stack.length < 2 then .error .INVALID_STACK_OPERATION
    else .ok { st with stack := Stack.push st.stack (Stack.top st.stack 2) }
  else if op = opcodes.OP_PICK ∨ op = opcodes.OP_ROLL then
    if st.stack.length < 2 then .error .INVALID_STACK_OPERATION
    else do
      let num ← Script.num (Stack.top st.stack 1) flags 4
      let stack := Stack.pop st.stack
      if num < 0 ∨ (stack.length : Int) ≤ num then
        .error .INVALID_STACK_OPERATION
      else
        let val := Stack.top stack (num.toNat + 1)
        let stack :=
          if op = opcodes.OP_ROLL then Stack.remove stack (num.toNat + 1)
          else stack
        .ok { st with stack := Stack.push stack val }
  else if op = opcodes.OP_ROT then
    if st.stack.length < 3 then .error .INVALID_STACK_OPERATION
    else .ok { st with stack := Stack.swap (Stack.swap st.stack 3 2) 2 1 }
  else if op = opcodes.OP_SWAP then
    if st.stack.length < 2 then .error .INVALID_STACK_OPERATION
    else .ok { st with stack := Stack.swap st.stack 2 1 }
  else if op = opcodes.OP_TUCK then
    if st.stack.length < 2 then .error .INVALID_STACK_OPERATION
    else
      let stack := Stack.insertAt st.stack 2 (Stack.top st.stack 1)
      .ok { st with stack := stack }
  else if op = opcodes.OP_SIZE then
    if st.stack.length < 1 then .error .INVALID_STACK_OPERATION
    else
      let stack := Stack.push st.stack (Script.array (Stack.top st.stack 1).length)
      .ok { st with stack := stack }
  else if op = opcodes.OP_EQUAL ∨ op = opcodes.OP_EQUALVERIFY then
    if st.stack.length < 2 then .error .INVALID_STACK_OPERATION
    else
      let v1 := Stack.top st.stack 2
      let v2 := Stack.top st.stack 1
      let res := decide (v1 = v2)
      let stack := Stack.push (Stack.pop (Stack.pop st.stack))
        (if res then [1] else [])
      if op = opcodes.OP_EQUALVERIFY then
        if res = false then .error .EQUALVERIFY
        else .ok { st with stack := Stack.pop stack }
      else .ok { st with stack := stack }
  else if op = opcodes.OP_1ADD ∨ op = opcodes.OP_1SUB
      ∨ op = opcodes.OP_NEGATE ∨ op = opcodes.OP_ABS
      ∨ op = opcodes.OP_NOT ∨ op = opcodes.OP_0NOTEQUAL then
    -- OP_2MUL and OP_2DIV of this source case are unreachable (disabled)
    if st.stack.length < 1 then .error .INVALID_STACK_OPERATION
    else do
      let n ← Script.num (Stack.top st.stack 1) flags 4
      let r : Int :=
        if op = opcodes.OP_1ADD then n + 1
        else if op = opcodes.OP_1SUB then n - 1
        else if op = opcodes.OP_NEGATE then -n
        else if op = opcodes.OP_ABS then (if n < 0 then -n else n)
        else if op = opcodes.OP_NOT then (if n = 0 then 1 else 0)
        else (if n ≠ 0 then 1 else 0)
      .ok { st with stack := Stack.push (Stack.pop st.stack) (Script.array r) }
  else if op = opcodes.OP_ADD ∨ op = opcodes.OP_SUB
      ∨ op = opcodes.OP_BOOLAND ∨ op = opcodes.OP_BOOLOR
      ∨ op = opcodes.OP_NUMEQUAL ∨ op = opcodes.OP_NUMEQUALVERIFY
      ∨ op = opcodes.OP_NUMNOTEQUAL ∨ op = opcodes.OP_LESSTHAN
      ∨ op = opcodes.OP_GREATERTHAN ∨ op = opcodes.OP_LESSTHANOREQUAL
      ∨ op = opcodes.OP_GREATERTHANOREQUAL ∨ op = opcodes.OP_MIN
      ∨ op = opcodes.OP_MAX then
    -- OP_MUL..OP_RSHIFT of this source case are unreachable (disabled)
    if st.stack.length < 2 then .error .INVALID_STACK_OPERATION
    else do
      let n1 ← Script.num (Stack.top st.stack 2) flags 4
      let n2 ← Script.num (Stack.top st.stack 1) flags 4
      let r : Int :=
        if op = opcodes.OP_ADD then n1 + n2
        else if op = opcodes.OP_SUB then n1 - n2
        else if op = opcodes.OP_BOOLAND then
          (if n1 ≠ 0 ∧ n2 ≠ 0 then 1 else 0)
        else if op = opcodes.OP_BOOLOR then
          (if n1 ≠ 0 ∨ n2 ≠ 0 then 1 else 0)
        else if op = opcodes.OP_NUMEQUAL then (if n1 = n2 then 1 else 0)
        else if op = opcodes.OP_NUMEQUALVERIFY then
          (if n1 = n2 then 1 else 0)
        else if op = opcodes.OP_NUMNOTEQUAL then (if n1 ≠ n2 then 1 else 0)
        else if op = opcodes.OP_LESSTHAN then (if n1 < n2 then 1 else 0)
        else if op = opcodes.OP_GREATERTHAN then (if n2 < n1 then 1 else 0)
        else if op = opcodes.OP_LESSTHANOREQUAL then
          (if n1 ≤ n2 then 1 else 0)
        else if op = opcodes.OP_GREATERTHANOREQUAL then
          (if n2 ≤ n1 then 1 else 0)
        else if op = opcodes.OP_MIN then (if n1 < n2 then n1 else n2)
        else (if n2 < n1 then n1 else n2)
      let stack := Stack.push (Stack.pop (Stack.pop st.stack))
        (Script.array r)
      if op = opcodes.OP_NUMEQUALVERIFY then
        if Script.bool (Stack.top stack 1) = false then
          .error .NUMEQUALVERIFY
        else .ok { st with stack := Stack.pop stack }
      else .ok { st with stack := stack }
  else if op = opcodes.OP_WITHIN then
    if st.stack.length < 3 then .error .INVALID_STACK_OPERATION
    else do
      let n1 ← Script.num (Stack.top st.stack 3) flags 4
      let n2 ← Script.num (Stack.top st.stack 2) flags 4
      let n3 ← Script.num (Stack.top st.stack 1) flags 4
      let val := decide (n2 ≤ n1 ∧ n1 < n3)
      let stack := Stack.push (Stack.pop (Stack.pop (Stack.pop st.stack)))
        (if val then [1] else [])
      .ok { st with stack := stack }
  else if op = opcodes.OP_RIPEMD160 then
    if st.stack.length = 0 then .error .INVALID_STACK_OPERATION
    else
      let stack := Stack.push (Stack.pop st.stack) (C.ripemd160 (Stack.top st.stack 1))
      .ok { st with stack := stack }
  else if op = opcodes.OP_SHA1 then
    if st.stack.length = 0 then .error .INVALID_STACK_OPERATION
    else
      let stack := Stack.push (Stack.pop st.stack) (C.sha1 (Stack.top st.stack 1))
      .ok { st with stack := stack }
  else if op = opcodes.OP_SHA256 then
    if st.stack.length = 0 then .error .INVALID_STACK_OPERATION
    else
      let stack := Stack.push (Stack.pop st.stack) (C.sha256 (Stack.top st.stack 1))
      .ok { st with stack := stack }
  else if op = opcodes.OP_HASH160 then
    if st.stack.length = 0 then .error .INVALID_STACK_OPERATION
    else
      let stack := Stack.push (Stack.pop st.stack) (C.hash160 (Stack.top st.stack 1))
      .ok { st with stack := stack }
  else if op = opcodes.OP_HASH256 then
    if st.stack.length = 0 then .error .INVALID_STACK_OPERATION
    else
      let stack := Stack.push (Stack.pop st.stack) (C.hash256 (Stack.top st.stack 1))
      .ok { st with stack := stack }
  else if op = opcodes.OP_CODESEPARATOR then
    .ok { st with lastSep := st.ip + 1 }
  else if op = opcodes.OP_CHECKSIG ∨ op = opcodes.OP_CHECKSIGVERIFY then
    match tx with
    | none => .error .UNKNOWN_ERROR
    | some t =>
      if st.stack.length < 2 then .error .INVALID_STACK_OPERATION
      else do
        let sig := Stack.top st.stack 2
        let key := Stack.top st.stack 1
        let subscript := Script.getSubscript s st.lastSep
        let subscript :=
          if version = 0 then Script.removeData subscript sig else subscript
        let _ ← Script.validateSignature C sig flags
        let _ ← Script.validateKey key flags version
        let res :=
          if 0 < sig.length then
            Script.checksig C
              (t.signatureHash index subscript (sig.getD (sig.length - 1) 0)
                version) sig key flags
          else false
        if res = false ∧ flags.nullfail = true ∧ sig.length ≠ 0 then
          .error .NULLFAIL
        else
          let stack := Stack.push (Stack.pop (Stack.pop st.stack))
            (if res then [1] else [])
          if op = opcodes.OP_CHECKSIGVERIFY then
            if res = false then .error .CHECKSIGVERIFY
            else .ok { st with stack := Stack.pop stack }
          else .ok { st with stack := stack }
  else if op = opcodes.OP_CHECKMULTISIG
      ∨ op = opcodes.OP_CHECKMULTISIGVERIFY then
    match tx with
    | none => .error .UNKNOWN_ERROR
    | some t =>
      if st.stack.length < 1 then .error .INVALID_STACK_OPERATION
      else do
        let n ← Script.num (Stack.top st.stack 1) flags 4
        if ¬(0 ≤ n ∧ n ≤ 20) then .error .PUBKEY_COUNT
        else
          let opCount := st.opCount + n.toNat
          if 201 < opCount then .error .OP_COUNT
          else
            let st := { st with opCount := opCount }
            if st.stack.length < 2 + n.toNat then
              .error .INVALID_STACK_OPERATION
            else do
              let m ← Script.num (Stack.top st.stack (2 + n.toNat)) flags 4
              if ¬(0 ≤ m ∧ m ≤ n) then .error .SIG_COUNT
              else if st.stack.length < 3 + n.toNat + m.toNat then
                .error .INVALID_STACK_OPERATION
              else
                let subscript := Script.getSubscript s st.lastSep
                let subscript := (List.range m.toNat).foldl
                  (fun sub j =>
                    if version = 0 then
                      Script.removeData sub (Stack.top st.stack (3 + n.toNat + j))
                    else sub) subscript
                do
                  let res ← msCheckLoop C flags t index version subscript
                    st.stack (n.toNat + 2) true m n (3 + n.toNat) 2
                  let stack ← msPopLoop flags res (3 + n.toNat + m.toNat)
                    (n.toNat + 2) st.stack
                  if stack.length < 1 then .error .INVALID_STACK_OPERATION
                  else if flags.nulldummy = true
                      ∧ Script.isDummy (Stack.top stack 1) = false then
                    .error .SIG_NULLDUMMY
                  else
                    let stack := Stack.push (Stack.pop stack)
                      (if res then [1] else [])
                    if op = opcodes.OP_CHECKMULTISIGVERIFY then
                      if res = false then .error .CHECKMULTISIGVERIFY
                      else .ok { st with stack := Stack.pop stack }
                    else .ok { st with stack := stack }
  else .error .BAD_OPCODE

/-- The fifteen disabled opcodes (the first switch of the execution
loop, lib/script/script.js:349). -/
def isDisabled (op : Int) : Bool :=
  decide (op = opcodes.OP_CAT ∨ op = opcodes.OP_SUBSTR
    ∨ op = opcodes.OP_LEFT ∨ op = opcodes.OP_RIGHT
    ∨ op = opcodes.OP_INVERT ∨ op = opcodes.OP_AND
    ∨ op = opcodes.OP_OR ∨ op = opcodes.OP_XOR
    ∨ op = opcodes.OP_2MUL ∨ op = opcodes.OP_2DIV
    ∨ op = opcodes.OP_MUL ∨ op = opcodes.OP_DIV
    ∨ op = opcodes.OP_MOD ∨ op = opcodes.OP_LSHIFT
    ∨ op = opcodes.OP_RSHIFT)

/-- One iteration of the execution loop: the parse-error check, the
push handling (with `PUSH_SIZE` and skipped-branch `MINIMALDATA`
semantics), the op-count bound, the disabled-opcode failure (taken even
on skipped branches), the conditional block, the skip of non-executing
branches, and the main switch. -/
def step (C : Crypto) (flags : Flags) (tx : Option Tx) (index version : Nat)
    (s : ScriptData) (code : Opcode) (st : ExecState) :
    Except ScriptErr ExecState :=
  let op := code.value
  if op = -1 then .error .BAD_OPCODE
  else
    match code.data with
    | some data =>
      if 520 < data.length then .error .PUSH_SIZE
      else if st.negate = 0 then
        if Script.isMinimal data op flags = false then .error .MINIMALDATA
        else .ok { st with stack := Stack.push st.stack data }
      else .ok st
    | none =>
      let opCount :=
        if opcodes.OP_16 < op then st.opCount + 1 else st.opCount
      if opcodes.OP_16 < op ∧ 201 < opCount then .error .OP_COUNT
      else
        let st := { st with opCount := opCount }
        if isDisabled op = true then
          .error .DISABLED_OPCODE
        else if opcodes.OP_IF ≤ op ∧ op ≤ opcodes.OP_ENDIF then
          condStep flags version op st
        else if st.negate ≠ 0 then .ok st
        else execOp C flags tx index version s op st

/-- The `for` loop of `Script#execute` over the parsed code. -/
def execCode (C : Crypto) (flags : Flags) (tx : Option Tx)
    (index version : Nat) (s : ScriptData) :
    List Opcode → ExecState → Except ScriptErr ExecState
  | [], st => .ok st
  | c :: rest, st =>
    match step C flags tx index version s c st with
    | .error e => .error e
    | .ok st2 =>
      execCode C flags tx index version s rest { st2 with ip := st2.ip + 1 }

/-- `Script#execute` (lib/script/script.js:297): the size pre-check,
the loop, and the post-checks on stack size and leftover conditionals.
`MAX_SIZE = 10000`, `MAX_STACK = 1000` (spec glossary; the constants
module is not under src/). -/
def execute (s : ScriptData) (stack : List (List Nat)) (flags : Flags)
    (tx : Option Tx) (index version : Nat) (C : Crypto) :
    Except ScriptErr ExecState :=
  if 10000 < s.raw.length then .error .SCRIPT_SIZE
  else
    match execCode C flags tx index version s s.code
        ⟨stack, [], [], 0, 0, 0, 0⟩ with
    | .error e => .error e
    | .ok st =>
      if 1000 < st.stack.length + st.alt.length then .error .STACK_SIZE
      else if st.state.length ≠ 0 then .error .UNBALANCED_CONDITIONAL
      else .ok st

/-! ## The verify driver (`Script.verify`, lib/script/script.js:3349) -/

/-- `Script.getSmall` (lib/script/script.js:3324). -/
def getSmall (op : Int) : Int :=
  if op = opcodes.OP_0 then 0
  else if opcodes.OP_1 ≤ op ∧ op ≤ opcodes.OP_16 then op - 0x50
  else -1

/-- `Script#isPushOnly` (lib/script/script.js:3091): data pushes are
skipped (an empty buffer is still truthy), parse errors and opcodes
above OP_16 fail. -/
def isPushOnly (code : List Opcode) : Bool :=
  code.all fun op =>
    match op.data with
    | some _ => true
    | none => decide (op.value ≠ -1 ∧ op.value ≤ opcodes.OP_16)

/-- `Script#isScripthash` (lib/script/script.js:2130 region): exactly
`OP_HASH160 0x14 <20 bytes> OP_EQUAL`. -/
def isScripthash (raw : List Nat) : Bool :=
  decide (raw.length = 23 ∧ raw.getD 0 0 = 0xa9 ∧ raw.getD 1 0 = 0x14
    ∧ raw.getD 22 0 = 0x87)

/-- `Script#isProgram` (lib/script/script.js:2188). -/
def isProgram (raw : List Nat) : Bool :=
  decide ((4 ≤ raw.length ∧ raw.length ≤ 42)
    ∧ (raw.getD 0 0 = 0 ∨ (0x51 ≤ raw.getD 0 0 ∧ raw.getD 0 0 ≤ 0x60))
    ∧ raw.getD 1 0 + 2 = raw.length)

end Script

/-- A witness program (version opcode plus program data). -/
structure Program where
  version : Int
  data : List Nat
deriving DecidableEq, Repr

namespace Script

/-- `Script#toProgram` (lib/script/script.js:2208). -/
def toProgram (s : ScriptData) : Option Program :=
  if isProgram s.raw = true then
    some ⟨getSmall ((s.raw.getD 0 0 : Nat) : Int), s.raw.drop 2⟩
  else none

/-- `Script#fromPubkeyhash` (lib/script/script.js:1612): builds the raw
bytes and code directly (the hash is asserted to be 20 bytes). -/
def fromPubkeyhash (hash : List Nat) : ScriptData :=
  ⟨[0x76, 0xa9, 0x14] ++ hash ++ [0x88, 0xac],
   [⟨0x76, none⟩, ⟨0xa9, none⟩, ⟨0x14, some hash⟩, ⟨0x88, none⟩,
    ⟨0xac, none⟩]⟩

/-- `Opcode.fromPush(data).toRaw()`.  Modelled from the spec (§4.2, the
WITNESS_MALLEATED_P2SH check): the canonical push serialization of a
data blob; lib/script/opcode.js is not under src/. -/
def pushRaw (data : List Nat) : List Nat :=
  if data.length ≤ 0x4b then data.length :: data
  else if data.length ≤ 0xff then 0x4c :: data.length :: data
  else if data.length ≤ 0xffff then 0x4d :: (u16le data.length ++ data)
  else 0x4e :: (u32le data.length ++ data)

end Script

/-- JS `<<` on int32 operands: truncate, shift mod 32, wrap to int32. -/
def jsShl (a : Int) (b : Nat) : Int :=
  toInt32 ((toUint32 (toInt32 a) * 2 ^ (b % 32) : Nat) : Int)

/-- JS `|` : both sides to uint32 bit patterns, or, back to int32. -/
def jsOr (a b : Int) : Int :=
  toInt32 ((toUint32 a ||| toUint32 b : Nat) : Int)

namespace Script

/-- `Script.verifyMast` (lib/script/script.js:3531).  The source reads
`metadata[i]` and `posdata[i]` where `i` is the transaction input index
(not the loop counter `j`); out-of-range reads are `undefined`, which
the `<<`/`|` coercions turn into 0 — both quirks are translated
as-is.  The two `assert(...)` guards cannot fire for callers
(`verifyProgram` checks them); assertion failures are modelled as
`UNKNOWN_ERROR`. -/
def verifyMast (C : Crypto) (program : Program) (stack : List (List Nat))
    (output : ScriptData) (flags : Flags) (tx : Option Tx) (i : Nat) :
    Except ScriptErr Unit :=
  if ¬(program.version = 1 ∧ flags.mast = true) then .error .UNKNOWN_ERROR
  else if stack.length < 4 then .error .INVALID_MAST_STACK
  else
    let metadata := Stack.top stack 1
    if metadata.length < 1 ∨ 5 < metadata.length then
      .error .INVALID_MAST_STACK
    else
      let subscripts := metadata.getD 0 0
      if subscripts = 0 ∨ stack.length < subscripts + 3 then
        .error .INVALID_MAST_STACK
      else if metadata.getD (metadata.length - 1) 0 = 0 then
        .error .INVALID_MAST_STACK
      else
        let version : Int := (List.range (metadata.length - 1)).foldl
          (fun v j =>
            jsOr v (jsShl ((metadata.getD i 0 : Nat) : Int) (8 * j))) 0
        let versionU := toUint32 version
        if 0 < versionU ∧ flags.discourageWitness = true then
          .error .DISCOURAGE_UPGRADABLE_WITNESS_PROGRAM
        else
          let pathdata := Stack.top stack 2
          if pathdata.length &&& 0x1f ≠ 0 then .error .INVALID_MAST_STACK
          else
            let depth := pathdata.length / 32
            if 32 < depth then .error .INVALID_MAST_STACK
            else if versionU = 0 ∧ 201 < subscripts + depth then
              .error .OP_COUNT
            else
              let path := (List.range depth).map
                fun j => (pathdata.drop (j * 32)).take 32
              let posdata := Stack.top stack 3
              if 4 < posdata.length then .error .INVALID_MAST_STACK
              else if 0 < posdata.length
                  ∧ posdata.getD (posdata.length - 1) 0 = 0 then
                .error .INVALID_MAST_STACK
              else
                let pos : Int := (List.range posdata.length).foldl
                  (fun p j =>
                    jsOr p (jsShl ((posdata.getD i 0 : Nat) : Int) (8 * j))) 0
                let posU := toUint32 pos
                if depth < 32 ∧ 2 ^ depth ≤ posU then
                  .error .INVALID_MAST_STACK
                else
                  match (List.range subscripts).foldlM
                    (fun (acc : List Nat × List Nat) j =>
                      let script := Stack.top stack (4 + j)
                      if versionU = 0
                          ∧ 10000 < acc.2.length + script.length then
                        Except.error ScriptErr.SCRIPT_SIZE
                      else
                        Except.ok (acc.1 ++ C.hash256 script,
                          acc.2 ++ script))
                    ([subscripts % 256], output.raw) with
                  | .error e => .error e
                  | .ok (scriptRootAcc, scriptsAcc) =>
                    let scriptRoot :=
                      C.checkMerkleBranch (C.hash256 scriptRootAcc) path posU
                    let mastRoot := C.hash256 (u32le versionU ++ scriptRoot)
                    if mastRoot ≠ program.data then
                      .error .WITNESS_PROGRAM_MISMATCH
                    else if versionU = 0 then
                      let stack2 :=
                        stack.take (stack.length - (3 + subscripts))
                      if stack2.any (fun item => 520 < item.length) then
                        .error .PUSH_SIZE
                      else
                        match Script.execute (scriptFromRaw scriptsAcc)
                            stack2 flags tx i 1 C with
                        | .error e => .error e
                        | .ok st =>
                          if st.stack.length ≠ 0 then .error .EVAL_FALSE
                          else .ok ()
                    else .ok ()

/-- The common tail of `Script.verifyProgram` for witness v0: push
limits on the remaining witness stack, redeem execution at witness
version 1, and the exact-one-truthy-element stack check. -/
def finishProgram (C : Crypto) (redeem : ScriptData)
    (stack : List (List Nat)) (flags : Flags) (tx : Option Tx) (i : Nat) :
    Except ScriptErr Unit :=
  if stack.any (fun item => 520 < item.length) then .error .PUSH_SIZE
  else
    match Script.execute redeem stack flags tx i 1 C with
    | .error e => .error e
    | .ok st =>
      if st.stack.length ≠ 1 ∨ Script.bool (Stack.top st.stack 1) = false then
        .error .EVAL_FALSE
      else .ok ()

/-- `Script.verifyProgram` (lib/script/script.js:3460).  The caller
guarantees `output.toProgram()` exists and the WITNESS flag; the
asserts are modelled as `UNKNOWN_ERROR`. -/
def verifyProgram (C : Crypto) (witness : Witness) (output : ScriptData)
    (flags : Flags) (tx : Option Tx) (i : Nat) : Except ScriptErr Unit :=
  match toProgram output with
  | none => .error .UNKNOWN_ERROR
  | some program =>
    if flags.witness = false then .error .UNKNOWN_ERROR
    else
      let stack := witness.items
      if program.version = 0 then
        if program.data.length = 32 then
          if stack.length = 0 then .error .WITNESS_PROGRAM_WITNESS_EMPTY
          else
            let witnessScript := Stack.top stack 1
            if C.sha256 witnessScript ≠ program.data then
              .error .WITNESS_PROGRAM_MISMATCH
            else
              finishProgram C (scriptFromRaw witnessScript)
                (Stack.pop stack) flags tx i
        else if program.data.length = 20 then
          if stack.length ≠ 2 then .error .WITNESS_PROGRAM_MISMATCH
          else finishProgram C (fromPubkeyhash program.data) stack flags tx i
        else .error .WITNESS_PROGRAM_WRONG_LENGTH
      else if flags.mast = true ∧ program.version = 1 then
        verifyMast C program stack output flags tx i
      else if flags.discourageWitness = true then
        .error .DISCOURAGE_UPGRADABLE_WITNESS_PROGRAM
      else .ok ()

/-- The trailing CLEANSTACK / WITNESS_UNEXPECTED checks of
`Script.verify` (lib/script/script.js:3430).  The two source `assert`s
(CLEANSTACK and WITNESS each require P2SH) are modelled as
`UNKNOWN_ERROR`. -/
def verifyFinish (flags : Flags) (witness : Witness)
    (stack : List (List Nat)) (hadWitness : Bool) : Except ScriptErr Unit :=
  if flags.cleanstack = true ∧ flags.p2sh = false then .error .UNKNOWN_ERROR
  else if flags.cleanstack = true ∧ stack.length ≠ 1 then .error .CLEANSTACK
  else if flags.witness = true ∧ flags.p2sh = false then .error .UNKNOWN_ERROR
  else if flags.witness = true ∧ hadWitness = false
      ∧ 0 < witness.items.length then .error .WITNESS_UNEXPECTED
  else .ok ()

/-- The P2SH branch of `Script.verify` (lib/script/script.js:3391):
push-only input check, redeem extraction from the copied stack, redeem
execution, truthiness, and the nested witness-program case. -/
def verifyP2SH (C : Crypto) (input : ScriptData) (witness : Witness)
    (copy : List (List Nat)) (flags : Flags) (tx : Option Tx) (i : Nat)
    (hadWitness : Bool) : Except ScriptErr Unit :=
  if isPushOnly input.code = false then .error .SIG_PUSHONLY
  else if copy.length = 0 then .error .EVAL_FALSE
  else
    let raw := Stack.top copy 1
    let stack := Stack.pop copy
    let redeem := scriptFromRaw raw
    match Script.execute redeem stack flags tx i 0 C with
    | .error e => .error e
    | .ok st =>
      let stack := st.stack
      if stack.length = 0 ∨ Script.bool (Stack.top stack 1) = false then
        .error .EVAL_FALSE
      else if flags.witness = true ∧ isProgram redeem.raw = true then
        if input.raw ≠ pushRaw raw then .error .WITNESS_MALLEATED_P2SH
        else
          match verifyProgram C witness redeem flags tx i with
          | .error e => .error e
          | .ok _ => verifyFinish flags witness (stack.take 1) true
      else verifyFinish flags witness stack hadWitness

/-- `Script.verify` (lib/script/script.js:3349) with an explicit flag
set: SIGPUSHONLY check, input execution on an empty stack, stack copy
for P2SH, output execution, truthiness check, witness-program branch,
P2SH branch, and the trailing checks. -/
def verify (input : ScriptData) (witness : Witness) (output : ScriptData)
    (tx : Option Tx) (i : Nat) (flags : Flags) (C : Crypto) :
    Except ScriptErr Unit :=
  if flags.sigpushonly = true ∧ isPushOnly input.code = false then
    .error .SIG_PUSHONLY
  else
    match Script.execute input [] flags tx i 0 C with
    | .error e => .error e
    | .ok st1 =>
      let copy := st1.stack
      match Script.execute output st1.stack flags tx i 0 C with
      | .error e => .error e
      | .ok st2 =>
        let stack := st2.stack
        if stack.length = 0 ∨ Script.bool (Stack.top stack 1) = false then
          .error .EVAL_FALSE
        else if flags.witness = true ∧ isProgram output.raw = true then
          if input.raw.length ≠ 0 then .error .WITNESS_MALLEATED
          else
            match verifyProgram C witness output flags tx i with
            | .error e => .error e
            | .ok _ =>
              if flags.p2sh = true ∧ isScripthash output.raw = true then
                verifyP2SH C input witness copy flags tx i true
              else verifyFinish flags witness (stack.take 1) true
        else if flags.p2sh = true ∧ isScripthash output.raw = true then
          verifyP2SH C input witness copy flags tx i false
        else verifyFinish flags witness stack false

end Script

/-! ## The non-contextual block validator (`Block#_verify`,
lib/primitives/block.js:393)

The collaborators that live outside src/ are abstracted: `verifyHeaders`
and `isSane` by an optional `(reason, score)` failure, `getLegacySigops`
by a count, and `crypto.getMerkleRoot` by a function parameter returning
`none` on duplicate-leaf malleation (spec §6).  The constants are the
spec glossary's: `MAX_SIZE = 1000000`, `WITNESS_SCALE_FACTOR = 4`,
`MAX_SIGOPS_WEIGHT = 80000`. -/

/-- A transaction as consumed by `Block#_verify`. -/
structure BTx where
  hash : List Nat
  coinbase : Bool
  sane : Option (String × Nat)
  sigops : Nat
deriving DecidableEq, Repr, Inhabited

/-- A block as consumed by `Block#_verify`: header-check outcome, header
merkle root, transactions, and `getBaseSize()`. -/
structure Blk where
  headerOk : Option (String × Nat)
  merkleRoot : List Nat
  txs : List BTx
  baseSize : Nat

/-- The per-transaction loop of `_verify` (lib/primitives/block.js:420):
non-coinbase check for `i > 0`, sanity, and the running sigop weight
bound. -/
def checkTxs : List BTx → Nat → Nat → Except (String × Nat) Unit
  | [], _, _ => .ok ()
  | tx :: rest, i, sigops =>
    if 0 < i ∧ tx.coinbase = true then .error ("bad-cb-multiple", 100)
    else
      match tx.sane with
      | some r => .error r
      | none =>
        let sigops := sigops + tx.sigops
        if 80000 < sigops * 4 then .error ("bad-blk-sigops", 100)
        else checkTxs rest (i + 1) sigops

/-- `Block#_verify` (lib/primitives/block.js:393): headers, block
length, coinbase-first, the transaction loop, then the merkle root
computed from the ordered transaction hashes. -/
def blockVerify (merkleFn : List (List Nat) → Option (List Nat))
    (b : Blk) : Except (String × Nat) Unit :=
  match b.headerOk with
  | some r => .error r
  | none =>
    if 1000000 < b.txs.length ∨ 1000000 < b.baseSize then
      .error ("bad-blk-length", 100)
    else if b.txs.length = 0 ∨ (b.txs.getD 0 default).coinbase = false then
      .error ("bad-cb-missing", 100)
    else
      match checkTxs b.txs 0 0 with
      | .error r => .error r
      | .ok _ =>
        match merkleFn (b.txs.map BTx.hash) with
        | none => .error ("bad-txns-duplicate", 100)
        | some merkle =>
          if b.merkleRoot ≠ merkle then .error ("bad-txnmrklroot", 100)
          else .ok ()

/-! ## The coins codec (lib/chain/coins.js)

The reader, writer and script-compression collaborators
(lib/utils/reader.js, lib/utils/writer.js, lib/chain/compress.js) are
not under src/.  Modelled from the spec (§4.6): Bitcoin varints, and the
four script prefixes `0x00` (varint-length raw), `0x01` (20-byte P2PKH
hash), `0x02` (20-byte P2SH hash), `0x03` (33-byte compressed key). -/

namespace Script

/-- Little-endian 8-byte serialization. -/
def u64le (n : Nat) : List Nat :=
  [n % 256, n / 256 % 256, n / 65536 % 256, n / 16777216 % 256,
   n / 4294967296 % 256, n / 1099511627776 % 256,
   n / 281474976710656 % 256, n / 72057594037927936 % 256]

end Script

namespace Coins

/-- `BufferWriter#writeVarint`.  Modelled from the spec (§4.6). -/
def writeVarint (n : Nat) : List Nat :=
  if n < 0xfd then [n]
  else if n ≤ 0xffff then 0xfd :: Script.u16le n
  else if n ≤ 0xffffffff then 0xfe :: Script.u32le n
  else 0xff :: Script.u64le n

/-- `BufferReader#readU8` as `(value, next offset)`; `none` is the
reader's out-of-bounds exception.  Modelled from the spec (§4.6). -/
def readU8 (data : List Nat) (off : Nat) : Option (Nat × Nat) :=
  if off + 1 ≤ data.length then some (data.getD off 0, off + 1) else none

/-- `BufferReader#readU16` (little endian).  Modelled from the spec. -/
def readU16 (data : List Nat) (off : Nat) : Option (Nat × Nat) :=
  if off + 2 ≤ data.length then
    some (data.getD off 0 + 256 * data.getD (off + 1) 0, off + 2)
  else none

/-- `BufferReader#readU32` (little endian).  Modelled from the spec. -/
def readU32 (data : List Nat) (off : Nat) : Option (Nat × Nat) :=
  if off + 4 ≤ data.length then
    some (data.getD off 0 + 256 * data.getD (off + 1) 0
      + 65536 * data.getD (off + 2) 0 + 16777216 * data.getD (off + 3) 0,
      off + 4)
  else none

/-- `BufferReader#readU64` (little endian).  Modelled from the spec. -/
def readU64 (data : List Nat) (off : Nat) : Option (Nat × Nat) :=
  if off + 8 ≤ data.length then
    some ((List.range 8).foldl
      (fun acc k => acc + 256 ^ k * data.getD (off + k) 0) 0, off + 8)
  else none

/-- `BufferReader#readVarint`.  Modelled from the spec (§4.6). -/
def readVarint (data : List Nat) (off : Nat) : Option (Nat × Nat) :=
  match readU8 data off with
  | none => none
  | some (b, o1) =>
    if b < 0xfd then some (b, o1)
    else if b = 0xfd then readU16 data o1
    else if b = 0xfe then readU32 data o1
    else readU64 data o1

/-- A compressed output script, by its wire prefix.  Modelled from the
spec (§4.6); lib/chain/compress.js is not under src/. -/
inductive CScript where
  | raw (bytes : List Nat)
  | pubkeyhash (h : List Nat)
  | scripthash (h : List Nat)
  | key (k : List Nat)
deriving DecidableEq, Repr

/-- `compress.script` output bytes for each prefix.  Modelled from the
spec (§4.6). -/
def compressScript : CScript → List Nat
  | .raw bytes => 0x00 :: (writeVarint bytes.length ++ bytes)
  | .pubkeyhash h => 0x01 :: h
  | .scripthash h => 0x02 :: h
  | .key k => 0x03 :: k

/-- Well-formedness of a compressed script: the fixed-width prefixes
carry exactly their width, and a raw script fits a varint length. -/
def CScript.wf : CScript → Prop
  | .raw bytes => bytes.length < 18446744073709551616
  | .pubkeyhash h => h.length = 20
  | .scripthash h => h.length = 20
  | .key k => k.length = 33

/-- `decompress.script` as `(script, next offset)`.  Modelled from the
spec (§4.6); a bad prefix or out-of-bounds read is `none`. -/
def decompressScript (data : List Nat) (off : Nat) :
    Option (CScript × Nat) :=
  match readU8 data off with
  | none => none
  | some (pfx, o1) =>
    if pfx = 0 then
      match readVarint data o1 with
      | none => none
      | some (len, o2) =>
        if data.length < o2 + len then none
        else some (.raw ((data.drop o2).take len), o2 + len)
    else if pfx = 1 then
      if data.length < o1 + 20 then none
      else some (.pubkeyhash ((data.drop o1).take 20), o1 + 20)
    else if pfx = 2 then
      if data.length < o1 + 20 then none
      else some (.scripthash ((data.drop o1).take 20), o1 + 20)
    else if pfx = 3 then
      if data.length < o1 + 33 then none
      else some (.key ((data.drop o1).take 33), o1 + 33)
    else none

/-- One slot of `Coins#outputs`: `null`, a decoded `Coin` (script and
value), or a deferred `CompressedCoin(offset, size, raw)`. -/
inductive OutEntry where
  | spent : OutEntry
  | coin (script : CScript) (value : Nat) : OutEntry
  | compressed (offset size : Nat) (raw : List Nat) : OutEntry
deriving DecidableEq, Repr

/-- The coins object (`Coins`): version, hash, height (−1 when
unconfirmed), coinbase flag, outputs. -/
structure Coins where
  version : Nat
  hash : List Nat
  height : Int
  coinbase : Bool
  outputs : List OutEntry
deriving DecidableEq, Repr

/-- Whether a slot is `null` for the spent field. -/
def OutEntry.isSpent : OutEntry → Bool
  | .spent => true
  | _ => false

/-- `Coins#size` (lib/chain/coins.js:177): one plus the index of the
last unspent output. -/
def csize (outputs : List OutEntry) : Nat :=
  outputs.length - (outputs.reverse.takeWhile OutEntry.isSpent).length

/-- A materialized coin (`Coin`), as `CompressedCoin#toCoin` builds
it. -/
structure BCoin where
  version : Nat
  height : Int
  coinbase : Bool
  hash : List Nat
  index : Nat
  script : CScript
  value : Nat
deriving DecidableEq, Repr

/-- `CompressedCoin#toCoin` (lib/chain/coins.js:505): decompress the
script at the stored offset and read the varint value, inheriting the
parent coins' fields. -/
def toCoin (c : Coins) (data : List Nat) (off : Nat) (index : Nat) :
    Option BCoin :=
  match decompressScript data off with
  | none => none
  | some (script, o2) =>
    match readVarint data o2 with
    | none => none
    | some (value, _) =>
      some ⟨c.version, c.height, c.coinbase, c.hash, index, script, value⟩

/-- `Coins#get` (lib/chain/coins.js:130): `null` slots give nothing, a
deferred slot is materialized. -/
def Coins.get (c : Coins) (i : Nat) : Option BCoin :=
  match c.outputs.getD i .spent with
  | .spent => none
  | .coin s v => some ⟨c.version, c.height, c.coinbase, c.hash, i, s, v⟩
  | .compressed off _ raw => toCoin c raw off i

/-- One byte of the spent bitfield: bit 7 of byte `oct` is output
`8*oct`, set when the slot is spent (lib/chain/coins.js:291,
`p[fstart + oct] |= 1 << (7 - bit)` over the spent `i < length`). -/
def spentByte (outputs : List OutEntry) (length oct : Nat) : Nat :=
  (List.range 8).foldl
    (fun acc bit =>
      let i := 8 * oct + bit
      if i < length ∧ (outputs.getD i .spent).isSpent = true then
        acc ||| 1 <<< (7 - bit)
      else acc) 0

/-- The serialized bytes of one output slot inside `toRaw`: spent slots
write nothing, deferred slots are copied back verbatim
(`CompressedCoin#toRaw`), decoded coins are compressed. -/
def outputBytes : OutEntry → List Nat
  | .spent => []
  | .compressed off sz raw => (raw.drop off).take sz
  | .coin script value => compressScript script ++ writeVarint value

/-- `Coins#toRaw` (lib/chain/coins.js:223): varint version, the
`(height << 1) | coinbase` uint32 with int32 shift semantics and the
`0x7fffffff` encoding of height −1, varint spent-field length, the
spent bitfield, then each slot up to the last unspent index. -/
def toRaw (c : Coins) : List Nat :=
  let length := csize c.outputs
  if length = 0 then []
  else
    let height : Int := if c.height = -1 then 0x7fffffff else c.height
    let bits : Int :=
      if c.coinbase then jsOr (jsShl height 1) 1 else jsShl height 1
    let flen := (length + 7) / 8
    writeVarint c.version ++ Script.u32le (toUint32 bits)
      ++ writeVarint flen
      ++ (List.range flen).map (spentByte c.outputs length)
      ++ ((c.outputs.take length).map outputBytes).flatten

/-- Skipping one unspent output inside the `fromRaw` loop
(lib/chain/coins.js:365): the prefix switch, the script body, then the
varint value; `none` is a reader exception or the `Bad prefix`
error. -/
def skipOutput (data : List Nat) (off : Nat) : Option Nat :=
  match readU8 data off with
  | none => none
  | some (pfx, o1) =>
    let afterScript : Option Nat :=
      if pfx = 0 then
        match readVarint data o1 with
        | none => none
        | some (len, o2) =>
          if data.length < o2 + len then none else some (o2 + len)
      else if pfx = 1 ∨ pfx = 2 then
        if data.length < o1 + 20 then none else some (o1 + 20)
      else if pfx = 3 then
        if data.length < o1 + 33 then none else some (o1 + 33)
      else none
    match afterScript with
    | none => none
    | some o2 =>
      match readVarint data o2 with
      | none => none
      | some (_, o3) => some o3

/-- What the `while (p.left())` loop of `Coins#fromRaw` ends with. -/
inductive LoopRes where
  | full (outputs : List OutEntry)
  | found (offset size : Nat)
  | notfound
  | err
  | fuelOut
deriving DecidableEq, Repr

/-- The `while (p.left())` loop of `Coins#fromRaw`
(lib/chain/coins.js:340), fuelled (the source loop terminates because
every pass either consumes bytes or advances `i` past the spent field's
range; `fuelOut` is unreachable at the fuel `fromRaw` supplies).  The
spent bit is read by direct buffer indexing, so an out-of-range read
yields 0.  `index = none` is the full decode, `index = some idx` the
query-by-index fast path with its early returns. -/
def coinsLoop (data : List Nat) (fstart : Nat) (index : Option Nat) :
    Nat → Nat → Nat → List OutEntry → LoopRes
  | 0, _, _, _ => .fuelOut
  | fuel + 1, off, i, acc =>
    if data.length ≤ off then
      match index with
      | some _ => .notfound
      | none => .full acc
    else
      let spent := data.getD (fstart + i / 8) 0 >>> (7 - i % 8) &&& 1
      if spent = 1 then
        match index with
        | some idx =>
          if i = idx then .notfound
          else coinsLoop data fstart index fuel off (i + 1) acc
        | none =>
          coinsLoop data fstart index fuel off (i + 1) (acc ++ [.spent])
      else
        match skipOutput data off with
        | none => .err
        | some off2 =>
          match index with
          | some idx =>
            if i = idx then .found off (off2 - off)
            else coinsLoop data fstart index fuel off2 (i + 1) acc
          | none =>
            coinsLoop data fstart index fuel off2 (i + 1)
              (acc ++ [.compressed off (off2 - off) data])

/-- The fuel `fromRaw` runs the loop with: enough for every spent-field
bit and every consumed byte. -/
def fuelFor (data : List Nat) : Nat := 9 * data.length + 9

/-- The header part of `Coins#fromRaw` (lib/chain/coins.js:318): varint
version, the bits word, height and coinbase extraction, spent-field
length and seek.  Returns the partial coins and the loop's start
offset. -/
def readHeader (data hash : List Nat) : Option (Coins × Nat × Nat) :=
  match readVarint data 0 with
  | none => none
  | some (version, o1) =>
    match readU32 data o1 with
    | none => none
    | some (bits, o2) =>
      let height : Int := if bits / 2 = 0x7fffffff then -1 else bits / 2
      let coinbase := decide (bits % 2 = 1)
      match readVarint data o2 with
      | none => none
      | some (flen, o3) =>
        if data.length < o3 + flen then none
        else some (⟨version, hash, height, coinbase, []⟩, o3, o3 + flen)

/-- `Coins.fromRaw` (full decode): header, then the loop without an
index. -/
def coinsFromRaw (data hash : List Nat) : Option Coins :=
  match readHeader data hash with
  | none => none
  | some (c, fstart, off) =>
    match coinsLoop data fstart none (fuelFor data) off 0 [] with
    | .full outputs => some { c with outputs := outputs }
    | _ => none

/-- The outputs the full-decode loop builds for a run of serialized
slots starting at `off`: spent slots become `null`, unspent ones
deferred `CompressedCoin(offset, size, data)` records. -/
def encEntries (data : List Nat) : List OutEntry → Nat → List OutEntry
  | [], _ => []
  | .spent :: rest, off => .spent :: encEntries data rest off
  | e :: rest, off =>
    .compressed off (outputBytes e).length data ::
      encEntries data rest (off + (outputBytes e).length)

/-- `Coins.parseCoin` (lib/chain/coins.js:419): the loop with an index;
`some none` is the undefined return (spent or absent), `none` an
exception. -/
def parseCoin (data hash : List Nat) (idx : Nat) : Option (Option BCoin) :=
  match readHeader data hash with
  | none => none
  | some (c, fstart, off) =>
    match coinsLoop data fstart (some idx) (fuelFor data) off 0 [] with
    | .found coff _ =>
      match toCoin c data coff idx with
      | none => none
      | some coin => some (some coin)
    | .notfound => some none
    | _ => none

end Coins

/-! ## Concrete fixtures for witnesses and counterexamples -/

/-- A crypto oracle with constant digests and an ECDSA verifier that
rejects everything. -/
def cryptoZero : Crypto :=
  ⟨fun _ => List.replicate 20 0, fun _ => List.replicate 20 0,
   fun _ => List.replicate 32 0, fun _ => List.replicate 20 0,
   fun _ => List.replicate 32 0, fun _ _ _ _ _ => false, fun _ => false,
   fun r _ _ => r⟩

/-- A minimal transaction context. -/
def txZero : Tx := ⟨1, 0, [⟨0xffffffff⟩], fun _ _ _ _ => []⟩

/-- Flags with only `VERIFY_NULLFAIL`. -/
def flagsNullfail : Flags := { noFlags with nullfail := true }

/-- Flags with only `VERIFY_P2SH`. -/
def flagsP2SH : Flags := { noFlags with p2sh := true }

/-- The P2PKH output for `cryptoZero`'s constant `hash160`. -/
def p2pkhOut : ScriptData := Script.fromPubkeyhash (List.replicate 20 0)

/-- A P2SH output whose hash is `cryptoZero`'s constant `hash160`. -/
def p2shOut : ScriptData :=
  scriptFromRaw ([0xa9, 0x14] ++ List.replicate 20 0 ++ [0x87])

/-- An input script that pushes `[1]` and then runs the non-push
`OP_NOP`. -/
def p2shInput : ScriptData := scriptFromRaw [0x01, 0x01, 0x61]

/-- 1400 `OP_0` pushes followed by 200 `OP_2DROP`s: the stack reaches
1400 elements mid-run yet ends at exactly 1000. -/
def c4raw : List Nat := List.replicate 1400 0x00 ++ List.replicate 200 0x6d

/-- The script over `c4raw`. -/
def c4script : ScriptData := scriptFromRaw c4raw

/-- A serialized coins entry: version 1, height 5, not coinbase, output
0 spent, output 1 a 20-byte pubkey-hash script of nines with value 7. -/
def c8data : List Nat :=
  [1] ++ [10, 0, 0, 0] ++ [1] ++ [0x80] ++ (0x01 :: List.replicate 20 9)
    ++ [7]

/-- A fully decoded coins object: version 1, height 5, not coinbase,
output 0 spent and output 1 a pubkey-hash coin of value 7. -/
def c7c : Coins.Coins :=
  ⟨1, [], 5, false,
   [Coins.OutEntry.spent,
    Coins.OutEntry.coin (Coins.CScript.pubkeyhash (List.replicate 20 9)) 7]⟩

/-- A coins object at the height `0x7fffffff` that the encoding reserves
for −1: one unspent pubkey-hash output of value 7. -/
def c7bad : Coins.Coins :=
  ⟨1, [], 2147483647, false,
   [Coins.OutEntry.coin (Coins.CScript.pubkeyhash (List.replicate 20 9)) 7]⟩

theorem toInt32_of_small (n : Nat) (h : n < 2147483648) :
    toInt32 (n : Int) = (n : Int) := by
  unfold toInt32
  have h1 : (n : Int) % 4294967296 = (n : Int) := by
    apply Int.emod_eq_of_lt (by positivity)
    exact_mod_cast Nat.lt_trans h (by norm_num)
  simp only [h1]
  rw [if_pos]
  exact_mod_cast h

theorem toUint32_of_small (n : Nat) (h : n < 4294967296) :
    toUint32 (n : Int) = n := by
  unfold toUint32
  rw [Int.emod_eq_of_lt (by positivity) (by exact_mod_cast h)]
  simp

/-- Helper: `2500000000 >>> k = 5000000000 >>> (k+1)` for the exact powers. -/
theorem half_shift (k : Nat) :
    2500000000 >>> k = 5000000000 >>> (k + 1) := by
  simp only [Nat.shiftRight_eq_div_pow, pow_succ]
  rw [show (5000000000 : Nat) = 2500000000 * 2 by norm_num]
  rw [Nat.mul_div_mul_right _ _ (by norm_num)]

/-- C9 (amended): for every height whose halving count
`⌊height / halvingInterval⌋` fits in a signed 32-bit integer, the code's
two-case computation agrees with `5000000000 >>> halvings`, and the
subsidy is 0 from 33 halvings on. -/
theorem C9_reward_formula (height halvingInterval : Nat)
    (h : height / halvingInterval < 2147483648) :
    Block.reward height halvingInterval
      = 5000000000 >>> (height / halvingInterval)
    ∧ (33 ≤ height / halvingInterval →
        Block.reward height halvingInterval = 0) := by
  set k := height / halvingInterval with hk
  have hset : Block.reward height halvingInterval =
      (if 33 ≤ (k : Int) then 0
       else if (k : Int) = 0 then 5000000000
       else jsUshr 2500000000 ((k : Int) - 1)) := by
    unfold Block.reward
    rw [← hk, toInt32_of_small k h]
  constructor
  · rw [hset]
    by_cases h33 : 33 ≤ k
    · rw [if_pos (by exact_mod_cast h33)]
      rw [Nat.shiftRight_eq_div_pow]
      symm
      apply Nat.div_eq_of_lt
      calc (5000000000 : Nat) < 2 ^ 33 := by norm_num
        _ ≤ 2 ^ k := Nat.pow_le_pow_right (by norm_num) h33
    · rw [if_neg (by exact_mod_cast h33)]
      by_cases h0 : k = 0
      · rw [if_pos (by exact_mod_cast h0), h0]
        simp
      · rw [if_neg (by exact_mod_cast h0)]
        have hk1 : 1 ≤ k := Nat.one_le_iff_ne_zero.mpr h0
        have hcast : ((k : Int) - 1) = ((k - 1 : Nat) : Int) := by omega
        unfold jsUshr
        rw [hcast, (by decide : toUint32 2500000000 = 2500000000),
            toUint32_of_small (k - 1) (by omega)]
        rw [Nat.mod_eq_of_lt (by omega)]
        rw [half_shift (k - 1), Nat.sub_add_cancel hk1]
  · intro h33
    rw [hset, if_pos (by exact_mod_cast h33)]

/-- Witness for C9: at height 33 × 210000 with the mainnet interval the
hypothesis holds and the subsidy is zero. -/
theorem C9_reward_formula_witness :
    6930000 / 210000 < 2147483648 ∧ Block.reward 6930000 210000 = 0 :=
  ⟨by norm_num, (C9_reward_formula 6930000 210000 (by norm_num)).2 (by norm_num)⟩

/-- C9 (counterexample): at a height whose halving count overflows int32
(height `2^31`, interval 1) the code returns 1, not the claimed
`5000000000 >> halvings = 0` even though 33 or more halvings elapsed. -/
theorem C9_reward_counterexample :
    Block.reward 2147483648 1 = 1 ∧ 33 ≤ 2147483648 / 1 := by
  constructor
  · decide
  · rw [Nat.div_one]; norm_num

theorem hasParseError_cons (v : Int) (d : Option (List Nat)) (l : List Opcode) :
    Script.hasParseError (⟨v, d⟩ :: l)
      = ((v == -1) || Script.hasParseError l) := by
  simp [Script.hasParseError]

theorem bytes_cons {a : Nat} {l : List Nat} (h : Bytes (a :: l)) :
    a < 256 ∧ Bytes l := by
  refine ⟨h a (List.mem_cons_self a l), fun b hb => h b (List.mem_cons_of_mem a hb)⟩

theorem bytes_drop {l : List Nat} (n : Nat) (h : Bytes l) :
    Bytes (l.drop n) :=
  fun b hb => h b (List.drop_subset n l hb)

/-- Any sufficient fuel computes `Script.decode`. -/
theorem decodeGo_eq_decode (fuel : Nat) :
    ∀ raw : List Nat, raw.length ≤ fuel →
      Script.decodeGo fuel raw = Script.decode raw := by
  induction fuel using Nat.strong_induction_on with
  | _ fuel ih =>
    intro raw hlen
    match fuel, raw with
    | fuel, [] => cases fuel <;> rfl
    | 0, op :: rest => simp at hlen
    | f + 1, op :: rest =>
      have hrest : rest.length ≤ f := by simp at hlen; omega
      show Script.decodeGo (f + 1) (op :: rest)
        = Script.decodeGo (rest.length + 1) (op :: rest)
      simp only [Script.decodeGo]
      by_cases h1 : 1 ≤ op ∧ op ≤ 0x4b
      · simp only [if_pos h1]
        by_cases h2 : rest.length < op
        · simp only [if_pos h2]
        · simp only [if_neg h2]
          congr 1
          rw [ih f (by omega) _ (by simp only [List.length_drop]; omega),
              ih rest.length (by omega) _ (by simp only [List.length_drop]; omega)]
      · simp only [if_neg h1]
        by_cases h4c : op = 0x4c
        · simp only [if_pos h4c]
          by_cases hl : rest.length < 1
          · simp only [if_pos hl]
          · simp only [if_neg hl]
            by_cases h2 : (rest.drop 1).length < rest.getD 0 0
            · simp only [if_pos h2]
            · simp only [if_neg h2]
              congr 1
              rw [ih f (by omega) _ (by simp only [List.length_drop]; omega),
                  ih rest.length (by omega) _ (by simp only [List.length_drop]; omega)]
        · simp only [if_neg h4c]
          by_cases h4d : op = 0x4d
          · simp only [if_pos h4d]
            by_cases hl : rest.length < 2
            · simp only [if_pos hl]
            · simp only [if_neg hl]
              by_cases h2 : (rest.drop 2).length < rest.getD 0 0 + 256 * rest.getD 1 0
              · simp only [if_pos h2]
              · simp only [if_neg h2]
                congr 1
                rw [ih f (by omega) _ (by simp only [List.length_drop]; omega),
                    ih rest.length (by omega) _ (by simp only [List.length_drop]; omega)]
          · simp only [if_neg h4d]
            by_cases h4e : op = 0x4e
            · simp only [if_pos h4e]
              by_cases hl : rest.length < 4
              · simp only [if_pos hl]
              · simp only [if_neg hl]
                by_cases h2 : (rest.drop 4).length < rest.getD 0 0 + 256 * rest.getD 1 0
                    + 65536 * rest.getD 2 0 + 16777216 * rest.getD 3 0
                · simp only [if_pos h2]
                · simp only [if_neg h2]
                  congr 1
                  rw [ih f (by omega) _ (by simp only [List.length_drop]; omega),
                      ih rest.length (by omega) _ (by simp only [List.length_drop]; omega)]
            · simp only [if_neg h4e]
              congr 1
              rw [ih f (by omega) _ (by omega),
                  ih rest.length (by omega) _ (by omega)]

/-- Per-opcode encoding helpers. -/
theorem encode_cons_some {o : Opcode} {code : List Opcode} {h : List Nat}
    (ho : Script.encodeOp o = some h) :
    Script.encode (o :: code) = (Script.encode code).map (fun t => h ++ t) := by
  rw [Script.encode, ho]
  cases Script.encode code <;> rfl

theorem encode_cons_tail_none {o : Opcode} {code : List Opcode}
    (hc : Script.encode code = none) :
    Script.encode (o :: code) = none := by
  rw [Script.encode, hc]
  cases Script.encodeOp o <;> rfl

/-- The decode/encode roundtrip, both directions, by induction on a
length bound for the byte string. -/
theorem decode_encode_aux :
    ∀ (n : Nat) (raw : List Nat), raw.length ≤ n → Bytes raw →
      (Script.hasParseError (Script.decode raw) = true →
        Script.encode (Script.decode raw) = none)
      ∧ (Script.hasParseError (Script.decode raw) = false →
        Script.encode (Script.decode raw) = some raw) := by
  intro n
  induction n with
  | zero =>
    intro raw hlen _
    have h0 : raw = [] := List.eq_nil_of_length_eq_zero (Nat.le_zero.mp hlen)
    subst h0
    exact ⟨fun h => absurd h (by decide), fun _ => rfl⟩
  | succ m ih =>
    intro raw hlen hb
    match raw with
    | [] =>
      exact ⟨fun h => absurd h (by decide), fun _ => rfl⟩
    | op :: rest =>
      obtain ⟨hop, hbr⟩ := bytes_cons hb
      have hlr : rest.length ≤ m := by simp at hlen; omega
      rw [show Script.decode (op :: rest)
            = Script.decodeGo (rest.length + 1) (op :: rest) from rfl]
      simp only [Script.decodeGo]
      by_cases h1 : 1 ≤ op ∧ op ≤ 0x4b
      · rw [if_pos h1]
        by_cases h2 : rest.length < op
        · rw [if_pos h2]
          exact ⟨fun _ => rfl, fun h => absurd h (by decide)⟩
        · rw [if_neg h2,
              decodeGo_eq_decode rest.length _ (by simp only [List.length_drop]; omega)]
          have hrec := ih (rest.drop op)
            (by simp only [List.length_drop]; omega) (bytes_drop op hbr)
          rw [hasParseError_cons]
          have hne : (((op : Nat) : Int) == -1) = false := by
            simp
          rw [hne, Bool.false_or]
          have ho : Script.encodeOp ⟨op, some (rest.take op)⟩
              = some (op :: rest.take op) := by
            have hdl : (rest.take op).length = op := by
              rw [List.length_take]; omega
            simp only [Script.encodeOp]
            rw [if_neg (by omega)]
            rw [if_pos (by exact_mod_cast h1.2)]
            rw [hdl, Nat.mod_eq_of_lt hop]
          constructor
          · intro herr
            exact encode_cons_tail_none (hrec.1 herr)
          · intro hok
            rw [encode_cons_some ho, hrec.2 hok]
            simp [List.take_append_drop]
      · rw [if_neg h1]
        by_cases h4c : op = 0x4c
        · rw [if_pos h4c]
          by_cases hl : rest.length < 1
          · rw [if_pos hl]
            exact ⟨fun _ => rfl, fun h => absurd h (by decide)⟩
          · rw [if_neg hl]
            by_cases h2 : (rest.drop 1).length < rest.getD 0 0
            · rw [if_pos h2]
              exact ⟨fun _ => rfl, fun h => absurd h (by decide)⟩
            · rw [if_neg h2,
                  decodeGo_eq_decode rest.length _ (by simp only [List.length_drop]; omega)]
              have hrec := ih ((rest.drop 1).drop (rest.getD 0 0))
                (by simp only [List.length_drop]; omega)
                (bytes_drop _ (bytes_drop 1 hbr))
              rw [hasParseError_cons]
              rw [(by decide : ((0x4c : Int) == -1) = false), Bool.false_or]
              have hsz : rest.getD 0 0 < 256 := by
                have h01 : 0 < rest.length := by omega
                rw [List.getD_eq_getElem rest 0 h01]
                exact hbr _ (List.getElem_mem h01)
              have ho : Script.encodeOp ⟨0x4c, some ((rest.drop 1).take (rest.getD 0 0))⟩
                  = some (0x4c :: rest.getD 0 0 :: (rest.drop 1).take (rest.getD 0 0)) := by
                have hdl : ((rest.drop 1).take (rest.getD 0 0)).length = rest.getD 0 0 := by
                  rw [List.length_take]; omega
                simp only [Script.encodeOp]
                rw [if_neg (by decide)]
                rw [if_neg (by decide), if_pos (by decide)]
                rw [hdl, Nat.mod_eq_of_lt hsz]
              constructor
              · intro herr
                exact encode_cons_tail_none (hrec.1 herr)
              · intro hok
                rw [encode_cons_some ho, hrec.2 hok]
                simp only [Option.map_some']
                congr 1
                have hre : rest.getD 0 0 :: rest.drop 1 = rest := by
                  cases rest with
                  | nil => simp at hl
                  | cons x xs => simp
                calc (0x4c : Nat) :: rest.getD 0 0 :: (rest.drop 1).take (rest.getD 0 0)
                      ++ ((rest.drop 1).drop (rest.getD 0 0))
                    = 0x4c :: rest.getD 0 0 :: ((rest.drop 1).take (rest.getD 0 0)
                      ++ ((rest.drop 1).drop (rest.getD 0 0))) := rfl
                  _ = 0x4c :: rest.getD 0 0 :: rest.drop 1 := by
                      rw [List.take_append_drop]
                  _ = 0x4c :: rest := by rw [hre]
                  _ = op :: rest := by rw [h4c]
        · rw [if_neg h4c]
          by_cases h4d : op = 0x4d
          · rw [if_pos h4d]
            by_cases hl : rest.length < 2
            · rw [if_pos hl]
              exact ⟨fun _ => rfl, fun h => absurd h (by decide)⟩
            · rw [if_neg hl]
              by_cases h2 : (rest.drop 2).length < rest.getD 0 0 + 256 * rest.getD 1 0
              · rw [if_pos h2]
                exact ⟨fun _ => rfl, fun h => absurd h (by decide)⟩
              · rw [if_neg h2,
                    decodeGo_eq_decode rest.length _ (by simp only [List.length_drop]; omega)]
                have hrec := ih ((rest.drop 2).drop (rest.getD 0 0 + 256 * rest.getD 1 0))
                  (by simp only [List.length_drop]; omega)
                  (bytes_drop _ (bytes_drop 2 hbr))
                rw [hasParseError_cons]
                rw [(by decide : ((0x4d : Int) == -1) = false), Bool.false_or]
                have ha : rest.getD 0 0 < 256 := by
                  have h01 : 0 < rest.length := by omega
                  rw [List.getD_eq_getElem rest 0 h01]
                  exact hbr _ (List.getElem_mem h01)
                have hbval : rest.getD 1 0 < 256 := by
                  have h01 : 1 < rest.length := by omega
                  rw [List.getD_eq_getElem rest 0 h01]
                  exact hbr _ (List.getElem_mem h01)
                have ho : Script.encodeOp
                    ⟨0x4d, some ((rest.drop 2).take (rest.getD 0 0 + 256 * rest.getD 1 0))⟩
                    = some (0x4d :: rest.getD 0 0 :: rest.getD 1 0 ::
                      (rest.drop 2).take (rest.getD 0 0 + 256 * rest.getD 1 0)) := by
                  have hdl : ((rest.drop 2).take (rest.getD 0 0 + 256 * rest.getD 1 0)).length
                      = rest.getD 0 0 + 256 * rest.getD 1 0 := by
                    rw [List.length_take]; omega
                  simp only [Script.encodeOp]
                  rw [if_neg (by decide)]
                  rw [if_neg (by decide), if_neg (by decide), if_pos (by decide)]
                  rw [hdl]
                  simp only [Script.u16le]
                  have e1 : (rest.getD 0 0 + 256 * rest.getD 1 0) % 256 = rest.getD 0 0 := by
                    omega
                  have e2 : (rest.getD 0 0 + 256 * rest.getD 1 0) / 256 % 256
                      = rest.getD 1 0 := by omega
                  rw [e1, e2]
                  rfl
                constructor
                · intro herr
                  exact encode_cons_tail_none (hrec.1 herr)
                · intro hok
                  rw [encode_cons_some ho, hrec.2 hok]
                  simp only [Option.map_some']
                  congr 1
                  have hre : rest.getD 0 0 :: rest.getD 1 0 :: rest.drop 2 = rest := by
                    match rest with
                    | [] => simp at hl
                    | [x] => simp at hl
                    | x :: y :: xs => simp
                  calc (0x4d : Nat) :: rest.getD 0 0 :: rest.getD 1 0 ::
                        (rest.drop 2).take (rest.getD 0 0 + 256 * rest.getD 1 0)
                        ++ ((rest.drop 2).drop (rest.getD 0 0 + 256 * rest.getD 1 0))
                      = 0x4d :: rest.getD 0 0 :: rest.getD 1 0 ::
                        ((rest.drop 2).take (rest.getD 0 0 + 256 * rest.getD 1 0)
                        ++ ((rest.drop 2).drop (rest.getD 0 0 + 256 * rest.getD 1 0))) := rfl
                    _ = 0x4d :: rest.getD 0 0 :: rest.getD 1 0 :: rest.drop 2 := by
                        rw [List.take_append_drop]
                    _ = 0x4d :: rest := by rw [hre]
                    _ = op :: rest := by rw [h4d]
          · rw [if_neg h4d]
            by_cases h4e : op = 0x4e
            · rw [if_pos h4e]
              by_cases hl : rest.length < 4
              · rw [if_pos hl]
                exact ⟨fun _ => rfl, fun h => absurd h (by decide)⟩
              · rw [if_neg hl]
                by_cases h2 : (rest.drop 4).length < rest.getD 0 0 + 256 * rest.getD 1 0
                    + 65536 * rest.getD 2 0 + 16777216 * rest.getD 3 0
                · rw [if_pos h2]
                  exact ⟨fun _ => rfl, fun h => absurd h (by decide)⟩
                · rw [if_neg h2,
                      decodeGo_eq_decode rest.length _ (by simp only [List.length_drop]; omega)]
                  have hrec := ih ((rest.drop 4).drop (rest.getD 0 0 + 256 * rest.getD 1 0
                      + 65536 * rest.getD 2 0 + 16777216 * rest.getD 3 0))
                    (by simp only [List.length_drop]; omega)
                    (bytes_drop _ (bytes_drop 4 hbr))
                  rw [hasParseError_cons]
                  rw [(by decide : ((0x4e : Int) == -1) = false), Bool.false_or]
                  have ha : rest.getD 0 0 < 256 := by
                    have h01 : 0 < rest.length := by omega
                    rw [List.getD_eq_getElem rest 0 h01]
                    exact hbr _ (List.getElem_mem h01)
                  have hbval : rest.getD 1 0 < 256 := by
                    have h01 : 1 < rest.length := by omega
                    rw [List.getD_eq_getElem rest 0 h01]
                    exact hbr _ (List.getElem_mem h01)
                  have hc : rest.getD 2 0 < 256 := by
                    have h01 : 2 < rest.length := by omega
                    rw [List.getD_eq_getElem rest 0 h01]
                    exact hbr _ (List.getElem_mem h01)
                  have hd : rest.getD 3 0 < 256 := by
                    have h01 : 3 < rest.length := by omega
                    rw [List.getD_eq_getElem rest 0 h01]
                    exact hbr _ (List.getElem_mem h01)
                  have ho : Script.encodeOp
                      ⟨0x4e, some ((rest.drop 4).take (rest.getD 0 0 + 256 * rest.getD 1 0
                        + 65536 * rest.getD 2 0 + 16777216 * rest.getD 3 0))⟩
                      = some (0x4e :: rest.getD 0 0 :: rest.getD 1 0 :: rest.getD 2 0 ::
                        rest.getD 3 0 :: (rest.drop 4).take (rest.getD 0 0
                        + 256 * rest.getD 1 0 + 65536 * rest.getD 2 0
                        + 16777216 * rest.getD 3 0)) := by
                    have hdl : ((rest.drop 4).take (rest.getD 0 0 + 256 * rest.getD 1 0
                        + 65536 * rest.getD 2 0 + 16777216 * rest.getD 3 0)).length
                        = rest.getD 0 0 + 256 * rest.getD 1 0
                          + 65536 * rest.getD 2 0 + 16777216 * rest.getD 3 0 := by
                      rw [List.length_take]; omega
                    simp only [Script.encodeOp]
                    rw [if_neg (by decide)]
                    rw [if_neg (by decide), if_neg (by decide),
                        if_neg (by decide), if_pos (by decide)]
                    rw [hdl]
                    simp only [Script.u32le]
                    have e1 : (rest.getD 0 0 + 256 * rest.getD 1 0 + 65536 * rest.getD 2 0
                        + 16777216 * rest.getD 3 0) % 256 = rest.getD 0 0 := by omega
                    have e2 : (rest.getD 0 0 + 256 * rest.getD 1 0 + 65536 * rest.getD 2 0
                        + 16777216 * rest.getD 3 0) / 256 % 256 = rest.getD 1 0 := by omega
                    have e3 : (rest.getD 0 0 + 256 * rest.getD 1 0 + 65536 * rest.getD 2 0
                        + 16777216 * rest.getD 3 0) / 65536 % 256 = rest.getD 2 0 := by omega
                    have e4 : (rest.getD 0 0 + 256 * rest.getD 1 0 + 65536 * rest.getD 2 0
                        + 16777216 * rest.getD 3 0) / 16777216 % 256 = rest.getD 3 0 := by
                      omega
                    rw [e1, e2, e3, e4]
                    rfl
                  constructor
                  · intro herr
                    exact encode_cons_tail_none (hrec.1 herr)
                  · intro hok
                    rw [encode_cons_some ho, hrec.2 hok]
                    simp only [Option.map_some']
                    congr 1
                    have hre : rest.getD 0 0 :: rest.getD 1 0 :: rest.getD 2 0 ::
                        rest.getD 3 0 :: rest.drop 4 = rest := by
                      match rest with
                      | [] => simp at hl
                      | [x] => simp at hl
                      | [x, y] => simp at hl
                      | [x, y, z] => simp at hl
                      | x :: y :: z :: w :: xs => simp
                    calc (0x4e : Nat) :: rest.getD 0 0 :: rest.getD 1 0 :: rest.getD 2 0 ::
                          rest.getD 3 0 :: (rest.drop 4).take (rest.getD 0 0
                          + 256 * rest.getD 1 0 + 65536 * rest.getD 2 0
                          + 16777216 * rest.getD 3 0)
                          ++ ((rest.drop 4).drop (rest.getD 0 0 + 256 * rest.getD 1 0
                          + 65536 * rest.getD 2 0 + 16777216 * rest.getD 3 0))
                        = 0x4e :: rest.getD 0 0 :: rest.getD 1 0 :: rest.getD 2 0 ::
                          rest.getD 3 0 :: ((rest.drop 4).take (rest.getD 0 0
                          + 256 * rest.getD 1 0 + 65536 * rest.getD 2 0
                          + 16777216 * rest.getD 3 0)
                          ++ ((rest.drop 4).drop (rest.getD 0 0 + 256 * rest.getD 1 0
                          + 65536 * rest.getD 2 0 + 16777216 * rest.getD 3 0))) := rfl
                      _ = 0x4e :: rest.getD 0 0 :: rest.getD 1 0 :: rest.getD 2 0 ::
                          rest.getD 3 0 :: rest.drop 4 := by
                          rw [List.take_append_drop]
                      _ = 0x4e :: rest := by rw [hre]
                      _ = op :: rest := by rw [h4e]
            · rw [if_neg h4e,
                  decodeGo_eq_decode rest.length _ (le_refl _)]
              have hrec := ih rest hlr hbr
              rw [hasParseError_cons]
              have hne : (((op : Nat) : Int) == -1) = false := by simp
              rw [hne, Bool.false_or]
              have ho : Script.encodeOp ⟨op, none⟩ = some [op] := by
                simp only [Script.encodeOp]
                rw [if_neg (by omega)]
                simp only [Int.toNat_natCast]
                rw [Nat.mod_eq_of_lt hop]
              constructor
              · intro herr
                exact encode_cons_tail_none (hrec.1 herr)
              · intro hok
                rw [encode_cons_some ho, hrec.2 hok]
                rfl

/-- C5: for every byte string `b`, re-encoding `Script.decode b` yields
exactly `b` when the decoded list has no ParseError opcode; when it has
one, `Script.encode` refuses (throws, modelled as `none`); and whenever
the re-encoding is defined it decodes back to `Script.decode b`. -/
theorem C5_decode_encode_roundtrip (b : List Nat) (hb : Bytes b) :
    (Script.hasParseError (Script.decode b) = false →
      Script.encode (Script.decode b) = some b)
    ∧ (Script.hasParseError (Script.decode b) = true →
      Script.encode (Script.decode b) = none)
    ∧ (∀ r, Script.encode (Script.decode b) = some r →
      Script.decode r = Script.decode b) := by
  have h := decode_encode_aux b.length b (le_refl _) hb
  refine ⟨h.2, h.1, ?_⟩
  intro r hr
  by_cases herr : Script.hasParseError (Script.decode b)
  · rw [h.1 herr] at hr; cases hr
  · have := h.2 (by simpa using herr)
    rw [this] at hr
    cases hr
    rfl

/-- Witness for C5 at a concrete script: a PUSHDATA1 push followed by a
plain opcode. -/
theorem C5_decode_encode_roundtrip_witness :
    Bytes [0x4c, 0x02, 0xab, 0xcd, 0x76]
    ∧ Script.encode (Script.decode [0x4c, 0x02, 0xab, 0xcd, 0x76])
        = some [0x4c, 0x02, 0xab, 0xcd, 0x76] :=
  ⟨by decide,
    (C5_decode_encode_roundtrip [0x4c, 0x02, 0xab, 0xcd, 0x76] (by decide)).1
      (by decide)⟩

/-! ### Byte-level bit lemmas -/

theorem and_two_pow_sub_one (b k : Nat) : b &&& (2 ^ k - 1) = b % 2 ^ k := by
  apply Nat.eq_of_testBit_eq
  intro i
  rw [Nat.testBit_and, Nat.testBit_mod_two_pow, Nat.testBit_two_pow_sub_one]
  exact Bool.and_comm _ _

theorem and127_eq (b : Nat) : b &&& 0x7f = b % 128 := by
  have := and_two_pow_sub_one b 7
  norm_num at this
  exact this

theorem and128_eq (b : Nat) (hb : b < 256) :
    b &&& 0x80 = if 128 ≤ b then 128 else 0 := by
  have h : b &&& 0x80 = (b.testBit 7).toNat * 2 ^ 7 := by
    have := Nat.and_two_pow b 7
    norm_num at this ⊢
    exact this
  rw [h, Nat.testBit_to_div_mod]
  have h7 : (2 : Nat) ^ 7 = 128 := by norm_num
  rw [h7]
  by_cases h128 : 128 ≤ b
  · have hd : b / 128 % 2 = 1 := by omega
    simp [hd, h128]
  · have hd : b / 128 % 2 = 0 := by omega
    simp [hd, h128]

theorem lor128_eq (t : Nat) (ht : t < 128) : t ||| 0x80 = t + 128 := by
  apply Nat.eq_of_testBit_eq
  intro i
  rw [Nat.testBit_or]
  rcases Nat.lt_trichotomy i 7 with hi | hi | hi
  · rw [show (t + 128 : Nat) = 2 ^ 7 + t by omega,
        Nat.testBit_two_pow_add_gt hi]
    have : (0x80 : Nat).testBit i = false := by
      rw [show (0x80 : Nat) = 2 ^ 7 from rfl]
      exact Nat.testBit_two_pow_of_ne (by omega)
    simp [this]
  · subst hi
    rw [show (t + 128 : Nat) = 2 ^ 7 + t by omega, Nat.testBit_two_pow_add_eq]
    have h1 : t.testBit 7 = false := Nat.testBit_lt_two_pow (by norm_num; omega)
    have h2 : (0x80 : Nat).testBit 7 = true := by decide
    simp [h1, h2]
  · have hpow : (256 : Nat) ≤ 2 ^ i := by
      calc (256 : Nat) = 2 ^ 8 := by norm_num
        _ ≤ 2 ^ i := Nat.pow_le_pow_right (by norm_num) (by omega)
    have h1 : t.testBit i = false := Nat.testBit_lt_two_pow (by omega)
    have h2 : (t + 128).testBit i = false := Nat.testBit_lt_two_pow (by omega)
    have h3 : (0x80 : Nat).testBit i = false := by
      rw [show (0x80 : Nat) = 2 ^ 7 from rfl]
      exact Nat.testBit_two_pow_of_ne (by omega)
    simp [h1, h2, h3]

/-! ### Little-endian digit lemmas -/

theorem natToLE_zero : natToLE 0 = [] := by simp [natToLE]

theorem natToLE_pos {n : Nat} (h : n ≠ 0) :
    natToLE n = n % 256 :: natToLE (n / 256) := by
  rw [natToLE, if_neg h]

theorem natToLE_bytes (n : Nat) : Bytes (natToLE n) := by
  induction n using Nat.strong_induction_on with
  | _ n ih =>
    by_cases h : n = 0
    · subst h; rw [natToLE_zero]; intro b hb; cases hb
    · rw [natToLE_pos h]
      intro b hb
      rcases List.mem_cons.mp hb with h1 | h1
      · subst h1; exact Nat.mod_lt _ (by norm_num)
      · exact ih (n / 256) (Nat.div_lt_self (Nat.pos_of_ne_zero h) (by norm_num)) b h1

theorem leToNat_natToLE (n : Nat) : leToNat (natToLE n) = n := by
  induction n using Nat.strong_induction_on with
  | _ n ih =>
    by_cases h : n = 0
    · subst h; rw [natToLE_zero]; rfl
    · rw [natToLE_pos h, leToNat,
          ih (n / 256) (Nat.div_lt_self (Nat.pos_of_ne_zero h) (by norm_num))]
      omega

theorem natToLE_ne_nil {n : Nat} (h : n ≠ 0) : natToLE n ≠ [] := by
  rw [natToLE_pos h]; simp

theorem leToNat_lt {l : List Nat} (hb : Bytes l) : leToNat l < 256 ^ l.length := by
  induction l with
  | nil => simp [leToNat]
  | cons x xs ih =>
    have hx := hb x (List.mem_cons_self x xs)
    have hxs := ih (fun b h => hb b (List.mem_cons_of_mem x h))
    rw [leToNat]
    simp only [List.length_cons, pow_succ]
    calc x + 256 * leToNat xs < 256 + 256 * leToNat xs := by omega
      _ = 256 * (leToNat xs + 1) := by ring
      _ ≤ 256 * 256 ^ xs.length := by
          apply Nat.mul_le_mul_left
          omega
      _ = 256 ^ xs.length * 256 := by ring

theorem leToNat_append (xs ys : List Nat) :
    leToNat (xs ++ ys) = leToNat xs + 256 ^ xs.length * leToNat ys := by
  induction xs with
  | nil => simp [leToNat]
  | cons x l ih =>
    simp only [List.cons_append, leToNat]
    rw [show List.append l ys = l ++ ys from rfl, ih]
    simp only [List.length_cons, pow_succ]
    ring

theorem leToNat_concat (xs : List Nat) (t : Nat) :
    leToNat (xs ++ [t]) = leToNat xs + 256 ^ xs.length * t := by
  rw [leToNat_append]
  simp [leToNat]

theorem natToLE_last_ne_zero {n : Nat} (h : n ≠ 0) :
    (natToLE n).getD ((natToLE n).length - 1) 0 ≠ 0 := by
  induction n using Nat.strong_induction_on with
  | _ n ih =>
    rw [natToLE_pos h]
    by_cases h2 : n / 256 = 0
    · rw [h2, natToLE_zero]
      simp only [List.length_cons, List.length_nil]
      have : n < 256 := by omega
      simp [List.getD]
      omega
    · have htail := ih (n / 256)
        (Nat.div_lt_self (Nat.pos_of_ne_zero h) (by norm_num)) h2
      have hne : natToLE (n / 256) ≠ [] := natToLE_ne_nil h2
      have hlen : 1 ≤ (natToLE (n / 256)).length := by
        cases hh : natToLE (n / 256) with
        | nil => exact absurd hh hne
        | cons a l => simp
      simp only [List.length_cons]
      rw [show (natToLE (n / 256)).length + 1 - 1
          = ((natToLE (n / 256)).length - 1) + 1 by omega]
      rw [List.getD_cons_succ]
      exact htail

theorem natToLE_length_le {n k : Nat} (h : n < 256 ^ k) :
    (natToLE n).length ≤ k := by
  induction k generalizing n with
  | zero =>
    simp at h
    subst h
    rw [natToLE_zero]
    simp
  | succ s ih =>
    by_cases h0 : n = 0
    · subst h0; rw [natToLE_zero]; simp
    · rw [natToLE_pos h0]
      simp only [List.length_cons]
      have : n / 256 < 256 ^ s := by
        rw [pow_succ] at h
        omega
      exact Nat.succ_le_succ (ih this)

/-- Evaluation of `Script.num` on a byte string with an explicit top
byte. -/
theorem num_eval (xs : List Nat) (t : Nat) (F : Flags) (size : Nat)
    (hxs : Bytes xs) (ht2 : t < 256)
    (hsize : xs.length + 1 ≤ size)
    (hmin : F.minimaldata = true → t &&& 0x7f = 0 →
      ¬(xs.length = 0 ∨ xs.getD (xs.length - 1) 0 &&& 0x80 = 0)) :
    Script.num (xs ++ [t]) F size
      = if 128 ≤ t then
          .ok (-((leToNat xs + 256 ^ xs.length * (t - 128) : Nat) : Int))
        else .ok ((leToNat xs + 256 ^ xs.length * t : Nat) : Int) := by
  have hlen : (xs ++ [t]).length = xs.length + 1 := by simp
  have hlast : (xs ++ [t]).getD ((xs ++ [t]).length - 1) 0 = t := by
    rw [hlen]
    simp only [Nat.add_sub_cancel]
    rw [List.getD_append_right xs [t] 0 xs.length (le_refl _)]
    simp [List.getD]
  unfold Script.num
  rw [hlast, hlen]
  rw [if_neg (by omega)]
  rw [if_neg ?hmin2]
  case hmin2 =>
    rintro ⟨hmd, -, h7, hor⟩
    refine hmin hmd h7 ?_
    rcases hor with h1 | h1
    · exact Or.inl (by omega)
    · by_cases hxe : xs.length = 0
      · exact Or.inl hxe
      · refine Or.inr ?_
        rw [show xs.length + 1 - 2 = xs.length - 1 by omega] at h1
        rwa [List.getD_append xs [t] 0 _ (by omega)] at h1
  rw [if_neg (by omega)]
  have hraw : leToNat (xs ++ [t]) = leToNat xs + 256 ^ xs.length * t :=
    leToNat_concat xs t
  have hlo : leToNat xs < 256 ^ xs.length := leToNat_lt hxs
  have hpow : (256 : Nat) ^ xs.length = 2 ^ (8 * xs.length) := by
    rw [show (256 : Nat) = 2 ^ 8 from rfl, ← pow_mul]
  rw [and128_eq t ht2]
  by_cases h128 : 128 ≤ t
  · rw [if_pos h128, if_pos h128]
    rw [if_pos (by omega : (128 : Nat) ≠ 0)]
    have hbit : (leToNat (xs ++ [t])).testBit (8 * (xs.length + 1) - 1) = true := by
      rw [Nat.testBit_to_div_mod, hraw]
      have hdiv : (leToNat xs + 256 ^ xs.length * t) / 2 ^ (8 * xs.length + 7)
          = t / 128 := by
        rw [show (2 : Nat) ^ (8 * xs.length + 7) = 2 ^ (8 * xs.length) * 128 by
              rw [pow_add]; norm_num,
            ← Nat.div_div_eq_div_mul, ← hpow]
        congr 1
        rw [mul_comm]
        rw [Nat.add_mul_div_right _ _ (by positivity : (0:Nat) < 256 ^ xs.length)]
        rw [Nat.div_eq_of_lt hlo]
        omega
      rw [show 8 * (xs.length + 1) - 1 = 8 * xs.length + 7 by omega, hdiv]
      have : t / 128 = 1 := by omega
      simp [this]
    unfold clearBit
    rw [if_pos hbit]
    have hsub : leToNat (xs ++ [t]) - 2 ^ (8 * (xs.length + 1) - 1)
        = leToNat xs + 256 ^ xs.length * (t - 128) := by
      rw [hraw, show 8 * (xs.length + 1) - 1 = 8 * xs.length + 7 by omega,
          show (2:Nat) ^ (8 * xs.length + 7) = 2 ^ (8 * xs.length) * 128 by
            rw [pow_add]; norm_num, ← hpow]
      have ht128 : 256 ^ xs.length * t = 256 ^ xs.length * (t - 128)
          + 256 ^ xs.length * 128 := by
        rw [← Nat.mul_add]
        congr 1
        omega
      omega
    rw [hsub]
  · rw [if_neg h128, if_neg h128]
    rw [if_neg (by simp : ¬((0 : Nat) ≠ 0))]
    rw [hraw]

theorem dropLast_append_getD {l : List Nat} (h : l ≠ []) :
    l.dropLast ++ [l.getD (l.length - 1) 0] = l := by
  have hlen : 0 < l.length := List.length_pos.mpr h
  have hd : l.getD (l.length - 1) 0 = l.getLast h := by
    rw [List.getD_eq_getElem _ _ (by omega), List.getLast_eq_getElem]
  rw [hd]
  exact List.dropLast_append_getLast h

/-- C6: for every integer in `[-2^31+1, 2^31-1]`, decoding the
script-number encoding round-trips under the 4-byte limit and any flag
set (in particular with `VERIFY_MINIMALDATA`, so `Script.array n` passes
the minimal-encoding check), and zero encodes as the empty vector. -/
theorem C6_scriptnum_roundtrip (F : Flags) (n : Int)
    (h1 : -2147483648 < n) (h2 : n < 2147483648) :
    Script.num (Script.array n) F 4 = .ok n ∧ Script.array 0 = [] := by
  refine ⟨?_, by simp [Script.array]⟩
  by_cases hn0 : n = 0
  · subst hn0
    simp [Script.num, Script.array]
  · have hm0 : n.natAbs ≠ 0 := by omega
    have hmlt : n.natAbs < 2147483648 := by omega
    have hLbytes : Bytes (natToLE n.natAbs) := natToLE_bytes _
    have hne : natToLE n.natAbs ≠ [] := natToLE_ne_nil hm0
    have hlpos : 0 < (natToLE n.natAbs).length := List.length_pos.mpr hne
    have hdec : (natToLE n.natAbs).dropLast
        ++ [(natToLE n.natAbs).getD ((natToLE n.natAbs).length - 1) 0]
        = natToLE n.natAbs := dropLast_append_getD hne
    have ht0 : (natToLE n.natAbs).getD ((natToLE n.natAbs).length - 1) 0 ≠ 0 :=
      natToLE_last_ne_zero hm0
    have htmem : (natToLE n.natAbs).getD ((natToLE n.natAbs).length - 1) 0
        ∈ natToLE n.natAbs := by
      rw [List.getD_eq_getElem _ _ (by omega)]
      exact List.getElem_mem _
    have ht256 : (natToLE n.natAbs).getD ((natToLE n.natAbs).length - 1) 0 < 256 :=
      hLbytes _ htmem
    have hLlen : (natToLE n.natAbs).length ≤ 4 :=
      natToLE_length_le (by norm_num; omega)
    have hxsb : Bytes (natToLE n.natAbs).dropLast :=
      fun b hb => hLbytes b (List.dropLast_subset _ hb)
    have hxslen : (natToLE n.natAbs).dropLast.length
        = (natToLE n.natAbs).length - 1 := List.length_dropLast _
    have hm_eq : n.natAbs = leToNat (natToLE n.natAbs).dropLast
        + 256 ^ (natToLE n.natAbs).dropLast.length
          * (natToLE n.natAbs).getD ((natToLE n.natAbs).length - 1) 0 := by
      conv_lhs => rw [← leToNat_natToLE n.natAbs, ← hdec]
      rw [leToNat_concat]
    simp only [Script.array, if_neg hn0]
    rw [and128_eq _ ht256]
    by_cases h128 : 128 ≤ (natToLE n.natAbs).getD ((natToLE n.natAbs).length - 1) 0
    · -- top digit has the sign bit: a sign byte is appended
      rw [if_pos h128]
      simp only [ne_eq]
      rw [if_pos (by omega : ¬(128 : Nat) = 0)]
      have hL3 : (natToLE n.natAbs).length ≤ 3 := by
        by_contra hgt
        have hxs3 : (natToLE n.natAbs).dropLast.length = 3 := by omega
        rw [hxs3, (by norm_num : (256 : Nat) ^ 3 = 16777216)] at hm_eq
        omega
      have hmineval : ∀ c : Nat, c < 256 → c &&& 0x7f = 0 →
          Script.num (natToLE n.natAbs ++ [c]) F 4
            = if 128 ≤ c then
                .ok (-((leToNat (natToLE n.natAbs)
                  + 256 ^ (natToLE n.natAbs).length * (c - 128) : Nat) : Int))
              else .ok ((leToNat (natToLE n.natAbs)
                  + 256 ^ (natToLE n.natAbs).length * c : Nat) : Int) := by
        intro c hc _
        refine num_eval _ c F 4 hLbytes hc (by omega) ?_
        intro _ _
        rintro (hb1 | hb2)
        · omega
        · rw [and128_eq _ ht256, if_pos h128] at hb2
          exact absurd hb2 (by omega)
      by_cases hneg : n < 0
      · rw [if_pos hneg, hmineval 0x80 (by norm_num) (by decide),
            if_pos (by norm_num)]
        rw [(by norm_num : (0x80 : Nat) - 128 = 0), Nat.mul_zero, Nat.add_zero,
            leToNat_natToLE, (by omega : -((n.natAbs : Int)) = n)]
      · rw [if_neg hneg, hmineval 0x00 (by norm_num) (by decide),
            if_neg (by norm_num)]
        rw [Nat.mul_zero, Nat.add_zero, leToNat_natToLE,
            (by omega : ((n.natAbs : Nat) : Int) = n)]
    · -- top digit below 0x80
      rw [if_neg h128]
      rw [if_neg (by simp)]
      by_cases hneg : n < 0
      · rw [if_pos hneg,
            lor128_eq _ (by omega)]
        have heval := num_eval (natToLE n.natAbs).dropLast
          ((natToLE n.natAbs).getD ((natToLE n.natAbs).length - 1) 0 + 128)
          F 4 hxsb (by omega) (by omega) ?hmin
        case hmin =>
          intro _ h7
          rw [and127_eq] at h7
          omega
        rw [heval, if_pos (by omega)]
        have : (natToLE n.natAbs).getD ((natToLE n.natAbs).length - 1) 0 + 128 - 128
            = (natToLE n.natAbs).getD ((natToLE n.natAbs).length - 1) 0 := by omega
        rw [this, ← hm_eq, (by omega : -((n.natAbs : Int)) = n)]
      · rw [if_neg hneg]
        conv_lhs => rw [← hdec]
        have heval := num_eval (natToLE n.natAbs).dropLast
          ((natToLE n.natAbs).getD ((natToLE n.natAbs).length - 1) 0)
          F 4 hxsb ht256 (by omega) ?hmin2
        case hmin2 =>
          intro _ h7
          rw [and127_eq] at h7
          omega
        rw [heval, if_neg h128, ← hm_eq,
            (by omega : ((n.natAbs : Nat) : Int) = n)]

/-- Witness for C6 at `n = -5` with `VERIFY_MINIMALDATA` set. -/
theorem C6_scriptnum_roundtrip_witness :
    (-2147483648 : Int) < -5 ∧ (-5 : Int) < 2147483648
    ∧ Script.num (Script.array (-5)) { noFlags with minimaldata := true } 4
        = .ok (-5) :=
  ⟨by norm_num, by norm_num,
    (C6_scriptnum_roundtrip { noFlags with minimaldata := true } (-5)
      (by norm_num) (by norm_num)).1⟩

/-! ## Elementary stack laws -/

theorem stack_top_push (s : List (List Nat)) (v : List Nat) :
    Stack.top (Stack.push s v) 1 = v := by
  unfold Stack.top Stack.push
  rw [List.length_append]
  simp

theorem stack_pop_push (s : List (List Nat)) (v : List Nat) :
    Stack.pop (Stack.push s v) = s := by
  unfold Stack.pop Stack.push
  exact List.dropLast_concat

/-! ## Single-step laws of the interpreter -/

theorem execCode_cons_ok (C : Crypto) (flags : Flags) (tx : Option Tx)
    (i version : Nat) (s : ScriptData) (c : Opcode) (rest : List Opcode)
    (st st2 : ExecState)
    (h : Script.step C flags tx i version s c st = .ok st2) :
    Script.execCode C flags tx i version s (c :: rest) st =
      Script.execCode C flags tx i version s rest
        { st2 with ip := st2.ip + 1 } := by
  simp only [Script.execCode, h]

theorem execCode_cons_err (C : Crypto) (flags : Flags) (tx : Option Tx)
    (i version : Nat) (s : ScriptData) (c : Opcode) (rest : List Opcode)
    (st : ExecState) (e : ScriptErr)
    (h : Script.step C flags tx i version s c st = .error e) :
    Script.execCode C flags tx i version s (c :: rest) st = .error e := by
  simp only [Script.execCode, h]

theorem step_OP0 (C : Crypto) (flags : Flags) (tx : Option Tx)
    (i version : Nat) (s : ScriptData) (st : ExecState)
    (hneg : st.negate = 0) :
    Script.step C flags tx i version s ⟨0, none⟩ st =
      .ok { st with stack := Stack.push st.stack [] } := by
  simp [Script.step, Script.isDisabled, Script.execOp, hneg,
    opcodes.OP_0, opcodes.OP_16, opcodes.OP_IF, opcodes.OP_CAT,
    opcodes.OP_SUBSTR, opcodes.OP_LEFT, opcodes.OP_RIGHT,
    opcodes.OP_INVERT, opcodes.OP_AND, opcodes.OP_OR, opcodes.OP_XOR,
    opcodes.OP_2MUL, opcodes.OP_2DIV, opcodes.OP_MUL, opcodes.OP_DIV,
    opcodes.OP_MOD, opcodes.OP_LSHIFT, opcodes.OP_RSHIFT]

theorem step_if_empty (C : Crypto) (flags : Flags) (tx : Option Tx)
    (i version : Nat) (s : ScriptData) (st : ExecState)
    (hneg : st.negate = 0) (hcnt : st.opCount < 201)
    (hlen : 1 ≤ st.stack.length) (htop : Stack.top st.stack 1 = []) :
    Script.step C flags tx i version s ⟨0x63, none⟩ st =
      .ok { st with stack := Stack.pop st.stack,
                    state := st.state ++ [false],
                    negate := st.negate + 1,
                    opCount := st.opCount + 1 } := by
  simp only [Script.step]
  rw [if_neg (by decide : ¬((0x63 : Int) = -1))]
  rw [if_pos (by decide : opcodes.OP_16 < (0x63 : Int))]
  rw [if_neg (by omega : ¬(opcodes.OP_16 < (0x63 : Int) ∧ 201 < st.opCount + 1))]
  rw [if_neg (by decide : ¬(Script.isDisabled 0x63 = true))]
  rw [if_pos (by decide : opcodes.OP_IF ≤ (0x63 : Int) ∧ (0x63 : Int) ≤ opcodes.OP_ENDIF)]
  simp only [Script.condStep]
  rw [if_pos (by decide : (0x63 : Int) = opcodes.OP_IF ∨ (0x63 : Int) = opcodes.OP_NOTIF)]
  rw [if_pos hneg]
  rw [if_neg (by omega : ¬(st.stack.length < 1))]
  rw [htop]
  rw [if_neg (by simp : ¬(version = 1 ∧ flags.minimalif = true ∧ 1 < ([] : List Nat).length))]
  rw [if_neg (by simp : ¬(version = 1 ∧ flags.minimalif = true ∧ ([] : List Nat).length = 1 ∧ ([] : List Nat).getD 0 0 ≠ 1))]
  rw [if_neg (by decide : ¬((0x63 : Int) = opcodes.OP_NOTIF))]
  simp [Script.bool]

theorem step_disabled_err (C : Crypto) (flags : Flags) (tx : Option Tx)
    (i version : Nat) (s : ScriptData) (v : Int) (st : ExecState)
    (hdis : Script.isDisabled v = true) (hcnt : st.opCount < 201) :
    Script.step C flags tx i version s ⟨v, none⟩ st =
      .error .DISABLED_OPCODE := by
  have hne : ¬(v = -1) := by
    intro h
    rw [h] at hdis
    exact absurd hdis (by decide)
  simp only [Script.step]
  rw [if_neg hne]
  rw [if_neg (show ¬(opcodes.OP_16 < v ∧
      201 < if opcodes.OP_16 < v then st.opCount + 1 else st.opCount) by
    rintro ⟨hgt, hbig⟩
    rw [if_pos hgt] at hbig
    omega)]
  rw [if_pos hdis]

theorem step_disabled_not_ok (C : Crypto) (flags : Flags) (tx : Option Tx)
    (i version : Nat) (s : ScriptData) (c : Opcode) (st st2 : ExecState)
    (hd : c.data = none) (hdis : Script.isDisabled c.value = true) :
    Script.step C flags tx i version s c st ≠ .ok st2 := by
  have hne : ¬(c.value = -1) := by
    intro h
    rw [h] at hdis
    exact absurd hdis (by decide)
  simp only [Script.step, hd]
  rw [if_neg hne]
  by_cases h2 : opcodes.OP_16 < c.value ∧
      201 < (if opcodes.OP_16 < c.value then st.opCount + 1 else st.opCount)
  · rw [if_pos h2]
    intro hc
    exact Except.noConfusion hc
  · rw [if_neg h2, if_pos hdis]
    intro hc
    exact Except.noConfusion hc

theorem execCode_ok_no_disabled (C : Crypto) (flags : Flags)
    (tx : Option Tx) (i version : Nat) (s : ScriptData)
    (code : List Opcode) :
    ∀ (st stf : ExecState),
      Script.execCode C flags tx i version s code st = .ok stf →
      ∀ op ∈ code, op.data = none → Script.isDisabled op.value = false := by
  induction code with
  | nil =>
    intro st stf _ op hop
    exact absurd hop (List.not_mem_nil op)
  | cons c rest ih =>
    intro st stf h op hop hdata
    simp only [Script.execCode] at h
    cases hstep : Script.step C flags tx i version s c st with
    | error e =>
      rw [hstep] at h
      exact Except.noConfusion h
    | ok st2 =>
      rw [hstep] at h
      rcases List.mem_cons.mp hop with rfl | hmem
      · cases hb : Script.isDisabled op.value with
        | false => rfl
        | true =>
          exact absurd hstep
            (step_disabled_not_ok C flags tx i version s op st st2 hdata hb)
      · exact ih _ _ h op hmem hdata

theorem step_2DROP (C : Crypto) (flags : Flags) (tx : Option Tx)
    (i version : Nat) (s : ScriptData) (st : ExecState)
    (hneg : st.negate = 0) (hcnt : st.opCount < 201)
    (hlen : 2 ≤ st.stack.length) :
    Script.step C flags tx i version s ⟨0x6d, none⟩ st =
      .ok { st with stack := Stack.pop (Stack.pop st.stack),
                    opCount := st.opCount + 1 } := by
  simp only [Script.step]
  rw [if_neg (by decide : ¬((0x6d : Int) = -1))]
  rw [if_pos (by decide : opcodes.OP_16 < (0x6d : Int))]
  rw [if_neg (by omega :
    ¬(opcodes.OP_16 < (0x6d : Int) ∧ 201 < st.opCount + 1))]
  rw [if_neg (by decide : ¬(Script.isDisabled 0x6d = true))]
  rw [if_neg (by decide :
    ¬(opcodes.OP_IF ≤ (0x6d : Int) ∧ (0x6d : Int) ≤ opcodes.OP_ENDIF))]
  rw [if_neg (by simp [hneg])]
  simp [Script.execOp, opcodes.OP_0, opcodes.OP_1NEGATE, opcodes.OP_1,
    opcodes.OP_16, opcodes.OP_NOP, opcodes.OP_CHECKLOCKTIMEVERIFY,
    opcodes.OP_CHECKSEQUENCEVERIFY, opcodes.OP_NOP1, opcodes.OP_NOP4,
    opcodes.OP_NOP10, opcodes.OP_VERIFY, opcodes.OP_RETURN,
    opcodes.OP_TOALTSTACK, opcodes.OP_FROMALTSTACK, opcodes.OP_2DROP,
    show ¬(st.stack.length < 2) by omega]

theorem execCode_append (C : Crypto) (flags : Flags) (tx : Option Tx)
    (i version : Nat) (s : ScriptData) :
    ∀ (a b : List Opcode) (st : ExecState),
      Script.execCode C flags tx i version s (a ++ b) st =
        match Script.execCode C flags tx i version s a st with
        | .error e => .error e
        | .ok st2 => Script.execCode C flags tx i version s b st2 := by
  intro a
  induction a with
  | nil => intro b st; rfl
  | cons c a ih =>
    intro b st
    rw [List.cons_append]
    simp only [Script.execCode]
    cases hstep : Script.step C flags tx i version s c st with
    | error e => rfl
    | ok st2 => exact ih b _

theorem run_OP0 (C : Crypto) (flags : Flags) (tx : Option Tx)
    (i version : Nat) (s : ScriptData) :
    ∀ (n : Nat) (st : ExecState), st.negate = 0 →
      Script.execCode C flags tx i version s
        (List.replicate n ⟨0, none⟩) st =
        .ok { st with stack := st.stack ++ List.replicate n [],
                      ip := st.ip + n } := by
  intro n
  induction n with
  | zero =>
    intro st hneg
    show Except.ok st = _
    simp only [List.replicate_zero, List.append_nil, Nat.add_zero]
  | succ m ih =>
    intro st hneg
    rw [List.replicate_succ]
    rw [execCode_cons_ok _ _ _ _ _ _ _ _ _ _ (step_OP0 _ _ _ _ _ _ _ hneg)]
    show Script.execCode C flags tx i version s
        (List.replicate m ⟨0, none⟩)
        { st with stack := Stack.push st.stack [], ip := st.ip + 1 } = _
    rw [ih { st with stack := Stack.push st.stack [], ip := st.ip + 1 } hneg]
    simp [Stack.push, List.replicate_succ, List.append_assoc]
    omega

theorem dropLast_replicate_nil (j : Nat) :
    (List.replicate (j + 1) ([] : List Nat)).dropLast =
      List.replicate j [] := by
  rw [List.replicate_succ']
  exact List.dropLast_concat

theorem dropLast2_replicate_nil (k : Nat) (h : 2 ≤ k) :
    ((List.replicate k ([] : List Nat)).dropLast).dropLast =
      List.replicate (k - 2) [] := by
  obtain ⟨j, rfl⟩ : ∃ j, k = j + 2 := ⟨k - 2, by omega⟩
  rw [show j + 2 = (j + 1) + 1 from rfl, dropLast_replicate_nil,
      dropLast_replicate_nil]
  congr 1

theorem run_2DROP (C : Crypto) (flags : Flags) (tx : Option Tx)
    (i version : Nat) (s : ScriptData) :
    ∀ (n k : Nat) (st : ExecState), st.negate = 0 →
      st.stack = List.replicate k [] → 2 * n ≤ k →
      st.opCount + n ≤ 201 →
      Script.execCode C flags tx i version s
        (List.replicate n ⟨0x6d, none⟩) st =
        .ok { st with stack := List.replicate (k - 2 * n) [],
                      opCount := st.opCount + n, ip := st.ip + n } := by
  intro n
  induction n with
  | zero =>
    intro k st hneg hstack hk hcnt
    show Except.ok st = _
    simp only [Nat.mul_zero, Nat.sub_zero, Nat.add_zero]
    rw [← hstack]
  | succ m ih =>
    intro k st hneg hstack hk hcnt
    rw [List.replicate_succ]
    rw [execCode_cons_ok _ _ _ _ _ _ _ _ _ _
      (step_2DROP _ _ _ _ _ _ _ hneg (by omega)
        (by rw [hstack]; simp; omega))]
    show Script.execCode C flags tx i version s
        (List.replicate m ⟨0x6d, none⟩)
        { st with stack := Stack.pop (Stack.pop st.stack),
                  opCount := st.opCount + 1, ip := st.ip + 1 } = _
    rw [ih (k - 2)
      { st with stack := Stack.pop (Stack.pop st.stack),
                opCount := st.opCount + 1, ip := st.ip + 1 } hneg
      (by show Stack.pop (Stack.pop st.stack) = _
          rw [hstack]
          exact dropLast2_replicate_nil k (by omega))
      (by omega)
      (by show st.opCount + 1 + m ≤ 201
          omega)]
    rw [show k - 2 - 2 * m = k - 2 * (m + 1) by omega,
        show st.opCount + 1 + m = st.opCount + (m + 1) by omega,
        show st.ip + 1 + m = st.ip + (m + 1) by omega]

theorem decodeGo_plain_run (b : Nat)
    (hb1 : ¬(1 ≤ b ∧ b ≤ 0x4b)) (hb2 : ¬(b = 0x4c)) (hb3 : ¬(b = 0x4d))
    (hb4 : ¬(b = 0x4e)) :
    ∀ (n fuel : Nat) (rest : List Nat),
      Script.decodeGo (n + fuel) (List.replicate n b ++ rest) =
        List.replicate n (⟨b, none⟩ : Opcode) ++ Script.decodeGo fuel rest := by
  intro n
  induction n with
  | zero => intro fuel rest; simp
  | succ m ih =>
    intro fuel rest
    rw [List.replicate_succ, List.cons_append]
    rw [show m + 1 + fuel = (m + fuel) + 1 by omega]
    simp only [Script.decodeGo]
    rw [if_neg hb1, if_neg hb2, if_neg hb3, if_neg hb4]
    rw [ih fuel rest]
    rw [List.replicate_succ, List.cons_append]

theorem c4_code : c4script.code =
    List.replicate 1400 (⟨0, none⟩ : Opcode) ++
      List.replicate 200 ⟨0x6d, none⟩ := by
  show Script.decode c4raw = _
  unfold c4raw Script.decode
  have hl : (List.replicate 1400 (0x00 : Nat)
      ++ List.replicate 200 0x6d).length = 1400 + 200 := by
    rw [List.length_append, List.length_replicate, List.length_replicate]
  rw [hl]
  rw [decodeGo_plain_run 0 (by decide) (by decide) (by decide)
    (by decide) 1400 200]
  simp only [Nat.cast_zero]
  congr 1

/-- **C4.** Corrected: the source checks `|stack| + |alt| ≤ 1000` only
*after* the loop (lib/script/script.js:1227), so the bound holds of the
final state of every successful execution — not at every point during
it.  A successful execution also ends with an empty conditional state
(a leftover entry fails `UNBALANCED_CONDITIONAL`). -/
theorem C4_stack_limits (C : Crypto) (flags : Flags) (tx : Option Tx)
    (i version : Nat) (s : ScriptData) (stack : List (List Nat))
    (st : ExecState)
    (h : Script.execute s stack flags tx i version C = .ok st) :
    st.stack.length + st.alt.length ≤ 1000 ∧ st.state = [] := by
  unfold Script.execute at h
  by_cases hsz : 10000 < s.raw.length
  · rw [if_pos hsz] at h
    exact absurd h (by simp)
  rw [if_neg hsz] at h
  cases hrun : Script.execCode C flags tx i version s s.code
      ⟨stack, [], [], 0, 0, 0, 0⟩ with
  | error e =>
    simp only [hrun] at h
    exact Except.noConfusion h
  | ok st2 =>
    simp only [hrun] at h
    by_cases h1 : 1000 < st2.stack.length + st2.alt.length
    · rw [if_pos h1] at h
      exact absurd h (by simp)
    rw [if_neg h1] at h
    by_cases h2 : st2.state.length ≠ 0
    · rw [if_pos h2] at h
      exact absurd h (by simp)
    rw [if_neg h2] at h
    injection h with h
    subst h
    exact ⟨by omega, List.length_eq_zero.mp (by omega)⟩

theorem C4_stack_limits_witness :
    (⟨[[]], [], [], 0, 0, 0, 1⟩ : ExecState).stack.length +
        (⟨[[]], [], [], 0, 0, 0, 1⟩ : ExecState).alt.length ≤ 1000 ∧
      (⟨[[]], [], [], 0, 0, 0, 1⟩ : ExecState).state = [] :=
  C4_stack_limits cryptoZero noFlags none 0 0 (scriptFromRaw [0x00]) []
    ⟨[[]], [], [], 0, 0, 0, 1⟩ rfl

/-- **C4**, the refuting run: 1400 `OP_0` pushes followed by 200
`OP_2DROP`s execute successfully (the final stack holds exactly 1000
elements), yet after the first 1400 opcodes the stack holds 1400
elements — the combined size is *not* at most 1000 at every point. -/
theorem C4_counterexample :
    Script.execute c4script [] noFlags none 0 0 cryptoZero =
      .ok ⟨List.replicate 1000 [], [], [], 0, 200, 0, 1600⟩ ∧
    Script.execCode cryptoZero noFlags none 0 0 c4script
        (c4script.code.take 1400) ⟨[], [], [], 0, 0, 0, 0⟩ =
      .ok ⟨List.replicate 1400 [], [], [], 0, 0, 0, 1400⟩ ∧
    1000 < 1400 := by
  have htake : c4script.code.take 1400 =
      List.replicate 1400 (⟨0, none⟩ : Opcode) := by
    rw [c4_code]
    have h := List.take_left (List.replicate 1400 (⟨0, none⟩ : Opcode))
      (List.replicate 200 (⟨0x6d, none⟩ : Opcode))
    rw [List.length_replicate] at h
    exact h
  have hrun1 : Script.execCode cryptoZero noFlags none 0 0 c4script
      (List.replicate 1400 ⟨0, none⟩) ⟨[], [], [], 0, 0, 0, 0⟩ =
      .ok ⟨List.replicate 1400 [], [], [], 0, 0, 0, 1400⟩ :=
    run_OP0 cryptoZero noFlags none 0 0 c4script 1400
      ⟨[], [], [], 0, 0, 0, 0⟩ rfl
  have hfull : Script.execCode cryptoZero noFlags none 0 0 c4script
      (List.replicate 1400 (⟨0, none⟩ : Opcode) ++
        List.replicate 200 ⟨0x6d, none⟩) ⟨[], [], [], 0, 0, 0, 0⟩ =
      .ok ⟨List.replicate 1000 [], [], [], 0, 200, 0, 1600⟩ := by
    rw [execCode_append, hrun1]
    show Script.execCode cryptoZero noFlags none 0 0 c4script
      (List.replicate 200 ⟨0x6d, none⟩)
      ⟨List.replicate 1400 [], [], [], 0, 0, 0, 1400⟩ = _
    rw [run_2DROP cryptoZero noFlags none 0 0 c4script 200 1400
      ⟨List.replicate 1400 [], [], [], 0, 0, 0, 1400⟩ rfl rfl
      (by norm_num) (by norm_num)]
  refine ⟨?_, ?_, by norm_num⟩
  · unfold Script.execute
    rw [if_neg (show ¬(10000 < c4script.raw.length) by
      show ¬(10000 < c4raw.length)
      rw [show c4raw.length = 1600 by
        unfold c4raw
        rw [List.length_append, List.length_replicate,
          List.length_replicate]]
      norm_num)]
    rw [c4_code, hfull]
    show (if 1000 < (List.replicate 1000 ([] : List Nat)).length +
        ([] : List (List Nat)).length then
          (Except.error ScriptErr.STACK_SIZE : Except ScriptErr ExecState)
        else if ([] : List Bool).length ≠ 0 then
          Except.error ScriptErr.UNBALANCED_CONDITIONAL
        else .ok ⟨List.replicate 1000 [], [], [], 0, 200, 0, 1600⟩) = _
    rw [if_neg (by rw [List.length_replicate]; norm_num)]
    simp
  · rw [htake]
    exact hrun1

/-- **C3.** Corrected: an execution that fails earlier (for instance at
an executed `OP_RETURN`) masks the disabled opcode, so "fails with
DISABLED_OPCODE" does not hold of every such script.  What holds: a
script whose code contains a disabled (non-push) opcode never executes
successfully, and the concrete script `OP_0 OP_IF OP_CAT OP_ENDIF`
fails with `DISABLED_OPCODE` under every flag set, stack and
transaction context, even though `OP_CAT` is on the skipped branch. -/
theorem C3_disabled_opcode (C : Crypto) (flags : Flags) (tx : Option Tx)
    (i version : Nat) (s : ScriptData) (stack : List (List Nat))
    (stf : ExecState)
    (h : ∃ op ∈ s.code, op.data = none ∧ Script.isDisabled op.value = true) :
    Script.execute s stack flags tx i version C ≠ .ok stf ∧
    Script.execute (scriptFromRaw [0x00, 0x63, 0x7e, 0x68]) stack flags tx
      i version C = .error .DISABLED_OPCODE := by
  constructor
  · intro hok
    obtain ⟨op, hmem, hdata, hdis⟩ := h
    unfold Script.execute at hok
    by_cases hsz : 10000 < s.raw.length
    · rw [if_pos hsz] at hok
      exact Except.noConfusion hok
    rw [if_neg hsz] at hok
    cases hrun : Script.execCode C flags tx i version s s.code
        ⟨stack, [], [], 0, 0, 0, 0⟩ with
    | error e =>
      rw [hrun] at hok
      exact Except.noConfusion hok
    | ok st =>
      have := execCode_ok_no_disabled C flags tx i version s s.code _ _
        hrun op hmem hdata
      rw [hdis] at this
      exact Bool.noConfusion this
  · have hs : scriptFromRaw [0x00, 0x63, 0x7e, 0x68] =
        ⟨[0x00, 0x63, 0x7e, 0x68],
         [⟨0, none⟩, ⟨0x63, none⟩, ⟨0x7e, none⟩, ⟨0x68, none⟩]⟩ := rfl
    rw [hs]
    unfold Script.execute
    rw [if_neg (by norm_num)]
    rw [execCode_cons_ok _ _ _ _ _ _ _ _ _ _ (step_OP0 _ _ _ _ _ _ _ rfl)]
    rw [execCode_cons_ok _ _ _ _ _ _ _ _ _ _ (step_if_empty _ _ _ _ _ _ _
      rfl (by norm_num) (by simp [Stack.push]) (stack_top_push _ _))]
    rw [execCode_cons_err _ _ _ _ _ _ _ _ _ _ (step_disabled_err _ _ _ _ _
      _ 0x7e _ (by decide) (by norm_num))]

theorem C3_disabled_opcode_witness :
    Script.execute (scriptFromRaw [0x7e]) [] noFlags none 0 0 cryptoZero ≠
      .ok ⟨[], [], [], 0, 0, 0, 0⟩ ∧
    Script.execute (scriptFromRaw [0x00, 0x63, 0x7e, 0x68]) [] noFlags
      none 0 0 cryptoZero = .error .DISABLED_OPCODE :=
  C3_disabled_opcode cryptoZero noFlags none 0 0 (scriptFromRaw [0x7e]) []
    ⟨[], [], [], 0, 0, 0, 0⟩
    ⟨⟨0x7e, none⟩, by decide, rfl, by decide⟩

/-- **C2.** Corrected: the claim swaps the two NULLFAIL conditions.  In
the P2PKH scenario against an oracle that rejects every signature
(`cryptoZero`): an empty signature under `VERIFY_NULLFAIL` fails with
`EVAL_FALSE`; a nonempty failing signature *without* `VERIFY_NULLFAIL`
also fails with `EVAL_FALSE`; the `NULLFAIL` abort happens exactly when
the flag is set and the failing signature is nonempty. -/
theorem C2_nullfail :
    Script.verify (scriptFromRaw [0x00, 0x01, 0x02]) ⟨[]⟩ p2pkhOut
      (some txZero) 0 flagsNullfail cryptoZero = .error .EVAL_FALSE ∧
    Script.verify (scriptFromRaw [0x01, 0x01, 0x01, 0x02]) ⟨[]⟩ p2pkhOut
      (some txZero) 0 noFlags cryptoZero = .error .EVAL_FALSE ∧
    Script.verify (scriptFromRaw [0x01, 0x01, 0x01, 0x02]) ⟨[]⟩ p2pkhOut
      (some txZero) 0 flagsNullfail cryptoZero = .error .NULLFAIL :=
  ⟨rfl, rfl, rfl⟩

/-- **C2**, the refuting run: with `VERIFY_NULLFAIL` unset, the
nonempty failing signature ends in `EVAL_FALSE`, not the `NULLFAIL` the
claim states. -/
theorem C2_counterexample :
    Script.verify (scriptFromRaw [0x01, 0x01, 0x01, 0x02]) ⟨[]⟩ p2pkhOut
      (some txZero) 0 noFlags cryptoZero = .error .EVAL_FALSE ∧
    ScriptErr.EVAL_FALSE ≠ ScriptErr.NULLFAIL :=
  ⟨rfl, by decide⟩

/-- `isScripthash` and `isProgram` exclude each other: a scripthash is
23 bytes with `raw[1] = 0x14`, a program needs `raw[1] + 2 = length`. -/
theorem isScripthash_not_isProgram (raw : List Nat)
    (h : Script.isScripthash raw = true) : Script.isProgram raw = false := by
  simp only [Script.isScripthash, decide_eq_true_eq] at h
  obtain ⟨h1, h2, h3, h4⟩ := h
  simp only [Script.isProgram, decide_eq_false_iff_not]
  rintro ⟨_, _, hlen⟩
  omega

/-- **C10.** Corrected: an earlier failure (input execution, output
execution, or the `EVAL_FALSE` check) masks the P2SH push-only check,
so "throws SIG_PUSHONLY" does not hold unconditionally.  What holds:
with `VERIFY_P2SH`, a pay-to-scripthash output and a non-push-only
input, `Script.verify` never succeeds; and when the two executions pass
with a truthy top (the witness branch being unreachable for a
scripthash output), it fails with exactly `SIG_PUSHONLY`, whether or
not `VERIFY_SIGPUSHONLY` is set. -/
theorem C10_p2sh_pushonly (C : Crypto) (flags : Flags) (tx : Option Tx)
    (i : Nat) (input : ScriptData) (w : Witness) (output : ScriptData)
    (hp2sh : flags.p2sh = true)
    (hsh : Script.isScripthash output.raw = true)
    (hpush : Script.isPushOnly input.code = false) :
    (∀ u : Unit, Script.verify input w output tx i flags C ≠ .ok u) ∧
    (flags.witness = false →
      ∀ st1 st2 : ExecState,
        Script.execute input [] flags tx i 0 C = .ok st1 →
        Script.execute output st1.stack flags tx i 0 C = .ok st2 →
        st2.stack.length ≠ 0 →
        Script.bool (Stack.top st2.stack 1) = true →
        Script.verify input w output tx i flags C =
          .error .SIG_PUSHONLY) := by
  have hprog : Script.isProgram output.raw = false :=
    isScripthash_not_isProgram output.raw hsh
  constructor
  · intro u hok
    unfold Script.verify at hok
    by_cases hsp : flags.sigpushonly = true
        ∧ Script.isPushOnly input.code = false
    · rw [if_pos hsp] at hok
      exact Except.noConfusion hok
    rw [if_neg hsp] at hok
    cases he1 : Script.execute input [] flags tx i 0 C with
    | error e =>
      simp only [he1] at hok
      exact Except.noConfusion hok
    | ok st1 =>
      simp only [he1] at hok
      cases he2 : Script.execute output st1.stack flags tx i 0 C with
      | error e =>
        simp only [he2] at hok
        exact Except.noConfusion hok
      | ok st2 =>
        simp only [he2] at hok
        by_cases hev : st2.stack.length = 0
            ∨ Script.bool (Stack.top st2.stack 1) = false
        · rw [if_pos hev] at hok
          exact Except.noConfusion hok
        rw [if_neg hev] at hok
        rw [if_neg (by simp [hprog])] at hok
        rw [if_pos ⟨hp2sh, hsh⟩] at hok
        unfold Script.verifyP2SH at hok
        rw [if_pos hpush] at hok
        exact Except.noConfusion hok
  · intro hw st1 st2 he1 he2 hlen htop
    unfold Script.verify
    by_cases hsp : flags.sigpushonly = true
        ∧ Script.isPushOnly input.code = false
    · rw [if_pos hsp]
    · rw [if_neg hsp]
      simp only [he1, he2]
      rw [if_neg (by simp [hlen, htop] : ¬(st2.stack.length = 0
        ∨ Script.bool (Stack.top st2.stack 1) = false))]
      rw [if_neg (by simp [hw])]
      rw [if_pos ⟨hp2sh, hsh⟩]
      unfold Script.verifyP2SH
      rw [if_pos hpush]

theorem C10_p2sh_pushonly_witness :
    (∀ u : Unit, Script.verify p2shInput ⟨[]⟩ p2shOut none 0 flagsP2SH
      cryptoZero ≠ .ok u) ∧
    (flagsP2SH.witness = false →
      ∀ st1 st2 : ExecState,
        Script.execute p2shInput [] flagsP2SH none 0 0 cryptoZero =
          .ok st1 →
        Script.execute p2shOut st1.stack flagsP2SH none 0 0 cryptoZero =
          .ok st2 →
        st2.stack.length ≠ 0 →
        Script.bool (Stack.top st2.stack 1) = true →
        Script.verify p2shInput ⟨[]⟩ p2shOut none 0 flagsP2SH cryptoZero =
          .error .SIG_PUSHONLY) :=
  C10_p2sh_pushonly cryptoZero flagsP2SH none 0 p2shInput ⟨[]⟩ p2shOut
    rfl (by decide) (by decide)

/-- **C10**, the refuting run: the non-push input `OP_NOP` against a
P2SH output fails at the output execution
(`INVALID_STACK_OPERATION`) before the push-only check is reached. -/
theorem C10_counterexample :
    Script.isPushOnly (scriptFromRaw [0x61]).code = false ∧
    Script.verify (scriptFromRaw [0x61]) ⟨[]⟩ p2shOut none 0 flagsP2SH
      cryptoZero = .error .INVALID_STACK_OPERATION ∧
    ScriptErr.INVALID_STACK_OPERATION ≠ ScriptErr.SIG_PUSHONLY :=
  ⟨rfl, rfl, by decide⟩

/-! ## C1: the block validator -/

theorem checkTxs_ok_no_coinbase :
    ∀ (txs : List BTx) (i sig : Nat), 1 ≤ i →
      checkTxs txs i sig = .ok () →
      ∀ tx ∈ txs, tx.coinbase = false := by
  intro txs
  induction txs with
  | nil =>
    intro i sig hi h tx htx
    exact absurd htx (List.not_mem_nil tx)
  | cons t rest ih =>
    intro i sig hi h tx htx
    simp only [checkTxs] at h
    by_cases hc : 0 < i ∧ t.coinbase = true
    · rw [if_pos hc] at h
      exact Except.noConfusion h
    · rw [if_neg hc] at h
      have htc : t.coinbase = false := by
        cases hb : t.coinbase with
        | false => rfl
        | true => exact absurd ⟨by omega, hb⟩ hc
      cases hs : t.sane with
      | some r =>
        simp only [hs] at h
        exact Except.noConfusion h
      | none =>
        simp only [hs] at h
        by_cases hsig : 80000 < (sig + t.sigops) * 4
        · rw [if_pos hsig] at h
          exact Except.noConfusion h
        · rw [if_neg hsig] at h
          rcases List.mem_cons.mp htx with rfl | hmem
          · exact htc
          · exact ih (i + 1) _ (by omega) h tx hmem

theorem checkTxs_zero_tail (txs : List BTx)
    (h : checkTxs txs 0 0 = .ok ()) :
    ∀ tx ∈ txs.drop 1, tx.coinbase = false := by
  cases txs with
  | nil =>
    intro tx htx
    simp at htx
  | cons t rest =>
    intro tx htx
    simp only [checkTxs] at h
    rw [if_neg (by simp)] at h
    cases hs : t.sane with
    | some r =>
      simp only [hs] at h
      exact Except.noConfusion h
    | none =>
      simp only [hs] at h
      by_cases hsig : 80000 < (0 + t.sigops) * 4
      · rw [if_pos hsig] at h
        exact Except.noConfusion h
      · rw [if_neg hsig] at h
        exact checkTxs_ok_no_coinbase rest 1 _ (by omega) h tx
          (by simpa using htx)

/-- **C1.** Corrected: the merkle computation only runs after the
header, length, coinbase, sanity and sigop checks, so "whenever the
merkle root is `None` the reason is `bad-txns-duplicate`" fails when an
earlier check rejects the block first.  What holds: a block the
verifier accepts has a matching merkle root, a coinbase first
transaction and no later coinbase; and *given* that every earlier check
passes, a `None` merkle gives `bad-txns-duplicate` (score 100) and a
mismatching one `bad-txnmrklroot` (score 100). -/
theorem C1_block_verify (merkleFn : List (List Nat) → Option (List Nat))
    (b : Blk) :
    (blockVerify merkleFn b = .ok () →
      merkleFn (b.txs.map BTx.hash) = some b.merkleRoot ∧
      (b.txs.getD 0 default).coinbase = true ∧
      ∀ tx ∈ b.txs.drop 1, tx.coinbase = false) ∧
    (b.headerOk = none →
      ¬(1000000 < b.txs.length ∨ 1000000 < b.baseSize) →
      ¬(b.txs.length = 0 ∨ (b.txs.getD 0 default).coinbase = false) →
      checkTxs b.txs 0 0 = .ok () →
      (merkleFn (b.txs.map BTx.hash) = none →
        blockVerify merkleFn b = .error ("bad-txns-duplicate", 100)) ∧
      (∀ m, merkleFn (b.txs.map BTx.hash) = some m → b.merkleRoot ≠ m →
        blockVerify merkleFn b = .error ("bad-txnmrklroot", 100))) := by
  constructor
  · intro hok
    unfold blockVerify at hok
    cases hh : b.headerOk with
    | some r =>
      simp only [hh] at hok
      exact Except.noConfusion hok
    | none =>
      simp only [hh] at hok
      by_cases h1 : 1000000 < b.txs.length ∨ 1000000 < b.baseSize
      · rw [if_pos h1] at hok
        exact absurd hok (by simp)
      rw [if_neg h1] at hok
      by_cases h2 : b.txs.length = 0 ∨ (b.txs.getD 0 default).coinbase = false
      · rw [if_pos h2] at hok
        exact absurd hok (by simp)
      rw [if_neg h2] at hok
      cases hcheck : checkTxs b.txs 0 0 with
      | error r =>
        simp only [hcheck] at hok
        exact Except.noConfusion hok
      | ok u =>
        cases u
        simp only [hcheck] at hok
        cases hm : merkleFn (b.txs.map BTx.hash) with
        | none =>
          simp only [hm] at hok
          exact Except.noConfusion hok
        | some m =>
          simp only [hm] at hok
          by_cases hne : b.merkleRoot ≠ m
          · rw [if_pos hne] at hok
            exact Except.noConfusion hok
          rw [if_neg hne] at hok
          have hmr : b.merkleRoot = m := not_ne_iff.mp hne
          push_neg at h2
          refine ⟨by rw [hmr], ?_, checkTxs_zero_tail b.txs hcheck⟩
          cases hb : (b.txs.getD 0 default).coinbase with
          | false => exact absurd hb h2.2
          | true => rfl
  · intro hh h1 h2 hcheck
    constructor
    · intro hm
      unfold blockVerify
      simp only [hh]
      rw [if_neg h1, if_neg h2]
      simp only [hcheck, hm]
    · intro m hm hne
      unfold blockVerify
      simp only [hh]
      rw [if_neg h1, if_neg h2]
      simp only [hcheck, hm]
      rw [if_pos hne]

/-- **C1**, the refuting run: a merkle computation that returns `None`
on every input, against a two-transaction block whose first transaction
is not a coinbase — the verifier reports `bad-cb-missing`, not the
`bad-txns-duplicate` the claim requires whenever the merkle root is
`None`. -/
theorem C1_counterexample :
    blockVerify (fun _ => none)
      ⟨none, [], [⟨[], false, none, 0⟩, ⟨[], false, none, 0⟩], 0⟩ =
      .error ("bad-cb-missing", 100) ∧
    ("bad-cb-missing" : String) ≠ "bad-txns-duplicate" :=
  ⟨rfl, by decide⟩

/-- **C3**, the refuting run: `OP_RETURN OP_CAT` contains the disabled
`OP_CAT`, yet execution fails with `OP_RETURN`, not
`DISABLED_OPCODE`. -/
theorem C3_counterexample :
    (∃ op ∈ (scriptFromRaw [0x6a, 0x7e]).code,
      op.data = none ∧ Script.isDisabled op.value = true) ∧
    Script.execute (scriptFromRaw [0x6a, 0x7e]) [] noFlags none 0 0
      cryptoZero = .error .OP_RETURN ∧
    ScriptErr.OP_RETURN ≠ ScriptErr.DISABLED_OPCODE := by
  refine ⟨⟨⟨0x7e, none⟩, by decide, rfl, by decide⟩, rfl, by decide⟩

/-! ## C8: the query-by-index fast path against the full decode -/

theorem coinsLoop_none_eq (data : List Nat) (fstart fuel off i : Nat)
    (acc : List Coins.OutEntry) :
    Coins.coinsLoop data fstart none (fuel + 1) off i acc =
      if data.length ≤ off then .full acc
      else if data.getD (fstart + i / 8) 0 >>> (7 - i % 8) &&& 1 = 1 then
        Coins.coinsLoop data fstart none fuel off (i + 1) (acc ++ [.spent])
      else
        match Coins.skipOutput data off with
        | none => .err
        | some off2 =>
          Coins.coinsLoop data fstart none fuel off2 (i + 1)
            (acc ++ [.compressed off (off2 - off) data]) := rfl

theorem coinsLoop_some_eq (data : List Nat) (fstart idx fuel off i : Nat)
    (acc : List Coins.OutEntry) :
    Coins.coinsLoop data fstart (some idx) (fuel + 1) off i acc =
      if data.length ≤ off then .notfound
      else if data.getD (fstart + i / 8) 0 >>> (7 - i % 8) &&& 1 = 1 then
        (if i = idx then .notfound
         else Coins.coinsLoop data fstart (some idx) fuel off (i + 1) acc)
      else
        match Coins.skipOutput data off with
        | none => .err
        | some off2 =>
          if i = idx then .found off (off2 - off)
          else Coins.coinsLoop data fstart (some idx) fuel off2 (i + 1)
            acc := rfl

theorem coinsLoop_correspond (data : List Nat) (fstart idx : Nat) :
    ∀ (fuel off i : Nat) (acc outs : List Coins.OutEntry),
      Coins.coinsLoop data fstart none fuel off i acc = .full outs →
      ∃ tail, outs = acc ++ tail ∧
        (∀ e ∈ tail, e = .spent ∨
          ∃ o o2, Coins.skipOutput data o = some o2 ∧
            e = .compressed o (o2 - o) data) ∧
        Coins.coinsLoop data fstart (some idx) fuel off i [] =
          (if i ≤ idx then
            match tail.getD (idx - i) .spent with
            | .spent => .notfound
            | .compressed o s _ => .found o s
            | .coin _ _ => .notfound
          else .notfound) := by
  intro fuel
  induction fuel with
  | zero =>
    intro off i acc outs h
    exact absurd h (by simp [Coins.coinsLoop])
  | succ fuel ih =>
    intro off i acc outs h
    rw [coinsLoop_none_eq] at h
    rw [coinsLoop_some_eq]
    by_cases heof : data.length ≤ off
    · rw [if_pos heof] at h
      rw [if_pos heof]
      injection h with h
      refine ⟨[], by rw [← h, List.append_nil], by intro e he; simp at he, ?_⟩
      by_cases hle : i ≤ idx
      · rw [if_pos hle]
        rfl
      · rw [if_neg hle]
    · rw [if_neg heof] at h
      rw [if_neg heof]
      by_cases hs : data.getD (fstart + i / 8) 0 >>> (7 - i % 8) &&& 1 = 1
      · rw [if_pos hs] at h
        rw [if_pos hs]
        obtain ⟨tail, houts, hmem, hidx⟩ := ih off (i + 1) (acc ++ [.spent])
          outs h
        refine ⟨.spent :: tail, ?_, ?_, ?_⟩
        · rw [houts, List.append_assoc]
          rfl
        · intro e he
          rcases List.mem_cons.mp he with rfl | hm
          · exact Or.inl rfl
          · exact hmem e hm
        · by_cases hi : i = idx
          · rw [if_pos hi, if_pos (by omega : i ≤ idx),
              show idx - i = 0 by omega]
            rfl
          · rw [if_neg hi, hidx]
            by_cases hle : i + 1 ≤ idx
            · rw [if_pos hle, if_pos (by omega : i ≤ idx),
                show idx - i = (idx - (i + 1)) + 1 by omega]
              rfl
            · rw [if_neg hle, if_neg (by omega : ¬(i ≤ idx))]
      · rw [if_neg hs] at h
        rw [if_neg hs]
        cases hskip : Coins.skipOutput data off with
        | none =>
          simp only [hskip] at h
          exact absurd h (by simp)
        | some off2 =>
          simp only [hskip] at h
          simp only [hskip]
          obtain ⟨tail, houts, hmem, hidx⟩ := ih off2 (i + 1)
            (acc ++ [.compressed off (off2 - off) data]) outs h
          refine ⟨.compressed off (off2 - off) data :: tail, ?_, ?_, ?_⟩
          · rw [houts, List.append_assoc]
            rfl
          · intro e he
            rcases List.mem_cons.mp he with rfl | hm
            · exact Or.inr ⟨off, off2, hskip, rfl⟩
            · exact hmem e hm
          · by_cases hi : i = idx
            · rw [if_pos hi, if_pos (by omega : i ≤ idx),
                show idx - i = 0 by omega]
              rfl
            · rw [if_neg hi, hidx]
              by_cases hle : i + 1 ≤ idx
              · rw [if_pos hle, if_pos (by omega : i ≤ idx),
                  show idx - i = (idx - (i + 1)) + 1 by omega]
                rfl
              · rw [if_neg hle, if_neg (by omega : ¬(i ≤ idx))]

theorem skipOutput_toCoin (c : Coins.Coins) (data : List Nat)
    (off o2 i : Nat) (h : Coins.skipOutput data off = some o2) :
    ∃ bc, Coins.toCoin c data off i = some bc := by
  cases hr : Coins.readU8 data off with
  | none => simp [Coins.skipOutput, hr] at h
  | some po =>
    obtain ⟨pfx, o1⟩ := po
    by_cases h0 : pfx = 0
    · cases hv : Coins.readVarint data o1 with
      | none => simp [Coins.skipOutput, hr, h0, hv] at h
      | some lv =>
        obtain ⟨len, oL⟩ := lv
        by_cases hb : data.length < oL + len
        · simp [Coins.skipOutput, hr, h0, hv, hb] at h
        · cases hv2 : Coins.readVarint data (oL + len) with
          | none => simp [Coins.skipOutput, hr, h0, hv, hb, hv2] at h
          | some vv =>
            obtain ⟨v, oV⟩ := vv
            refine ⟨⟨c.version, c.height, c.coinbase, c.hash, i,
              .raw ((data.drop oL).take len), v⟩, ?_⟩
            simp [Coins.toCoin, Coins.decompressScript, hr, h0, hv, hb, hv2]
    · by_cases h1 : pfx = 1
      · by_cases hb : data.length < o1 + 20
        · simp [Coins.skipOutput, hr, h0, h1, hb] at h
        · cases hv2 : Coins.readVarint data (o1 + 20) with
          | none => simp [Coins.skipOutput, hr, h0, h1, hb, hv2] at h
          | some vv =>
            obtain ⟨v, oV⟩ := vv
            refine ⟨⟨c.version, c.height, c.coinbase, c.hash, i,
              .pubkeyhash ((data.drop o1).take 20), v⟩, ?_⟩
            simp [Coins.toCoin, Coins.decompressScript, hr, h0, h1, hb, hv2]
      · by_cases h2 : pfx = 2
        · by_cases hb : data.length < o1 + 20
          · simp [Coins.skipOutput, hr, h0, h1, h2, hb] at h
          · cases hv2 : Coins.readVarint data (o1 + 20) with
            | none => simp [Coins.skipOutput, hr, h0, h1, h2, hb, hv2] at h
            | some vv =>
              obtain ⟨v, oV⟩ := vv
              refine ⟨⟨c.version, c.height, c.coinbase, c.hash, i,
                .scripthash ((data.drop o1).take 20), v⟩, ?_⟩
              simp [Coins.toCoin, Coins.decompressScript, hr, h0, h1, h2,
                hb, hv2]
        · by_cases h3 : pfx = 3
          · by_cases hb : data.length < o1 + 33
            · simp [Coins.skipOutput, hr, h0, h1, h2, h3, hb] at h
            · cases hv2 : Coins.readVarint data (o1 + 33) with
              | none =>
                simp [Coins.skipOutput, hr, h0, h1, h2, h3, hb, hv2] at h
              | some vv =>
                obtain ⟨v, oV⟩ := vv
                refine ⟨⟨c.version, c.height, c.coinbase, c.hash, i,
                  .key ((data.drop o1).take 33), v⟩, ?_⟩
                simp [Coins.toCoin, Coins.decompressScript, hr, h0, h1, h2,
                  h3, hb, hv2]
          · simp [Coins.skipOutput, hr, h0, h1, h2, h3] at h

/-- **C8.** Whenever the full decode `Coins.fromRaw` succeeds, the
query-by-index fast path `Coins.parseCoin(data, hash, i)` returns
exactly what `get i` on the fully decoded object returns: the
materialized coin when output `i` is present and unspent, nothing when
it is spent or absent. -/
theorem C8_parse_coin (data hash : List Nat) (idx : Nat)
    (c : Coins.Coins) (h : Coins.coinsFromRaw data hash = some c) :
    Coins.parseCoin data hash idx = some (Coins.Coins.get c idx) := by
  unfold Coins.coinsFromRaw at h
  cases hh : Coins.readHeader data hash with
  | none =>
    simp only [hh] at h
    exact absurd h (by simp)
  | some trip =>
    obtain ⟨c0, fstart, off⟩ := trip
    simp only [hh] at h
    cases hloop : Coins.coinsLoop data fstart none (Coins.fuelFor data)
        off 0 [] with
    | found o s => exact absurd h (by simp [hloop])
    | notfound => exact absurd h (by simp [hloop])
    | err => exact absurd h (by simp [hloop])
    | fuelOut => exact absurd h (by simp [hloop])
    | full outs =>
      simp only [hloop] at h
      injection h with h
      obtain ⟨tail, houts, hmem, hidx⟩ := coinsLoop_correspond data fstart
        idx (Coins.fuelFor data) off 0 [] outs hloop
      rw [List.nil_append] at houts
      subst houts
      unfold Coins.parseCoin
      simp only [hh]
      rw [hidx, if_pos (Nat.zero_le idx), Nat.sub_zero]
      subst h
      cases hg : outs.getD idx Coins.OutEntry.spent with
      | spent =>
        simp only [Coins.Coins.get, hg]
      | coin s v =>
        exfalso
        by_cases hlt : idx < outs.length
        · have hin : outs.getD idx Coins.OutEntry.spent ∈ outs := by
            rw [List.getD_eq_getElem outs Coins.OutEntry.spent hlt]
            exact List.getElem_mem hlt
          rw [hg] at hin
          rcases hmem _ hin with h1 | ⟨o, o2', _, h2⟩
          · exact Coins.OutEntry.noConfusion h1
          · exact Coins.OutEntry.noConfusion h2
        · rw [List.getD_eq_default outs Coins.OutEntry.spent
            (by omega)] at hg
          exact Coins.OutEntry.noConfusion hg
      | compressed o sz raw =>
        have hin : outs.getD idx Coins.OutEntry.spent ∈ outs := by
          by_cases hlt : idx < outs.length
          · rw [List.getD_eq_getElem outs Coins.OutEntry.spent hlt]
            exact List.getElem_mem hlt
          · rw [List.getD_eq_default outs Coins.OutEntry.spent
              (by omega)] at hg
            exact absurd hg (by simp)
        rw [hg] at hin
        rcases hmem _ hin with h1 | ⟨o', o2', hskip', h2⟩
        · exact absurd h1 (by simp)
        · injection h2 with ho hsz hraw
          obtain ⟨bc, hbc⟩ := skipOutput_toCoin c0 data o' o2' idx hskip'
          rw [← ho] at hbc
          have hco : Coins.toCoin { c0 with outputs := outs } data o idx =
              Coins.toCoin c0 data o idx := rfl
          simp only [Coins.Coins.get, hg, hraw, hco, hbc]

theorem C8_parse_coin_witness :
    Coins.parseCoin c8data [] 1 =
      some (Coins.Coins.get
        ⟨1, [], 5, false, [.spent, .compressed 7 22 c8data]⟩ 1) :=
  C8_parse_coin c8data [] 1
    ⟨1, [], 5, false, [.spent, .compressed 7 22 c8data]⟩ rfl

/-! ## C7: byte-level reading lemmas -/

theorem getD_drop (l : List Nat) (n k d : Nat) :
    l.getD (n + k) d = (l.drop n).getD k d := by
  simp [List.getD_eq_getElem?_getD, List.getElem?_drop]

theorem drop_cons_length {data : List Nat} {off : Nat} {b : Nat}
    {tail : List Nat} (h : data.drop off = b :: tail) :
    off < data.length := by
  by_contra hc
  rw [List.drop_eq_nil_of_le (by omega)] at h
  exact List.noConfusion h

theorem drop_seg_length {data seg tail : List Nat} {off : Nat}
    (h : data.drop off = seg ++ tail) (hoff : off ≤ data.length) :
    data.length = off + seg.length + tail.length := by
  have := congrArg List.length h
  rw [List.length_drop, List.length_append] at this
  omega

theorem drop_le_length {data seg tail : List Nat} {off : Nat}
    (h : data.drop off = seg ++ tail) (hs : seg ≠ []) :
    off + seg.length ≤ data.length := by
  by_cases hoff : off ≤ data.length
  · have := drop_seg_length h hoff
    omega
  · rw [List.drop_eq_nil_of_le (by omega)] at h
    exact absurd (List.append_eq_nil.mp h.symm).1 hs

theorem drop_shift {data seg tail : List Nat} {off : Nat}
    (h : data.drop off = seg ++ tail) :
    data.drop (off + seg.length) = tail := by
  rw [← List.drop_drop, h, List.drop_left]

theorem getD_at {data seg tail : List Nat} {off : Nat}
    (h : data.drop off = seg ++ tail) (k d : Nat) (hk : k < seg.length) :
    data.getD (off + k) d = seg.getD k d := by
  rw [getD_drop, h]
  exact List.getD_append seg tail d k hk

theorem readU8_suffix {data : List Nat} {off : Nat} {b : Nat}
    {tail : List Nat} (h : data.drop off = b :: tail) :
    Coins.readU8 data off = some (b, off + 1) := by
  have hsplit : data.drop off = [b] ++ tail := by
    rw [h]
    rfl
  have h1 : off + 1 ≤ data.length := by
    have h9 := drop_le_length hsplit (by simp)
    simpa using h9
  have h2 : data.getD (off + 0) 0 = b := by
    have h9 := getD_at hsplit 0 0 (by simp)
    simpa using h9
  rw [Nat.add_zero] at h2
  unfold Coins.readU8
  rw [if_pos h1, h2]

theorem readU16_suffix {data : List Nat} {off n : Nat} {tail : List Nat}
    (hn : n < 65536) (h : data.drop off = Script.u16le n ++ tail) :
    Coins.readU16 data off = some (n, off + 2) := by
  have hlen : (Script.u16le n).length = 2 := rfl
  have h1 : off + 2 ≤ data.length := by
    have := drop_le_length h (by simp [Script.u16le])
    omega
  have e0 : data.getD (off + 0) 0 = n % 256 :=
    getD_at h 0 0 (by rw [hlen]; omega)
  have e1 : data.getD (off + 1) 0 = n / 256 % 256 :=
    getD_at h 1 0 (by rw [hlen]; omega)
  rw [Nat.add_zero] at e0
  simp only [Coins.readU16, if_pos h1, e0, e1]
  congr 1
  congr 1
  omega

theorem readU32_suffix {data : List Nat} {off n : Nat} {tail : List Nat}
    (hn : n < 4294967296) (h : data.drop off = Script.u32le n ++ tail) :
    Coins.readU32 data off = some (n, off + 4) := by
  have hlen : (Script.u32le n).length = 4 := rfl
  have h1 : off + 4 ≤ data.length := by
    have := drop_le_length h (by simp [Script.u32le])
    omega
  have e0 : data.getD (off + 0) 0 = n % 256 :=
    getD_at h 0 0 (by rw [hlen]; omega)
  have e1 : data.getD (off + 1) 0 = n / 256 % 256 :=
    getD_at h 1 0 (by rw [hlen]; omega)
  have e2 : data.getD (off + 2) 0 = n / 65536 % 256 :=
    getD_at h 2 0 (by rw [hlen]; omega)
  have e3 : data.getD (off + 3) 0 = n / 16777216 % 256 :=
    getD_at h 3 0 (by rw [hlen]; omega)
  rw [Nat.add_zero] at e0
  simp only [Coins.readU32, if_pos h1, e0, e1, e2, e3]
  congr 1
  congr 1
  omega

theorem readU64_suffix {data : List Nat} {off n : Nat} {tail : List Nat}
    (hn : n < 18446744073709551616)
    (h : data.drop off = Script.u64le n ++ tail) :
    Coins.readU64 data off = some (n, off + 8) := by
  have hlen : (Script.u64le n).length = 8 := rfl
  have h1 : off + 8 ≤ data.length := by
    have := drop_le_length h (by simp [Script.u64le])
    omega
  have e0 : data.getD (off + 0) 0 = n % 256 :=
    getD_at h 0 0 (by rw [hlen]; omega)
  have e1 : data.getD (off + 1) 0 = n / 256 % 256 :=
    getD_at h 1 0 (by rw [hlen]; omega)
  have e2 : data.getD (off + 2) 0 = n / 65536 % 256 :=
    getD_at h 2 0 (by rw [hlen]; omega)
  have e3 : data.getD (off + 3) 0 = n / 16777216 % 256 :=
    getD_at h 3 0 (by rw [hlen]; omega)
  have e4 : data.getD (off + 4) 0 = n / 4294967296 % 256 :=
    getD_at h 4 0 (by rw [hlen]; omega)
  have e5 : data.getD (off + 5) 0 = n / 1099511627776 % 256 :=
    getD_at h 5 0 (by rw [hlen]; omega)
  have e6 : data.getD (off + 6) 0 = n / 281474976710656 % 256 :=
    getD_at h 6 0 (by rw [hlen]; omega)
  have e7 : data.getD (off + 7) 0 = n / 72057594037927936 % 256 :=
    getD_at h 7 0 (by rw [hlen]; omega)
  rw [Nat.add_zero] at e0
  show (if off + 8 ≤ data.length then
    some ((List.range 8).foldl
      (fun acc k => acc + 256 ^ k * data.getD (off + k) 0) 0, off + 8)
    else none) = _
  rw [if_pos h1]
  have hfold : (List.range 8).foldl
      (fun acc k => acc + 256 ^ k * data.getD (off + k) 0) 0 =
      data.getD (off + 0) 0 + 256 * data.getD (off + 1) 0
        + 65536 * data.getD (off + 2) 0
        + 16777216 * data.getD (off + 3) 0
        + 4294967296 * data.getD (off + 4) 0
        + 1099511627776 * data.getD (off + 5) 0
        + 281474976710656 * data.getD (off + 6) 0
        + 72057594037927936 * data.getD (off + 7) 0 := by
    show (0 + 256 ^ 0 * data.getD (off + 0) 0
        + 256 ^ 1 * data.getD (off + 1) 0
        + 256 ^ 2 * data.getD (off + 2) 0
        + 256 ^ 3 * data.getD (off + 3) 0
        + 256 ^ 4 * data.getD (off + 4) 0
        + 256 ^ 5 * data.getD (off + 5) 0
        + 256 ^ 6 * data.getD (off + 6) 0
        + 256 ^ 7 * data.getD (off + 7) 0) = _
    norm_num
  rw [hfold, Nat.add_zero] at *
  rw [e0, e1, e2, e3, e4, e5, e6, e7]
  congr 1
  congr 1
  omega

theorem readVarint_suffix {data : List Nat} {off n : Nat} {tail : List Nat}
    (hn : n < 18446744073709551616)
    (h : data.drop off = Coins.writeVarint n ++ tail) :
    Coins.readVarint data off = some (n, off + (Coins.writeVarint n).length) := by
  unfold Coins.writeVarint at h ⊢
  by_cases h1 : n < 0xfd
  · rw [if_pos h1] at h ⊢
    rw [show ([n] : List Nat) ++ tail = n :: tail from rfl] at h
    simp only [Coins.readVarint, readU8_suffix h]
    rw [if_pos h1]
    rfl
  · rw [if_neg h1] at h ⊢
    by_cases h2 : n ≤ 0xffff
    · rw [if_pos h2] at h ⊢
      rw [List.cons_append] at h
      have h8 := readU8_suffix h
      have hrest : data.drop (off + 1) = Script.u16le n ++ tail := by
        have hsplit : data.drop off = [0xfd] ++ (Script.u16le n ++ tail) := by
          rw [h]
          rfl
        have := drop_shift hsplit
        simpa using this
      simp only [Coins.readVarint, h8]
      norm_num
      rw [readU16_suffix (by omega) hrest]
      simp [Script.u16le]
    · rw [if_neg h2] at h ⊢
      by_cases h3 : n ≤ 0xffffffff
      · rw [if_pos h3] at h ⊢
        rw [List.cons_append] at h
        have h8 := readU8_suffix h
        have hrest : data.drop (off + 1) = Script.u32le n ++ tail := by
          have hsplit : data.drop off = [0xfe] ++ (Script.u32le n ++ tail) := by
            rw [h]
            rfl
          have := drop_shift hsplit
          simpa using this
        simp only [Coins.readVarint, h8]
        norm_num
        rw [readU32_suffix (by omega) hrest]
        simp [Script.u32le]
      · rw [if_neg h3] at h ⊢
        rw [List.cons_append] at h
        have h8 := readU8_suffix h
        have hrest : data.drop (off + 1) = Script.u64le n ++ tail := by
          have hsplit : data.drop off = [0xff] ++ (Script.u64le n ++ tail) := by
            rw [h]
            rfl
          have := drop_shift hsplit
          simpa using this
        simp only [Coins.readVarint, h8]
        norm_num
        rw [readU64_suffix hn hrest]
        simp [Script.u64le]

/-! ## C7: spent-field bit lemmas -/

theorem shift_and_one (x k : Nat) :
    x >>> k &&& 1 = if x.testBit k then 1 else 0 := by
  rw [Nat.and_one_is_mod, Nat.testBit_to_div_mod, Nat.shiftRight_eq_div_pow]
  by_cases h : x / 2 ^ k % 2 = 1
  · rw [if_pos (by simpa using h)]
    exact h
  · rw [if_neg (by simpa using h)]
    omega

theorem orFold_testBit (Q : Nat → Prop) [DecidablePred Q]
    (l : List Nat) :
    ∀ (init k : Nat),
      (l.foldl (fun acc b =>
        if Q b then acc ||| 1 <<< (7 - b) else acc) init).testBit k =
        (init.testBit k || l.any fun b => decide (Q b) && decide (7 - b = k)) := by
  induction l with
  | nil => intro init k; simp
  | cons b l ih =>
    intro init k
    simp only [List.foldl_cons, List.any_cons]
    rw [ih]
    by_cases hp : Q b
    · rw [if_pos hp]
      rw [Nat.testBit_or]
      have hbit : (1 <<< (7 - b)).testBit k = decide (7 - b = k) := by
        rw [Nat.shiftLeft_eq, one_mul, Nat.testBit_two_pow]
      rw [hbit]
      simp only [decide_eq_true hp, Bool.true_and]
      cases init.testBit k <;> cases (decide (7 - b = k)) <;>
        cases l.any fun b => decide (Q b) && decide (7 - b = k) <;> rfl
    · rw [if_neg hp]
      simp [hp]

theorem spentByte_bit (outputs : List Coins.OutEntry) (L oct bit : Nat)
    (hb : bit < 8) :
    Coins.spentByte outputs L oct >>> (7 - bit) &&& 1 =
      (if 8 * oct + bit < L ∧
          ((outputs.getD (8 * oct + bit) .spent).isSpent = true) then 1
        else 0) := by
  rw [shift_and_one]
  have hsb : (Coins.spentByte outputs L oct).testBit (7 - bit) =
      decide (8 * oct + bit < L ∧
        (outputs.getD (8 * oct + bit) .spent).isSpent = true) := by
    show ((List.range 8).foldl (fun acc b =>
      if 8 * oct + b < L ∧ (outputs.getD (8 * oct + b) .spent).isSpent = true
      then acc ||| 1 <<< (7 - b) else acc) 0).testBit (7 - bit) = _
    rw [orFold_testBit (fun b => 8 * oct + b < L ∧
      (outputs.getD (8 * oct + b) .spent).isSpent = true) (List.range 8) 0
      (7 - bit)]
    rw [Nat.zero_testBit, Bool.false_or]
    show ([0, 1, 2, 3, 4, 5, 6, 7].any fun b =>
      decide (8 * oct + b < L ∧
        (outputs.getD (8 * oct + b) .spent).isSpent = true)
        && decide (7 - b = 7 - bit)) = _
    interval_cases bit <;> simp
  rw [hsb]
  by_cases hq : 8 * oct + bit < L ∧
      (outputs.getD (8 * oct + bit) Coins.OutEntry.spent).isSpent = true
  · simp only [decide_eq_true hq, if_pos hq]
    rfl
  · simp only [decide_eq_false hq, if_neg hq]
    rfl

/-! ## C7: compressed-script reading lemmas -/

theorem writeVarint_ne_nil (n : Nat) : Coins.writeVarint n ≠ [] := by
  unfold Coins.writeVarint
  split_ifs <;> simp

theorem decompress_suffix {data : List Nat} {off : Nat} {s : Coins.CScript}
    {tail : List Nat} (hwf : s.wf)
    (h : data.drop off = Coins.compressScript s ++ tail) :
    Coins.decompressScript data off =
      some (s, off + (Coins.compressScript s).length) := by
  cases s with
  | raw bytes =>
    unfold Coins.compressScript at h
    rw [List.cons_append] at h
    have h8 := readU8_suffix h
    have hrest : data.drop (off + 1) =
        Coins.writeVarint bytes.length ++ (bytes ++ tail) := by
      have hsplit : data.drop off =
          [0x00] ++ (Coins.writeVarint bytes.length ++ bytes ++ tail) := by
        rw [h]
        simp
      have := drop_shift hsplit
      simpa [List.append_assoc] using this
    have hv := readVarint_suffix (n := bytes.length) hwf hrest
    have hrest2 : data.drop
        (off + 1 + (Coins.writeVarint bytes.length).length) =
        bytes ++ tail := drop_shift hrest
    have hb1 : off + 1 + (Coins.writeVarint bytes.length).length ≤
        data.length :=
      drop_le_length hrest (writeVarint_ne_nil _)
    have hb2 : data.length =
        off + 1 + (Coins.writeVarint bytes.length).length + bytes.length
          + tail.length :=
      drop_seg_length hrest2 (by omega)
    unfold Coins.decompressScript
    simp only [h8, hv]
    norm_num
    refine ⟨by omega, by rw [hrest2]; exact List.take_left _ _, ?_⟩
    simp [Coins.compressScript]
    omega
  | pubkeyhash hsh =>
    unfold Coins.compressScript at h
    rw [List.cons_append] at h
    have h8 := readU8_suffix h
    have hrest : data.drop (off + 1) = hsh ++ tail := by
      have hsplit : data.drop off = [0x01] ++ (hsh ++ tail) := by
        rw [h]
        rfl
      have := drop_shift hsplit
      simpa using this
    have hlen : hsh.length = 20 := hwf
    have hb1 : off + 1 + 20 ≤ data.length := by
      have := drop_le_length hrest (by intro hc; rw [hc] at hlen; simp at hlen)
      omega
    unfold Coins.decompressScript
    simp only [h8]
    norm_num
    refine ⟨by omega, by rw [hrest, ← hlen]; exact List.take_left _ _, ?_⟩
    simp [Coins.compressScript]
    omega
  | scripthash hsh =>
    unfold Coins.compressScript at h
    rw [List.cons_append] at h
    have h8 := readU8_suffix h
    have hrest : data.drop (off + 1) = hsh ++ tail := by
      have hsplit : data.drop off = [0x02] ++ (hsh ++ tail) := by
        rw [h]
        rfl
      have := drop_shift hsplit
      simpa using this
    have hlen : hsh.length = 20 := hwf
    have hb1 : off + 1 + 20 ≤ data.length := by
      have := drop_le_length hrest (by intro hc; rw [hc] at hlen; simp at hlen)
      omega
    unfold Coins.decompressScript
    simp only [h8]
    norm_num
    refine ⟨by omega, by rw [hrest, ← hlen]; exact List.take_left _ _, ?_⟩
    simp [Coins.compressScript]
    omega
  | key k =>
    unfold Coins.compressScript at h
    rw [List.cons_append] at h
    have h8 := readU8_suffix h
    have hrest : data.drop (off + 1) = k ++ tail := by
      have hsplit : data.drop off = [0x03] ++ (k ++ tail) := by
        rw [h]
        rfl
      have := drop_shift hsplit
      simpa using this
    have hlen : k.length = 33 := hwf
    have hb1 : off + 1 + 33 ≤ data.length := by
      have := drop_le_length hrest (by intro hc; rw [hc] at hlen; simp at hlen)
      omega
    unfold Coins.decompressScript
    simp only [h8]
    norm_num
    refine ⟨by omega, by rw [hrest, ← hlen]; exact List.take_left _ _, ?_⟩
    simp [Coins.compressScript]
    omega

theorem skip_suffix {data : List Nat} {off : Nat} {s : Coins.CScript}
    {v : Nat} {tail : List Nat} (hwf : s.wf) (hv : v < 18446744073709551616)
    (h : data.drop off =
      (Coins.compressScript s ++ Coins.writeVarint v) ++ tail) :
    Coins.skipOutput data off =
      some (off + (Coins.compressScript s ++ Coins.writeVarint v).length) := by
  rw [List.append_assoc] at h
  have hdec := decompress_suffix hwf h
  have hrest : data.drop (off + (Coins.compressScript s).length) =
      Coins.writeVarint v ++ tail := drop_shift h
  have hvread := readVarint_suffix hv hrest
  unfold Coins.skipOutput
  cases s with
  | raw bytes =>
    unfold Coins.compressScript at h ⊢
    rw [List.cons_append] at h
    have h8 := readU8_suffix h
    have hrest1 : data.drop (off + 1) =
        Coins.writeVarint bytes.length ++
          (bytes ++ (Coins.writeVarint v ++ tail)) := by
      have hsplit : data.drop off = [0x00] ++ (Coins.writeVarint
          bytes.length ++ bytes ++ (Coins.writeVarint v ++ tail)) := by
        rw [h]
        simp
      have := drop_shift hsplit
      simpa [List.append_assoc] using this
    have hlenv := readVarint_suffix (n := bytes.length) hwf hrest1
    have hrest2 : data.drop
        (off + 1 + (Coins.writeVarint bytes.length).length) =
        bytes ++ (Coins.writeVarint v ++ tail) := drop_shift hrest1
    have hb1 : off + 1 + (Coins.writeVarint bytes.length).length ≤
        data.length := drop_le_length hrest1 (writeVarint_ne_nil _)
    have hb2 : data.length =
        off + 1 + (Coins.writeVarint bytes.length).length + bytes.length
          + ((Coins.writeVarint v).length + tail.length) := by
      have := drop_seg_length hrest2 (by omega)
      rw [List.length_append] at this
      omega
    simp only [h8, hlenv]
    norm_num
    rw [if_neg (by omega)]
    have hvr : Coins.readVarint data
        (off + 1 + (Coins.writeVarint bytes.length).length + bytes.length) =
        some (v, off + 1 + (Coins.writeVarint bytes.length).length
          + bytes.length + (Coins.writeVarint v).length) := by
      apply readVarint_suffix hv
      have := drop_shift hrest2
      simpa using this
    simp only [hvr, Option.some.injEq, List.length_append,
      List.length_cons]
    omega
  | pubkeyhash hsh =>
    unfold Coins.compressScript at h ⊢
    rw [List.cons_append] at h
    have h8 := readU8_suffix h
    have hlen : hsh.length = 20 := hwf
    have hrest1 : data.drop (off + 1) =
        hsh ++ (Coins.writeVarint v ++ tail) := by
      have hsplit : data.drop off =
          [0x01] ++ (hsh ++ (Coins.writeVarint v ++ tail)) := by
        rw [h]
        simp
      have := drop_shift hsplit
      simpa [List.append_assoc] using this
    have hb1 : off + 1 + 20 ≤ data.length := by
      have := drop_le_length hrest1
        (by intro hc; rw [hc] at hlen; simp at hlen)
      omega
    simp only [h8]
    norm_num
    rw [if_neg (by omega)]
    have hvr : Coins.readVarint data (off + 1 + 20) =
        some (v, off + 1 + 20 + (Coins.writeVarint v).length) := by
      apply readVarint_suffix hv
      have := drop_shift hrest1
      rw [hlen] at this
      simpa using this
    simp only [hvr, Option.some.injEq, List.length_append,
      List.length_cons]
    omega
  | scripthash hsh =>
    unfold Coins.compressScript at h ⊢
    rw [List.cons_append] at h
    have h8 := readU8_suffix h
    have hlen : hsh.length = 20 := hwf
    have hrest1 : data.drop (off + 1) =
        hsh ++ (Coins.writeVarint v ++ tail) := by
      have hsplit : data.drop off =
          [0x02] ++ (hsh ++ (Coins.writeVarint v ++ tail)) := by
        rw [h]
        simp
      have := drop_shift hsplit
      simpa [List.append_assoc] using this
    have hb1 : off + 1 + 20 ≤ data.length := by
      have := drop_le_length hrest1
        (by intro hc; rw [hc] at hlen; simp at hlen)
      omega
    simp only [h8]
    norm_num
    rw [if_neg (by omega)]
    have hvr : Coins.readVarint data (off + 1 + 20) =
        some (v, off + 1 + 20 + (Coins.writeVarint v).length) := by
      apply readVarint_suffix hv
      have := drop_shift hrest1
      rw [hlen] at this
      simpa using this
    simp only [hvr, Option.some.injEq, List.length_append,
      List.length_cons]
    omega
  | key k =>
    unfold Coins.compressScript at h ⊢
    rw [List.cons_append] at h
    have h8 := readU8_suffix h
    have hlen : k.length = 33 := hwf
    have hrest1 : data.drop (off + 1) =
        k ++ (Coins.writeVarint v ++ tail) := by
      have hsplit : data.drop off =
          [0x03] ++ (k ++ (Coins.writeVarint v ++ tail)) := by
        rw [h]
        simp
      have := drop_shift hsplit
      simpa [List.append_assoc] using this
    have hb1 : off + 1 + 33 ≤ data.length := by
      have := drop_le_length hrest1
        (by intro hc; rw [hc] at hlen; simp at hlen)
      omega
    simp only [h8]
    norm_num
    rw [if_neg (by omega)]
    have hvr : Coins.readVarint data (off + 1 + 33) =
        some (v, off + 1 + 33 + (Coins.writeVarint v).length) := by
      apply readVarint_suffix hv
      have := drop_shift hrest1
      rw [hlen] at this
      simpa using this
    simp only [hvr, Option.some.injEq, List.length_append,
      List.length_cons]
    omega

theorem toCoin_suffix {data : List Nat} {off : Nat} {s : Coins.CScript}
    {v : Nat} {tail : List Nat} (hwf : s.wf)
    (hv : v < 18446744073709551616)
    (h : data.drop off =
      (Coins.compressScript s ++ Coins.writeVarint v) ++ tail)
    (c : Coins.Coins) (i : Nat) :
    Coins.toCoin c data off i =
      some ⟨c.version, c.height, c.coinbase, c.hash, i, s, v⟩ := by
  have h2 := h
  rw [List.append_assoc] at h2
  have hdec := decompress_suffix hwf h2
  have hrest : data.drop (off + (Coins.compressScript s).length) =
      Coins.writeVarint v ++ tail := drop_shift h2
  have hvread := readVarint_suffix hv hrest
  unfold Coins.toCoin
  simp only [hdec, hvread]

/-! ## C7: the outputs section of the encoding -/

theorem csize_le (outputs : List Coins.OutEntry) :
    Coins.csize outputs ≤ outputs.length := by
  unfold Coins.csize
  omega

theorem csize_spent_after (outputs : List Coins.OutEntry) (i : Nat)
    (h : Coins.csize outputs ≤ i) :
    (outputs.getD i .spent).isSpent = true := by
  by_cases hlt : i < outputs.length
  · rw [List.getD_eq_getElem _ _ hlt]
    have hpre : outputs.reverse.takeWhile Coins.OutEntry.isSpent <+:
        outputs.reverse := List.takeWhile_prefix _
    have htwle : (outputs.reverse.takeWhile Coins.OutEntry.isSpent).length ≤
        outputs.length := by
      have := hpre.length_le
      simpa using this
    have hk : outputs.length - 1 - i <
        (outputs.reverse.takeWhile Coins.OutEntry.isSpent).length := by
      unfold Coins.csize at h
      omega
    have hmem : (outputs.reverse.takeWhile Coins.OutEntry.isSpent).get
        ⟨outputs.length - 1 - i, hk⟩ ∈
        outputs.reverse.takeWhile Coins.OutEntry.isSpent :=
      List.get_mem _ _ _
    have hsp := List.mem_takeWhile_imp hmem
    have hidx : outputs.length - 1 - i < outputs.reverse.length := by
      rw [List.length_reverse]
      omega
    have heq1 : (outputs.reverse.takeWhile Coins.OutEntry.isSpent).get
        ⟨outputs.length - 1 - i, hk⟩ =
        outputs.reverse.get ⟨outputs.length - 1 - i, hidx⟩ := by
      rw [List.get_eq_getElem, List.get_eq_getElem]
      exact hpre.getElem hk
    have heq2 : outputs.reverse.get ⟨outputs.length - 1 - i, hidx⟩ =
        outputs.get ⟨i, hlt⟩ := by
      rw [List.get_eq_getElem, List.get_eq_getElem]
      simp only [Fin.val_mk]
      rw [List.getElem_reverse]
      congr 1
      omega
    rw [show outputs[i] = outputs.get ⟨i, hlt⟩ from
      (List.get_eq_getElem outputs ⟨i, hlt⟩).symm]
    rw [← heq2, ← heq1]
    exact hsp
  · rw [List.getD_eq_default _ _ (by omega)]
    rfl

theorem outputBytes_coin_ne_nil (s : Coins.CScript) (v : Nat) :
    Coins.outputBytes (.coin s v) ≠ [] := by
  unfold Coins.outputBytes Coins.compressScript
  cases s <;> simp

theorem encEntries_length (data : List Nat) :
    ∀ (rem : List Coins.OutEntry) (off : Nat),
      (Coins.encEntries data rem off).length = rem.length := by
  intro rem
  induction rem with
  | nil => intro off; rfl
  | cons e rest ih =>
    intro off
    cases e with
    | spent => simp [Coins.encEntries, ih]
    | coin s v => simp [Coins.encEntries, ih]
    | compressed o sz r => simp [Coins.encEntries, ih]

theorem encEntries_spec (data : List Nat) :
    ∀ (rem : List Coins.OutEntry) (off : Nat),
      (∀ e ∈ rem, e = .spent ∨
        ∃ s v, e = .coin s v ∧ Coins.CScript.wf s ∧
          v < 18446744073709551616) →
      data.drop off = (rem.map Coins.outputBytes).flatten →
      ∀ (k : Nat),
        (rem.getD k .spent = .spent →
          (Coins.encEntries data rem off).getD k .spent = .spent) ∧
        (∀ s v, rem.getD k .spent = .coin s v →
          ∃ o, (Coins.encEntries data rem off).getD k .spent =
              .compressed o (Coins.outputBytes (.coin s v)).length data ∧
            ∀ (cb : Coins.Coins) (i : Nat),
              Coins.toCoin cb data o i =
                some ⟨cb.version, cb.height, cb.coinbase, cb.hash, i, s, v⟩) := by
  intro rem
  induction rem with
  | nil =>
    intro off houts hdrop k
    constructor
    · intro _; rfl
    · intro s v hsv
      exact absurd hsv (by simp [Coins.encEntries])
  | cons e rest ih =>
    intro off houts hdrop k
    rw [List.map_cons, List.flatten_cons] at hdrop
    cases k with
    | zero =>
      constructor
      · intro hsp
        simp only [List.getD_cons_zero] at hsp
        subst hsp
        rfl
      · intro s v hsv
        simp only [List.getD_cons_zero] at hsv
        subst hsv
        rcases houts _ (List.mem_cons_self _ _) with h1 | ⟨s', v', he, hwf, hv⟩
        · exact absurd h1 (by simp)
        · injection he with hs hv'
          subst hs
          subst hv'
          refine ⟨off, rfl, ?_⟩
          intro cb i
          exact toCoin_suffix hwf hv
            (by rw [hdrop]; rfl) cb i
    | succ k =>
      have houts' : ∀ e' ∈ rest, e' = .spent ∨
          ∃ s v, e' = .coin s v ∧ Coins.CScript.wf s ∧
            v < 18446744073709551616 :=
        fun e' he' => houts e' (List.mem_cons_of_mem _ he')
      cases e with
      | spent =>
        have hdrop' : data.drop off = (rest.map Coins.outputBytes).flatten := by
          simpa [Coins.outputBytes] using hdrop
        have := ih off houts' hdrop' k
        constructor
        · intro hsp
          simp only [List.getD_cons_succ] at hsp ⊢
          exact (this.1 hsp)
        · intro s v hsv
          simp only [List.getD_cons_succ] at hsv ⊢
          exact this.2 s v hsv
      | coin s0 v0 =>
        have hdrop' : data.drop (off + (Coins.outputBytes (.coin s0 v0)).length)
            = (rest.map Coins.outputBytes).flatten := drop_shift hdrop
        have := ih (off + (Coins.outputBytes (.coin s0 v0)).length) houts'
          hdrop' k
        constructor
        · intro hsp
          simp only [List.getD_cons_succ] at hsp ⊢
          exact this.1 hsp
        · intro s v hsv
          simp only [List.getD_cons_succ] at hsv ⊢
          exact this.2 s v hsv
      | compressed o sz r =>
        rcases houts _ (List.mem_cons_self _ _) with h1 | ⟨s', v', he, _, _⟩
        · exact absurd h1 (by simp)
        · exact absurd he (by simp)

theorem coinsLoop_roundtrip (data : List Nat) (fstart flen L : Nat)
    (outputs : List Coins.OutEntry)
    (hL8 : L ≤ 8 * flen)
    (hLlen : L ≤ outputs.length)
    (hfield : ∀ t, t < flen → data.getD (fstart + t) 0 =
      Coins.spentByte outputs L t)
    (houts : ∀ e ∈ outputs, e = .spent ∨
      ∃ s v, e = .coin s v ∧ Coins.CScript.wf s ∧
        v < 18446744073709551616)
    (hlast : L ≠ 0 → (outputs.getD (L - 1) .spent).isSpent = false) :
    ∀ (fuel j off : Nat) (acc : List Coins.OutEntry),
      j ≤ L →
      L - j < fuel →
      data.drop off =
        (((outputs.take L).drop j).map Coins.outputBytes).flatten →
      Coins.coinsLoop data fstart none fuel off j acc =
        .full (acc ++ Coins.encEntries data ((outputs.take L).drop j) off) := by
  intro fuel
  induction fuel with
  | zero =>
    intro j off acc hj hfuel
    omega
  | succ fuel ih =>
    intro j off acc hj hfuel hdrop
    have htakelen : (outputs.take L).length = L := by
      rw [List.length_take]
      omega
    by_cases hjL : j = L
    · have hrem : (outputs.take L).drop j = [] := by
        apply List.drop_eq_nil_of_le
        rw [htakelen]
        omega
      rw [hrem] at hdrop ⊢
      have heof : data.length ≤ off := by
        have := congrArg List.length hdrop
        rw [List.length_drop] at this
        simp at this
        omega
      rw [coinsLoop_none_eq, if_pos heof]
      simp [Coins.encEntries]
    · have hjlt : j < L := by omega
      have hjo : j < outputs.length := by omega
      have hrem : (outputs.take L).drop j =
          outputs.getD j .spent :: (outputs.take L).drop (j + 1) := by
        rw [List.drop_eq_getElem_cons (by omega)]
        congr 1
        rw [List.getElem_take]
        rw [List.getD_eq_getElem _ _ hjo]
      rw [hrem] at hdrop ⊢
      rw [List.map_cons, List.flatten_cons] at hdrop
      have hmemj : outputs.getD j .spent ∈ outputs := by
        rw [List.getD_eq_getElem _ _ hjo]
        exact List.getElem_mem _
      -- the remaining bytes are nonempty: the last entry is unspent
      have hne : off < data.length := by
        have hLm1 : outputs.getD (L - 1) .spent ∈
            (outputs.take L).drop j := by
          have : L - 1 - j < ((outputs.take L).drop j).length := by
            rw [List.length_drop, htakelen]
            omega
          have hget : ((outputs.take L).drop j).get ⟨L - 1 - j, this⟩ =
              outputs.getD (L - 1) .spent := by
            rw [List.get_eq_getElem]
            simp only [Fin.val_mk]
            rw [List.getElem_drop, List.getElem_take]
            rw [List.getD_eq_getElem _ _ (by omega)]
            congr 1
            omega
          rw [← hget]
          exact List.get_mem _ _ _
        rw [hrem] at hLm1
        by_contra hc
        have hnil : data.drop off = [] := List.drop_eq_nil_of_le (by omega)
        have hnil2 : Coins.outputBytes (outputs.getD j .spent) ++
            (((outputs.take L).drop (j + 1)).map
              Coins.outputBytes).flatten = [] := by
          rw [← hdrop]
          exact hnil
        have hall : ∀ e ∈ outputs.getD j .spent ::
            (outputs.take L).drop (j + 1), Coins.outputBytes e = [] := by
          intro e he
          have hsplit := List.append_eq_nil.mp hnil2
          rcases List.mem_cons.mp he with rfl | hm
          · exact hsplit.1
          · have : Coins.outputBytes e ∈
                (((outputs.take L).drop (j + 1)).map Coins.outputBytes) :=
              List.mem_map_of_mem _ hm
            exact List.flatten_eq_nil_iff.mp hsplit.2 _ this
        have hLspent : (outputs.getD (L - 1) .spent).isSpent = true := by
          have hbytes := hall _ hLm1
          have hmemL : outputs.getD (L - 1) .spent ∈ outputs := by
            rw [List.getD_eq_getElem _ _ (by omega)]
            exact List.getElem_mem _
          rcases houts _ hmemL with h1 | ⟨s, v, he, _, _⟩
          · rw [h1]
            rfl
          · rw [he] at hbytes
            exact absurd hbytes (outputBytes_coin_ne_nil s v)
        exact absurd hLspent (by rw [hlast (by omega)]; simp)
      rw [coinsLoop_none_eq, if_neg (by omega)]
      have hbit : data.getD (fstart + j / 8) 0 >>> (7 - j % 8) &&& 1 =
          (if j < L ∧ (outputs.getD j .spent).isSpent = true then 1
            else 0) := by
        rw [hfield (j / 8) (by omega)]
        have := spentByte_bit outputs L (j / 8) (j % 8) (by omega)
        rw [show 8 * (j / 8) + j % 8 = j by omega] at this
        exact this
      rcases houts _ hmemj with hsp | ⟨s, v, he, hwf, hv⟩
      · -- spent slot: no bytes, push null
        have hcond : (if j < L ∧
            (outputs.getD j Coins.OutEntry.spent).isSpent = true then 1
            else 0) = 1 := by
          rw [if_pos ⟨hjlt, by rw [hsp]; rfl⟩]
        rw [hbit, if_pos hcond]
        rw [ih (j + 1) off (acc ++ [Coins.OutEntry.spent]) (by omega) (by omega)
          (by rw [hsp] at hdrop; simpa [Coins.outputBytes] using hdrop)]
        rw [hsp]
        simp [Coins.encEntries, List.append_assoc]
      · -- unspent: skip the compressed coin
        have hspent0 : (outputs.getD j .spent).isSpent = false := by
          rw [he]
          rfl
        have hcond : ¬((if j < L ∧
            (outputs.getD j Coins.OutEntry.spent).isSpent = true then 1
            else 0) = 1) := by
          rw [if_neg (by rw [hspent0]; simp)]
          norm_num
        rw [hbit, if_neg hcond]
        rw [he] at hdrop
        have hskip := skip_suffix hwf hv
          (by rw [hdrop]; rfl)
        simp only [hskip]
        rw [ih (j + 1) (off + (Coins.compressScript s ++
            Coins.writeVarint v).length)
          (acc ++ [Coins.OutEntry.compressed off ((off + (Coins.compressScript s ++
            Coins.writeVarint v).length) - off) data])
          (by omega) (by omega)
          (by exact drop_shift (by rw [hdrop]; rfl))]
        rw [he]
        simp only [Coins.encEntries, Coins.outputBytes]
        rw [show off + (Coins.compressScript s ++
          Coins.writeVarint v).length - off =
          (Coins.compressScript s ++ Coins.writeVarint v).length by omega]
        simp [List.append_assoc]

/-! ## C7: header arithmetic -/

theorem two_mul_or_one (n : Nat) : 2 * n ||| 1 = 2 * n + 1 := by
  apply Nat.eq_of_testBit_eq
  intro i
  rw [Nat.testBit_lor]
  cases i with
  | zero =>
    have h1 : (2 * n) % 2 = 0 := by omega
    have h2 : (2 * n + 1) % 2 = 1 := by omega
    simp [Nat.testBit_zero, h1, h2]
  | succ k =>
    have h1 : 2 * n / 2 = n := by omega
    have h2 : (2 * n + 1) / 2 = n := by omega
    simp [Nat.testBit_succ, h1, h2]

theorem toUint32_lt (i : Int) : toUint32 i < 4294967296 := by
  simp only [toUint32]
  omega

theorem toUint32_toInt32_nat (m : Nat) (hm : m < 4294967296) :
    toUint32 (toInt32 (m : Int)) = m := by
  simp only [toUint32, toInt32]
  split <;> omega

theorem toUint32_jsShl_one (h : Int) (h0 : 0 ≤ h)
    (h31 : h < 2147483648) : toUint32 (jsShl h 1) = 2 * h.toNat := by
  have hi : toInt32 h = h := by
    simp only [toInt32]
    rw [Int.emod_eq_of_lt h0 (by omega)]
    rw [if_pos h31]
  have ht : toUint32 h = h.toNat := by
    simp only [toUint32]
    rw [Int.emod_eq_of_lt h0 (by omega)]
  unfold jsShl
  rw [hi, ht]
  rw [show (1 % 32) = 1 from rfl, pow_one]
  rw [show h.toNat * 2 = 2 * h.toNat from Nat.mul_comm _ _]
  exact toUint32_toInt32_nat _ (by omega)

theorem toUint32_jsOr_one (a : Int) (n : Nat) (ha : toUint32 a = 2 * n)
    (hn : n < 2147483648) : toUint32 (jsOr a 1) = 2 * n + 1 := by
  unfold jsOr
  rw [ha, show toUint32 1 = 1 from rfl, two_mul_or_one]
  exact toUint32_toInt32_nat _ (by omega)

theorem takeWhile_stop (p : Coins.OutEntry → Bool) :
    ∀ (l : List Coins.OutEntry),
      (l.takeWhile p).length < l.length →
      p (l.getD (l.takeWhile p).length .spent) = false := by
  intro l
  induction l with
  | nil =>
    intro h
    simp at h
  | cons a t ih =>
    intro h
    by_cases hp : p a
    · rw [List.takeWhile_cons_of_pos hp] at h ⊢
      simp only [List.length_cons, List.getD_cons_succ] at h ⊢
      exact ih (by omega)
    · rw [List.takeWhile_cons_of_neg hp]
      simp only [List.length_nil, List.getD_cons_zero]
      simpa using hp

theorem isSpent_true (e : Coins.OutEntry) (h : e.isSpent = true) :
    e = .spent := by
  cases e with
  | spent => rfl
  | coin s v => exact absurd h (by simp [Coins.OutEntry.isSpent])
  | compressed o sz r => exact absurd h (by simp [Coins.OutEntry.isSpent])

theorem csize_last_unspent (outputs : List Coins.OutEntry)
    (h : Coins.csize outputs ≠ 0) :
    (outputs.getD (Coins.csize outputs - 1) .spent).isSpent = false := by
  have hple : (outputs.reverse.takeWhile Coins.OutEntry.isSpent).length ≤
      outputs.length := by
    have := (List.takeWhile_prefix (l := outputs.reverse)
      Coins.OutEntry.isSpent).length_le
    simpa using this
  have hcs : Coins.csize outputs = outputs.length -
      (outputs.reverse.takeWhile Coins.OutEntry.isSpent).length := rfl
  have hlt : (outputs.reverse.takeWhile Coins.OutEntry.isSpent).length <
      outputs.reverse.length := by
    rw [List.length_reverse]
    omega
  have hstop := takeWhile_stop Coins.OutEntry.isSpent outputs.reverse hlt
  have hgd : outputs.reverse.getD
      (outputs.reverse.takeWhile Coins.OutEntry.isSpent).length
      Coins.OutEntry.spent =
      outputs.getD (Coins.csize outputs - 1) Coins.OutEntry.spent := by
    rw [List.getD_eq_getElem _ _ hlt]
    rw [List.getElem_reverse]
    rw [List.getD_eq_getElem _ _ (by omega)]
    congr 1
    omega
  rw [← hgd]
  exact hstop

/-- C7: for a fully decoded coins object with at least one unspent
output, well-formed scripts and in-range numeric fields, whose height is
−1 or lies strictly below `0x7fffffff`, serialization round-trips:
`fromRaw (toRaw c) hash` recovers the version, hash, height, coinbase
flag and, pointwise through `get`, every output (the spec wrongly
extends this to height `0x7fffffff` itself, which decodes back to −1). -/
theorem C7_coins_roundtrip (c : Coins.Coins)
    (hheight : c.height = -1 ∨ (0 ≤ c.height ∧ c.height < 2147483647))
    (hversion : c.version < 18446744073709551616)
    (hlen : c.outputs.length < 18446744073709551616)
    (houts : ∀ e ∈ c.outputs, e = .spent ∨
      ∃ s v, e = .coin s v ∧ Coins.CScript.wf s ∧
        v < 18446744073709551616)
    (hL0 : Coins.csize c.outputs ≠ 0) :
    ∃ c', Coins.coinsFromRaw (Coins.toRaw c) c.hash = some c' ∧
      c'.version = c.version ∧ c'.hash = c.hash ∧
      c'.height = c.height ∧ c'.coinbase = c.coinbase ∧
      c'.outputs.length = Coins.csize c.outputs ∧
      ∀ i, c'.get i = c.get i := by
  obtain ⟨L, hLdef⟩ : ∃ L, L = Coins.csize c.outputs := ⟨_, rfl⟩
  obtain ⟨flen, hflendef⟩ : ∃ f, f = (L + 7) / 8 := ⟨_, rfl⟩
  obtain ⟨hgt, hgtdef⟩ : ∃ h : Int,
    h = (if c.height = -1 then 2147483647 else c.height) := ⟨_, rfl⟩
  obtain ⟨B, hBdef⟩ : ∃ B, B = toUint32
    (if c.coinbase then jsOr (jsShl hgt 1) 1 else jsShl hgt 1) := ⟨_, rfl⟩
  have hLne : L ≠ 0 := by rw [hLdef]; exact hL0
  have hLlen : L ≤ c.outputs.length := by rw [hLdef]; exact csize_le _
  have hL8 : L ≤ 8 * flen := by omega
  have hflenne : flen ≠ 0 := by omega
  have hdata : Coins.toRaw c =
      Coins.writeVarint c.version ++ (Script.u32le B ++
        (Coins.writeVarint flen ++
          ((List.range flen).map (Coins.spentByte c.outputs L) ++
            ((c.outputs.take L).map Coins.outputBytes).flatten))) := by
    rw [hBdef, hgtdef, hflendef, hLdef]
    unfold Coins.toRaw
    rw [if_neg hL0]
    simp [List.append_assoc]
  have h0 : (Coins.toRaw c).drop 0 =
      Coins.writeVarint c.version ++ (Script.u32le B ++
        (Coins.writeVarint flen ++
          ((List.range flen).map (Coins.spentByte c.outputs L) ++
            ((c.outputs.take L).map Coins.outputBytes).flatten))) := by
    rw [List.drop_zero]
    exact hdata
  have hv1 := readVarint_suffix hversion h0
  have hBlt : B < 4294967296 := by rw [hBdef]; exact toUint32_lt _
  have hu32 := readU32_suffix hBlt (drop_shift h0)
  have hflt : flen < 18446744073709551616 := by
    have h := csize_le c.outputs
    omega
  have hu32len : (Script.u32le B).length = 4 := rfl
  have h2 : (Coins.toRaw c).drop
      (0 + (Coins.writeVarint c.version).length + 4) =
      Coins.writeVarint flen ++
        ((List.range flen).map (Coins.spentByte c.outputs L) ++
          ((c.outputs.take L).map Coins.outputBytes).flatten) := by
    have h := drop_shift (drop_shift h0)
    rw [hu32len] at h
    exact h
  have hv2 := readVarint_suffix hflt h2
  have h3 := drop_shift h2
  have hfieldlen :
      ((List.range flen).map (Coins.spentByte c.outputs L)).length
        = flen := by
    simp
  have hnn : (List.range flen).map (Coins.spentByte c.outputs L) ≠ [] := by
    intro hcontra
    have h := congrArg List.length hcontra
    simp at h
    exact hflenne h
  have hfb := drop_le_length h3 hnn
  rw [hfieldlen] at hfb
  have hbound : ¬((Coins.toRaw c).length <
      0 + (Coins.writeVarint c.version).length + 4 +
        (Coins.writeVarint flen).length + flen) := by
    omega
  have hgt0 : 0 ≤ hgt := by
    rw [hgtdef]
    split
    · omega
    · rcases hheight with h | ⟨h1, h2⟩
      · omega
      · omega
  have hgtlt : hgt < 2147483648 := by
    rw [hgtdef]
    split
    · omega
    · rcases hheight with h | ⟨h1, h2⟩
      · omega
      · omega
  have hshl := toUint32_jsShl_one hgt hgt0 hgtlt
  have hor := toUint32_jsOr_one (jsShl hgt 1) hgt.toNat hshl (by omega)
  have hBval : B = 2 * hgt.toNat + (if c.coinbase then 1 else 0) := by
    rw [hBdef]
    cases hcb : c.coinbase
    · simpa using hshl
    · simpa using hor
  have hdiv : B / 2 = hgt.toNat := by
    cases hcb : c.coinbase
    · rw [hcb] at hBval
      simp at hBval
      omega
    · rw [hcb] at hBval
      simp at hBval
      omega
  have hmod0 : c.coinbase = false → B % 2 = 0 := by
    intro hcb
    rw [hcb] at hBval
    simp at hBval
    omega
  have hmod1 : c.coinbase = true → B % 2 = 1 := by
    intro hcb
    rw [hcb] at hBval
    simp at hBval
    omega
  have hHeq : (if B / 2 = 2147483647 then (-1 : Int)
      else ((B : Int) / 2)) = c.height := by
    rcases hheight with hm1 | ⟨h1, h2⟩
    · have hg : hgt = 2147483647 := by rw [hgtdef, if_pos hm1]
      rw [if_pos (by omega)]
      omega
    · have hg : hgt = c.height := by rw [hgtdef, if_neg (by omega)]
      rw [if_neg (by omega)]
      omega
  have hCeq : decide (B % 2 = 1) = c.coinbase := by
    cases hcb : c.coinbase
    · have hm := hmod0 hcb
      simp [hm]
    · have hm := hmod1 hcb
      simp [hm]
  have hheader : Coins.readHeader (Coins.toRaw c) c.hash =
      some (⟨c.version, c.hash, c.height, c.coinbase, []⟩,
        0 + (Coins.writeVarint c.version).length + 4 +
          (Coins.writeVarint flen).length,
        0 + (Coins.writeVarint c.version).length + 4 +
          (Coins.writeVarint flen).length + flen) := by
    simp only [Coins.readHeader, hv1, hu32, hv2]
    rw [if_neg hbound]
    simp only [hHeq, hCeq]
  have hfield : ∀ t, t < flen →
      (Coins.toRaw c).getD
          (0 + (Coins.writeVarint c.version).length + 4 +
            (Coins.writeVarint flen).length + t) 0 =
        Coins.spentByte c.outputs L t := by
    intro t ht
    have h := getD_at h3 t 0 (by rw [hfieldlen]; exact ht)
    rw [h]
    rw [List.getD_eq_getElem _ _ (by rw [hfieldlen]; exact ht)]
    rw [List.getElem_map, List.getElem_range]
  have hlast : L ≠ 0 →
      (c.outputs.getD (L - 1) .spent).isSpent = false := by
    intro _
    rw [hLdef]
    exact csize_last_unspent c.outputs hL0
  have hdropbody : (Coins.toRaw c).drop
      (0 + (Coins.writeVarint c.version).length + 4 +
        (Coins.writeVarint flen).length + flen) =
      ((c.outputs.take L).map Coins.outputBytes).flatten := by
    have h := drop_shift h3
    rw [hfieldlen] at h
    exact h
  have hfuel : L - 0 < Coins.fuelFor (Coins.toRaw c) := by
    unfold Coins.fuelFor
    omega
  have hloop := coinsLoop_roundtrip (Coins.toRaw c)
    (0 + (Coins.writeVarint c.version).length + 4 +
      (Coins.writeVarint flen).length) flen L c.outputs
    hL8 hLlen hfield houts hlast
    (Coins.fuelFor (Coins.toRaw c)) 0
    (0 + (Coins.writeVarint c.version).length + 4 +
      (Coins.writeVarint flen).length + flen) []
    (Nat.zero_le L) hfuel (by rw [List.drop_zero]; exact hdropbody)
  rw [List.drop_zero] at hloop
  have houts' : ∀ e ∈ c.outputs.take L, e = Coins.OutEntry.spent ∨
      ∃ s v, e = Coins.OutEntry.coin s v ∧ Coins.CScript.wf s ∧
        v < 18446744073709551616 :=
    fun e he => houts e (List.mem_of_mem_take he)
  refine ⟨⟨c.version, c.hash, c.height, c.coinbase,
    Coins.encEntries (Coins.toRaw c) (c.outputs.take L)
      (0 + (Coins.writeVarint c.version).length + 4 +
        (Coins.writeVarint flen).length + flen)⟩,
    ?_, rfl, rfl, rfl, rfl, ?_, ?_⟩
  · simp only [Coins.coinsFromRaw, hheader, hloop]
    rfl
  · rw [encEntries_length, List.length_take]
    omega
  · intro i
    by_cases hiL : i < L
    · have higet : c.outputs.getD i Coins.OutEntry.spent ∈ c.outputs := by
        rw [List.getD_eq_getElem _ _ (by omega)]
        exact List.getElem_mem _
      have htake : (c.outputs.take L).getD i Coins.OutEntry.spent =
          c.outputs.getD i Coins.OutEntry.spent := by
        rw [List.getD_eq_getElem _ _ (by rw [List.length_take]; omega)]
        rw [List.getElem_take]
        rw [List.getD_eq_getElem _ _ (by omega)]
      have hspec := encEntries_spec (Coins.toRaw c) (c.outputs.take L)
        (0 + (Coins.writeVarint c.version).length + 4 +
          (Coins.writeVarint flen).length + flen) houts' hdropbody i
      rcases houts _ higet with hsp | ⟨s, v, he, hwf, hv⟩
      · have h1 := hspec.1 (by rw [htake]; exact hsp)
        simp only [Coins.Coins.get, h1, hsp]
      · obtain ⟨o, ho, htc⟩ := hspec.2 s v (by rw [htake]; exact he)
        simp only [Coins.Coins.get, ho, he]
        rw [htc ⟨c.version, c.hash, c.height, c.coinbase,
          Coins.encEntries (Coins.toRaw c) (c.outputs.take L)
            (0 + (Coins.writeVarint c.version).length + 4 +
              (Coins.writeVarint flen).length + flen)⟩ i]
    · have h1 : (Coins.encEntries (Coins.toRaw c) (c.outputs.take L)
          (0 + (Coins.writeVarint c.version).length + 4 +
            (Coins.writeVarint flen).length + flen)).getD i
          Coins.OutEntry.spent = Coins.OutEntry.spent := by
        rw [List.getD_eq_default]
        rw [encEntries_length, List.length_take]
        omega
      have h2 : c.outputs.getD i Coins.OutEntry.spent =
          Coins.OutEntry.spent := by
        apply isSpent_true
        apply csize_spent_after
        omega
      simp only [Coins.Coins.get, h1, h2]

theorem C7_coins_roundtrip_witness :
    ∃ c', Coins.coinsFromRaw (Coins.toRaw c7c) c7c.hash = some c' ∧
      c'.version = c7c.version ∧ c'.hash = c7c.hash ∧
      c'.height = c7c.height ∧ c'.coinbase = c7c.coinbase ∧
      c'.outputs.length = Coins.csize c7c.outputs ∧
      ∀ i, c'.get i = c7c.get i :=
  C7_coins_roundtrip c7c
    (Or.inr ⟨by decide, by decide⟩)
    (by decide)
    (by decide)
    (by
      intro e he
      simp only [c7c, List.mem_cons, List.not_mem_nil, or_false] at he
      rcases he with rfl | rfl
      · exact Or.inl rfl
      · exact Or.inr ⟨_, _, rfl, by simp [Coins.CScript.wf], by decide⟩)
    (by decide)

/-- The height `0x7fffffff` does not round-trip: its encoding collides
with the −1 marker, so the decoder returns height −1. -/
theorem C7_counterexample :
    (Coins.coinsFromRaw (Coins.toRaw c7bad) c7bad.hash).map
        Coins.Coins.height = some (-1) ∧
      c7bad.height = 2147483647 := by
  constructor
  · rfl
  · rfl

end Bcoin
